import Mathlib

/-!
# PlainFS

A shallow embedding of the PlainFS sources (`plainfs.h`, `mkfs.c`, `plainfs.c`)
and the properties of the specification that were checked against it.

Conventions of the embedding

* C integers are natural numbers or integers; every store into a narrower
  field (`__u8`, `__u16`, `__u32`) is written as an explicit reduction
  modulo `2 ^ w`; a value assigned to an `int` of the formatter is wrapped to
  32 bits by `to_int`.
* A `float` of the formatter is an IEEE binary32 number: every conversion and
  every operation is computed in the rationals and rounded by `f32` to 24
  significant bits, to nearest and ties to even (no intermediate result is
  kept in a wider format). The exponent range is not modelled; the values of
  the formatter are 0 or lie between `2 ^ (-5)` and `2 ^ 31`.
* A C string is the list of its bytes; it ends at the first zero byte or at
  the end of the list.
* The name index `s_lookup`, the bitmap `s_inode_bm` and the inode table of
  the device are total functions of the index; the code itself never
  checks an index against the allocated length.
* Whether `new_inode` and the `kmalloc` of a `struct lookup_entry` return
  memory is an argument of `fs_mknod` and of `fs_readdir` (and of the calls
  `create` and `readdir` of a session); where the argument is left out the
  allocation succeeds. The other allocations (`iget`, the `kmalloc` of
  `fs_fill_super`) succeed. Block reads succeed exactly for the blocks that
  lie on the device.
-/

namespace PlainFS

/-! ## Constants of `plainfs.h` -/

def FS_BSIZE_BITS : Nat := 9
def FS_BSIZE : Nat := 1 <<< FS_BSIZE_BITS
def FS_ROOT_INO : Nat := 1
def FS_FNAME_LEN : Nat := 10
def FS_BOOT_BLK : Nat := 0
def FS_SB_BLK : Nat := 0
def FS_INO_BLK : Nat := 1
def FS_IDATA : Nat := 3

/-- Members of `struct d_ino` in declaration order, each as (size, alignment)
in bytes: `name[10]`, `i_ino`, `i_mode`, `i_size`, `i_nlinks`, `i_uid`, `i_gid`,
`i_time`, `i_data[3]`. -/
def d_ino_members : List (Nat × Nat) :=
  [(10, 1), (2, 2), (2, 2), (2, 2), (1, 1), (1, 1), (1, 1), (4, 4), (6, 2)]

/-- Round `off` up to the next multiple of `a`. -/
def align_up (off a : Nat) : Nat := (off + a - 1) / a * a

/-- Size of a C structure with naturally aligned members. -/
def struct_size (ms : List (Nat × Nat)) : Nat :=
  align_up (ms.foldl (fun off m => align_up off m.2 + m.1) 0)
    (ms.foldl (fun a m => max a m.2) 1)

/-- The value of `sizeof(struct d_ino)`. -/
def sizeof_d_ino : Nat := struct_size d_ino_members

def FS_INO_PER_BLK : Nat := FS_BSIZE / sizeof_d_ino

/-! Error numbers of `errno.h` used by the module. -/

def ENOENT : Int := 2
def ENFILE : Int := 23
def ENOSPC : Int := 28

/-! Stores into the fixed-width fields. -/

def u8 (x : Nat) : Nat := x % 2 ^ 8
def u16 (x : Nat) : Nat := x % 2 ^ 16
def u32 (x : Nat) : Nat := x % 2 ^ 32

/-! ## C strings -/

/-- The bytes of a C string before its terminating zero byte. -/
def cstr (s : List Nat) : List Nat := s.takeWhile (fun c => c != 0)

/-- The array of `n` bytes that `strncpy(dst, src, n)` leaves in `dst`: the
string, cut at `n` bytes, padded with zero bytes. -/
def strncpy (src : List Nat) (n : Nat) : List Nat :=
  (cstr src).take n ++ List.replicate (n - ((cstr src).take n).length) 0

/-- Whether `strncmp(a, b, n)` returns zero. -/
def strncmp_eq (a b : List Nat) (n : Nat) : Bool :=
  decide ((cstr a).take n = (cstr b).take n)

/-- The value of `strnlen(s, n)`. -/
def strnlen (s : List Nat) (n : Nat) : Nat := ((cstr s).take n).length

/-! ## Loops -/

/-- The loop `for (i = start; i < start + fuel; i++) if (p i) break;`: the
index at which it breaks, if it does. -/
def scan (p : Nat → Bool) : Nat → Nat → Option Nat
  | 0, _ => none
  | fuel + 1, i => if p i then some i else scan p fuel (i + 1)

/-! ## On-disk and in-memory records (`plainfs.h`) -/

/-- The three direct pointers `i_data[FS_IDATA]`. -/
structure idata where
  d0 : Nat
  d1 : Nat
  d2 : Nat
deriving DecidableEq, Repr

/-- Read `i_data[b]` for `b` in `0..2`. -/
def idata.get (d : idata) (b : Nat) : Nat :=
  match b with
  | 0 => d.d0
  | 1 => d.d1
  | _ => d.d2

/-- Store into `i_data[b]` for `b` in `0..2`. -/
def idata.set (d : idata) (b : Nat) (v : Nat) : idata :=
  match b with
  | 0 => { d with d0 := v }
  | 1 => { d with d1 := v }
  | _ => { d with d2 := v }

def idata.zero : idata := ⟨0, 0, 0⟩

/-- Record `struct d_ino`: inode data on disk. -/
structure d_ino where
  name : List Nat
  i_ino : Nat
  i_mode : Nat
  i_size : Nat
  i_nlinks : Nat
  i_uid : Nat
  i_gid : Nat
  i_time : Nat
  i_data : idata
deriving DecidableEq, Repr

/-- Record `struct d_sb`: super-block data on disk. -/
structure d_sb where
  s_magic : List Nat
  s_nnodes : Nat
  s_nblocks : Nat
deriving DecidableEq, Repr

/-- Record `struct lookup_entry`. -/
structure lookup_entry where
  name : List Nat
  i_ino : Nat
deriving DecidableEq, Repr

/-- Record `struct m_sb`: super-block data in memory. -/
structure m_sb where
  s_nnodes : Nat
  s_nblocks : Nat
  s_lookup : Nat → Option lookup_entry
  s_inode_bm : Nat → Bool

/-- The block device: its size in blocks, the superblock of block `FS_SB_BLK`,
and the blocks from `FS_INO_BLK` on read as an array of `struct d_ino`
(`FS_INO_PER_BLK` records to the block). -/
structure disk where
  dev_blocks : Nat
  sb : d_sb
  itable : Nat → d_ino

/-- The fields of the VFS `struct inode` the module uses, together with the
`i_data` of the enclosing `struct fs_inode_info`. -/
structure inode where
  i_ino : Nat
  i_mode : Nat
  i_uid : Nat
  i_gid : Nat
  i_size : Nat
  i_nlink : Nat
  i_mtime : Nat
  i_ctime : Nat
  i_data : idata
deriving DecidableEq, Repr

/-! ## Arithmetic of `int` and `float` -/

/-- The `int` that the conversion of the integer `x` yields: `x` reduced modulo
`2 ^ 32` into the range of `int`. -/
def to_int (x : Int) : Int := (x + 2147483648) % 4294967296 - 2147483648

/-- The value a store of the `int` `x` leaves in a `__u16` field. -/
def u16_of_int (x : Int) : Nat := (x % 65536).toNat

/-- Round to the nearest integer, a tie to the even one. -/
def round_even (x : ℚ) : Int :=
  if x - ⌊x⌋ < 1 / 2 then ⌊x⌋
  else if 1 / 2 < x - ⌊x⌋ then ⌊x⌋ + 1
  else if ⌊x⌋ % 2 = 0 then ⌊x⌋ else ⌊x⌋ + 1

/-- The `float` nearest to a positive `x`: 24 bits of significand, a tie to the
even significand. The unit in the last place is `2 ^ (e - 23)` for
`2 ^ e ≤ x < 2 ^ (e + 1)`. The range of the exponent is not limited: the values
of `main` are 0 or lie between `2 ^ (-5)` and `2 ^ 31`. -/
def f32_pos (x : ℚ) : ℚ :=
  (round_even (x / 2 ^ (Int.log 2 x - 23)) : ℚ) * 2 ^ (Int.log 2 x - 23)

/-- The `float` (IEEE binary32, round to nearest even) that an operation with the
exact result `x` yields. -/
def f32 (x : ℚ) : ℚ :=
  if x = 0 then 0 else if 0 < x then f32_pos x else -f32_pos (-x)

/-- The conversion of a `float` to `int`: the fraction is dropped. -/
def f32_to_int (x : ℚ) : Int := if 0 ≤ x then ⌊x⌋ else ⌈x⌉

/-! ## The formatter (`mkfs.c`) -/

/-- The quotient `dev_stat.st_size/FS_BSIZE` that `main` assigns to `int nblocks`;
the `int` itself is `to_int` of it. -/
def nblocks (st_size : Nat) : Nat := st_size / FS_BSIZE

/-- `int nbytes_l = dev_stat.st_size - FS_BSIZE*nblocks`. -/
def nbytes_l (st_size : Nat) : Int :=
  to_int ((st_size : Int) - to_int ((FS_BSIZE : Int) * to_int (nblocks st_size)))

/-- `float ino_p_blk = (float)FS_BSIZE/sizeof(struct d_ino)`. Every operation on
`float` is rounded to `float`. -/
def ino_p_blk : ℚ := f32 (f32 (FS_BSIZE : ℚ) / f32 (sizeof_d_ino : ℚ))

/-- `int nino_zone = nblocks/(ino_p_blk + 1)`: size of the inode table in blocks,
for the quotient `nblocks`. The `int nblocks` is converted to `float`, divided,
and the quotient converted to `int`. -/
def nino_zone (nblocks : Nat) : Int :=
  f32_to_int (f32 (f32 ((to_int nblocks : Int) : ℚ) / f32 (ino_p_blk + f32 1)))

/-- `int nino = nino_zone*ino_p_blk`: number of inodes. -/
def nino (nblocks : Nat) : Int :=
  f32_to_int (f32 (f32 ((nino_zone nblocks : Int) : ℚ) * ino_p_blk))

attribute [irreducible] to_int nino_zone nino

/-- `int nblocks_l = nblocks - nino_zone - nino`: lost blocks. -/
def nblocks_l (nblocks : Nat) : Int := to_int nblocks - nino_zone nblocks - nino nblocks

/-- The bytes of `"plainfs superblock"`. -/
def magic : List Nat :=
  [112, 108, 97, 105, 110, 102, 115, 32, 115, 117, 112, 101, 114, 98, 108, 111, 99, 107]

/-- The global `s` of `mkfs.c` as `main` fills it: both counts are stored into
`__u16` fields. -/
def mkfs_sb (st_size : Nat) : d_sb :=
  { s_magic := magic
    s_nnodes := u16_of_int (nino (nblocks st_size))
    s_nblocks := u16_of_int (to_int (nblocks st_size)) }

/-- The name `sprintf(di.name, "ino%05d", i)` leaves in the zeroed `name[10]`
(for `i < 100000`, which every `i < s.s_nnodes` is). -/
def ino_name (i : Nat) : List Nat :=
  [105, 110, 111, 48 + i / 10000 % 10, 48 + i / 1000 % 10, 48 + i / 100 % 10,
    48 + i / 10 % 10, 48 + i % 10, 0, 0]

/-- The record `di` that `write_tables` writes for inode `i`: zeroed by `memset`,
`i_nlinks = 0`, and the name printed into it. -/
def mkfs_di (i : Nat) : d_ino :=
  { name := ino_name i, i_ino := 0, i_mode := 0, i_size := 0, i_nlinks := 0,
    i_uid := 0, i_gid := 0, i_time := 0, i_data := idata.zero }

/-- Whether `write_tables` writes the block `"unused tail"`: the test
`s.s_nblocks - 1 > s.s_nnodes` on the two `__u16` fields promoted to `int`. -/
def writes_tail (s : d_sb) : Bool := decide ((s.s_nblocks : Int) - 1 > (s.s_nnodes : Int))

/-- The number of bytes `write_tables` writes, one `write` behind the other (its
`lseek` passes the offset where the `whence` belongs and moves nothing). -/
def bytes_written (s : d_sb) : Nat :=
  FS_BSIZE + s.s_nnodes * sizeof_d_ino + s.s_nnodes * FS_BSIZE
    + (if writes_tail s then FS_BSIZE else 0)

/-- The device after `write_tables` when every `write` is complete: the
superblock in block 0 and `s.s_nnodes` records behind it; what lies behind the
inode table is not read as inode records and keeps the value of `old`. The
device ends where it ended before or where the last `write` ended. -/
def write_tables (s : d_sb) (old : disk) : disk :=
  { dev_blocks := max old.dev_blocks ((bytes_written s + FS_BSIZE - 1) / FS_BSIZE)
    sb := s
    itable := fun i => if i < s.s_nnodes then mkfs_di i else old.itable i }

/-- The formatter `main` on a device of `st_size` bytes holding `old`. -/
def mkfs (st_size : Nat) (old : disk) : disk :=
  write_tables (mkfs_sb st_size) { old with dev_blocks := nblocks st_size }

/-- Whether `write_tables` returns (rather than calls `die`) when the `k`-th call
of `write` returns `wr k`. Call 0 writes the superblock, the calls `1..s_nnodes`
write the inode records, the calls `s_nnodes + 1..2 * s_nnodes` the data blocks,
and the last the tail block; only the returns of the superblock and of the data
blocks are compared with the size asked for. -/
def write_tables_returns (s : d_sb) (wr : Nat → Int) : Bool :=
  if wr 0 ≠ (FS_BSIZE : Int) then false
  else
    match scan (fun i => decide (wr (1 + s.s_nnodes + i) ≠ (FS_BSIZE : Int))) s.s_nnodes 0 with
    | some _ => false
    | none => true

/-! ## The kernel module (`plainfs.c`) -/

def S_IFDIR : Nat := 0o040000
def S_IFREG : Nat := 0o100000
def S_ISGID : Nat := 0o002000

def test_bit (nr : Nat) (bm : Nat → Bool) : Bool := bm nr

/-- The kernel's `set_bit(nr, addr)`; `nr` is a C `int`, and a store at a negative
bit number falls outside the bitmap. -/
def set_bit (nr : Int) (bm : Nat → Bool) : Nat → Bool :=
  if 0 ≤ nr then Function.update bm nr.toNat true else bm

/-- The kernel's `clear_bit(nr, addr)`. -/
def clear_bit (nr : Int) (bm : Nat → Bool) : Nat → Bool :=
  if 0 ≤ nr then Function.update bm nr.toNat false else bm

/-- The fields of `struct buffer_head` that `fs_get_block` touches. -/
structure buffer_head where
  b_blocknr : Nat
  mapped : Bool
  is_new : Bool
deriving DecidableEq, Repr

def map_bh (bh : buffer_head) (block : Nat) : buffer_head :=
  { bh with mapped := true, b_blocknr := block }

def set_buffer_new (bh : buffer_head) : buffer_head := { bh with is_new := true }

/-- Whether `sb_bread(s, blk)` returns a buffer. -/
def sb_bread (dev : disk) (blk : Nat) : Bool := decide (blk < dev.dev_blocks)

/-- Position in `disk.itable` of the record `(struct d_ino*)bh->b_data + off` of
block `blk`. -/
def di_pos (blk off : Nat) : Nat := (blk - FS_INO_BLK) * FS_INO_PER_BLK + off

/-- What `fs_get_block` returns and leaves behind. -/
structure get_block_result where
  rc : Int
  sbi : m_sb
  ino : inode
  bh : buffer_head

/-- The allocation loop of `fs_get_block`. -/
def get_block_alloc (sbi : m_sb) (ino : inode) (block : Nat) : m_sb × inode :=
  match scan (fun i => !test_bit i sbi.s_inode_bm) sbi.s_nnodes 0 with
  | some i =>
    ({ sbi with s_inode_bm := set_bit i sbi.s_inode_bm },
     { ino with
       i_data := ino.i_data.set block (u16 (FS_INO_BLK + sbi.s_nnodes / FS_INO_PER_BLK + i)) })
  | none => (sbi, ino)

def fs_get_block (sbi : m_sb) (ino : inode) (block : Nat) (bh : buffer_head) (create : Int) :
    get_block_result :=
  if block > FS_IDATA - 1 then ⟨-ENOSPC, sbi, ino, bh⟩
  else if create ≠ 0 then
    let r := get_block_alloc sbi ino block
    if r.2.i_data.get block = 0 then ⟨-ENOSPC, r.1, r.2, bh⟩
    else ⟨0, r.1, r.2, map_bh (set_buffer_new bh) (r.2.i_data.get block)⟩
  else ⟨0, sbi, ino, map_bh bh (ino.i_data.get block)⟩

/-- The index at which the loop of `fs_raw_inode`, `fs_inode_to_name` finds an
entry with inode number `ino`. -/
def lookup_by_ino (sbi : m_sb) (ino : Nat) : Option Nat :=
  scan (fun i => match sbi.s_lookup i with
    | none => false
    | some le => decide (le.i_ino = ino)) sbi.s_nnodes 0

/-- The position in the inode table of the record `fs_raw_inode` returns. -/
def fs_raw_inode (sbi : m_sb) (dev : disk) (ino : Nat) : Option Nat :=
  match lookup_by_ino sbi ino with
  | none => none
  | some i =>
    if sb_bread dev (FS_INO_BLK + i / FS_INO_PER_BLK) then
      some (di_pos (FS_INO_BLK + i / FS_INO_PER_BLK) (i % FS_INO_PER_BLK))
    else none

def fs_inode_to_name (sbi : m_sb) (ino : Nat) : Option (List Nat) :=
  match lookup_by_ino sbi ino with
  | none => none
  | some i => (sbi.s_lookup i).map (fun le => le.name)

def fs_name_to_inode (sbi : m_sb) (dname : List Nat) : Nat :=
  match scan (fun i => match sbi.s_lookup i with
      | none => false
      | some le => strncmp_eq le.name dname FS_FNAME_LEN) sbi.s_nnodes 0 with
  | none => 0
  | some i => match sbi.s_lookup i with
    | none => 0
    | some le => le.i_ino

def fs_find_free_inode (sbi : m_sb) : Nat :=
  match scan (fun i => (sbi.s_lookup i).isNone) sbi.s_nnodes 0 with
  | none => FS_ROOT_INO
  | some i => FS_ROOT_INO + i + 1

/-- A `struct inode` as `alloc_inode` and `fs_alloc_inode` hand it out: link
count 1, size 0, and the three pointers of `fs_inode_info` zeroed. -/
def fs_alloc_inode (ino : Nat) : inode :=
  { i_ino := ino, i_mode := 0, i_uid := 0, i_gid := 0, i_size := 0, i_nlink := 1,
    i_mtime := 0, i_ctime := 0, i_data := idata.zero }

/-- The `blk0_off` of `fs_read_inode`. -/
def blk0_off (sbi : m_sb) : Nat :=
  1 + sbi.s_nnodes / FS_INO_PER_BLK + (if sbi.s_nnodes % FS_INO_PER_BLK ≠ 0 then 1 else 0)

/-- Function `fs_read_inode` on the inode `ino` that `iget` has just allocated;
`none` stands for the inode made bad. -/
def fs_read_inode (sbi : m_sb) (dev : disk) (ino : inode) (now : Nat) : m_sb × Option inode :=
  if FS_ROOT_INO = ino.i_ino then
    (sbi, some { ino with
      i_mode := 0o644 ||| S_IFDIR, i_size := sbi.s_nnodes, i_uid := 0, i_gid := 0,
      i_mtime := now, i_ctime := now, i_nlink := 1 })
  else
    match fs_raw_inode sbi dev ino.i_ino with
    | none => (sbi, none)
    | some pos =>
      let di := dev.itable pos
      let bm := (List.range FS_IDATA).foldl (fun bm i =>
        if di.i_data.get i ≠ 0 then
          set_bit ((di.i_data.get i : Int) - (blk0_off sbi : Int)) bm
        else bm) sbi.s_inode_bm
      ({ sbi with s_inode_bm := bm },
       some { ino with
        i_size := di.i_size, i_mode := di.i_mode ||| S_IFREG, i_uid := di.i_uid,
        i_gid := di.i_gid, i_mtime := di.i_time, i_ctime := di.i_time,
        i_data := di.i_data, i_nlink := 1 })

/-- The bytes `sprintf(fname1, "ufile%lu", ino)` prints. -/
def ufile_name (ino : Nat) : List Nat :=
  [117, 102, 105, 108, 101] ++ (Nat.toDigits 10 ino).map Char.toNat

/-- Function `fs_write_inode`: the return code and the device. The slot
`i = inode->i_ino - FS_ROOT_INO - 1` is negative only for inode number 0; the
quotient `i/FS_INO_PER_BLK` is then taken in `unsigned long`, the block lies
behind every device and `sb_bread` returns no buffer. -/
def fs_write_inode (sbi : m_sb) (dev : disk) (ino : inode) : Int × disk :=
  if FS_ROOT_INO = ino.i_ino then (0, dev)
  else if ino.i_ino < FS_ROOT_INO + 1 then (0, dev)
  else
    let i := ino.i_ino - FS_ROOT_INO - 1
    if !sb_bread dev (FS_INO_BLK + i / FS_INO_PER_BLK) then (0, dev)
    else
      let pos := di_pos (FS_INO_BLK + i / FS_INO_PER_BLK) (i % FS_INO_PER_BLK)
      let fname0 := match fs_inode_to_name sbi ino.i_ino with
        | some nm => nm
        | none => ufile_name ino.i_ino
      let di := dev.itable pos
      let di1 : d_ino :=
        { di with
          name := strncpy fname0 FS_FNAME_LEN, i_ino := u16 ino.i_ino,
          i_mode := u16 ino.i_mode, i_uid := u8 ino.i_uid, i_gid := u8 ino.i_gid,
          i_size := u16 ino.i_size, i_nlinks := 1, i_time := u32 ino.i_mtime,
          i_data := ino.i_data }
      (0, { dev with itable := Function.update dev.itable pos di1 })

/-- The fields of `current` and the clock that `fs_mknod` and `fs_unlink` read. -/
structure task where
  fsuid : Nat
  fsgid : Nat
  now : Nat
deriving DecidableEq, Repr

/-- A mounted file system: the device (seen through the buffer cache), the
`struct m_sb` of the mount, and the in-core inodes of the inode hash. -/
structure fs_state where
  dev : disk
  sbi : m_sb
  icache : List inode

/-- What `fs_mknod` returns and leaves behind; `d_inode` is the inode that
`d_instantiate` attached to the dentry. -/
structure mknod_result where
  rc : Int
  st : fs_state
  d_inode : Option inode

/-- The in-core inode as `fs_mknod` fills it in before it writes the record. -/
def mknod_inode (dir : inode) (mode : Nat) (cur : task) (i : Nat) : inode :=
  { fs_alloc_inode i with
    i_uid := cur.fsuid
    i_gid := if dir.i_mode &&& S_ISGID ≠ 0 then dir.i_gid else cur.fsgid
    i_mtime := cur.now, i_ctime := cur.now, i_mode := u16 mode }

/-- Function `fs_mknod`. `inode_ok` tells whether `new_inode` returns an inode,
`le_ok` whether the `kmalloc` of the lookup entry returns memory: without the
inode the call returns `-ENOSPC`; without the entry it writes the record,
attaches the inode to the dentry and returns 0, and the name index is left as it
was. -/
def fs_mknod (st : fs_state) (dir : inode) (dname : List Nat) (mode : Nat) (cur : task)
    (inode_ok : Bool := true) (le_ok : Bool := true) : mknod_result :=
  if !inode_ok then ⟨-ENOSPC, st, none⟩
  else
    let i := fs_find_free_inode st.sbi
    if FS_ROOT_INO = i then ⟨-ENFILE, st, none⟩
    else
      let ino : inode := mknod_inode dir mode cur i
      let slot := ino.i_ino - FS_ROOT_INO - 1
      if !sb_bread st.dev (FS_INO_BLK + slot / FS_INO_PER_BLK) then
        ⟨0, { st with icache := st.icache ++ [ino] }, none⟩
      else
        let pos := di_pos (FS_INO_BLK + slot / FS_INO_PER_BLK) (slot % FS_INO_PER_BLK)
        let di := st.dev.itable pos
        let di1 : d_ino :=
          { di with
            name := strncpy dname FS_FNAME_LEN, i_ino := u16 ino.i_ino,
            i_mode := u16 ino.i_mode, i_size := u16 ino.i_size, i_nlinks := 1,
            i_data := idata.zero }
        let le : lookup_entry := ⟨strncpy dname FS_FNAME_LEN, u16 ino.i_ino⟩
        ⟨0, { dev := { st.dev with itable := Function.update st.dev.itable pos di1 }
              sbi := { st.sbi with
                s_lookup :=
                  if le_ok then Function.update st.sbi.s_lookup slot (some le)
                  else st.sbi.s_lookup }
              icache := st.icache ++ [ino] }, some ino⟩

/-- Function `fs_delete_inode` on the in-core inode `ino`: the mount data and the
device it leaves. The index `inode->i_ino - FS_ROOT_INO - 1` of the entry it
frees is an `unsigned long`; below `FS_ROOT_INO + 1` it wraps and the store
falls outside the name index. -/
def fs_delete_inode (sbi : m_sb) (dev : disk) (ino : inode) : m_sb × disk :=
  match fs_raw_inode sbi dev ino.i_ino with
  | none => (sbi, dev)
  | some pos =>
    let di := dev.itable pos
    let di1 : d_ino := { di with name := di.name.set 0 0, i_nlinks := 0 }
    let lookup1 :=
      if FS_ROOT_INO + 1 ≤ ino.i_ino then
        Function.update sbi.s_lookup (ino.i_ino - FS_ROOT_INO - 1) none
      else sbi.s_lookup
    let bm := (List.range FS_IDATA).foldl (fun bm i =>
      if ino.i_data.get i ≠ 0 then
        clear_bit ((ino.i_data.get i : Int) - (sbi.s_nnodes / FS_INO_PER_BLK : Nat) - 1) bm
      else bm) sbi.s_inode_bm
    ({ sbi with s_lookup := lookup1, s_inode_bm := bm },
     { dev with itable := Function.update dev.itable pos di1 })

/-- One call of `filldir`. -/
structure dirent where
  name : List Nat
  offset : Nat
  ino : Nat
deriving DecidableEq, Repr

/-- The variables the loops of `fs_readdir` update. -/
structure readdir_acc where
  lookup : Nat → Option lookup_entry
  ents : List dirent
  f_pos : Nat

/-- The body of the inner loop of `fs_readdir` for record `j` of table block `i`.
`le_ok` tells whether the `kmalloc` of the lookup entry returns memory; without
it the entry has been handed to `filldir` and the name index is left as it
was. -/
def readdir_slot (dev : disk) (i j : Nat) (a : readdir_acc) (le_ok : Bool := true) :
    readdir_acc :=
  let di := dev.itable (di_pos (FS_INO_BLK + i) j)
  if di.i_nlinks ≠ 0 then
    { lookup :=
        if le_ok then
          Function.update a.lookup (i * FS_INO_PER_BLK + j)
            (some ⟨strncpy di.name FS_FNAME_LEN, di.i_ino⟩)
        else a.lookup
      ents := a.ents ++ [⟨(cstr di.name).take FS_FNAME_LEN, a.f_pos, di.i_ino⟩]
      f_pos := a.f_pos + 1 }
  else a

/-- The outer loop of `fs_readdir` over the table blocks `bs`; it stops at the
first block that cannot be read. `km p` tells whether the `kmalloc` for the
record of slot `p` returns memory. -/
def readdir_blocks (dev : disk) (bs : List Nat) (a : readdir_acc)
    (km : Nat → Bool := fun _ => true) : readdir_acc :=
  match bs with
  | [] => a
  | i :: is =>
    if sb_bread dev (FS_INO_BLK + i) then
      readdir_blocks dev is
        ((List.range FS_INO_PER_BLK).foldl
          (fun a j => readdir_slot dev i j a (km (i * FS_INO_PER_BLK + j))) a) km
    else a

/-- Function `fs_readdir` called at file position `f_pos`: the name index, the
entries handed to `filldir` and the new file position. `km p` tells whether the
`kmalloc` of the lookup entry for the record of slot `p` returns memory. -/
def fs_readdir (sbi : m_sb) (dev : disk) (f_pos : Nat) (km : Nat → Bool := fun _ => true) :
    readdir_acc :=
  if f_pos ≠ 0 then ⟨sbi.s_lookup, [], f_pos⟩
  else
    readdir_blocks dev (List.range (sbi.s_nnodes / FS_INO_PER_BLK))
      ⟨sbi.s_lookup, [⟨[46], f_pos, FS_ROOT_INO⟩, ⟨[46, 46], f_pos + 1, FS_ROOT_INO⟩], f_pos + 2⟩
      km

/-- The decrement `i_nlink--` of an `unsigned int`: below 0 it wraps. -/
def nlink_dec (n : Nat) : Nat := if n = 0 then 4294967295 else n - 1

/-- Function `fs_unlink`. -/
def fs_unlink (ino : inode) (now : Nat) : Int × inode :=
  (0, { ino with i_nlink := nlink_dec ino.i_nlink, i_ctime := now })

/-- Function `fs_rename`; `old_inode` is `old_dentry->d_inode`. As in
`fs_write_inode`, no block is read for an inode number below `FS_ROOT_INO + 1`. -/
def fs_rename (dev : disk) (old_inode : Option inode) (new_name : List Nat) : Int × disk :=
  match old_inode with
  | none => (-ENOENT, dev)
  | some ino =>
    if ino.i_ino < FS_ROOT_INO + 1 then (-ENOENT, dev)
    else
      let i := ino.i_ino - FS_ROOT_INO - 1
      if !sb_bread dev (FS_INO_BLK + i / FS_INO_PER_BLK) then (-ENOENT, dev)
      else
        let pos := di_pos (FS_INO_BLK + i / FS_INO_PER_BLK) (i % FS_INO_PER_BLK)
        let di := dev.itable pos
        (0, { dev with
          itable := Function.update dev.itable pos
            { di with name := strncpy new_name FS_FNAME_LEN } })

/-- Function `fs_fill_super` when the superblock can be read: the name index
and the bitmap are zeroed, and `iget` reads the root inode. -/
def fs_fill_super (dev : disk) (now : Nat) : Option fs_state :=
  if !sb_bread dev FS_SB_BLK then none
  else
    let sbi : m_sb :=
      { s_nnodes := dev.sb.s_nnodes, s_nblocks := dev.sb.s_nblocks,
        s_lookup := fun _ => none, s_inode_bm := fun _ => false }
    match fs_read_inode sbi dev (fs_alloc_inode FS_ROOT_INO) now with
    | (sbi1, some root) => some { dev := dev, sbi := sbi1, icache := [root] }
    | (_, none) => none

/-- The kernel's `iget(s, ino)` as `fs_lookup` calls it: an inode of that number
in the inode hash is returned as it is; otherwise a new inode is allocated by
`fs_alloc_inode` and filled in by `fs_read_inode` (an inode made bad is not kept
in the hash). -/
def iget (st : fs_state) (ino : Nat) (now : Nat) : fs_state :=
  if st.icache.any (fun x => decide (x.i_ino = ino)) then st
  else
    match fs_read_inode st.sbi st.dev (fs_alloc_inode ino) now with
    | (sbi1, some x) => { st with sbi := sbi1, icache := st.icache ++ [x] }
    | (sbi1, none) => { st with sbi := sbi1 }

/-- Function `fs_lookup`: the state it leaves. -/
def fs_lookup (st : fs_state) (dname : List Nat) (now : Nat) : fs_state :=
  if fs_name_to_inode st.sbi dname = 0 then st
  else iget st (fs_name_to_inode st.sbi dname) now

/-! ## Sessions: the operations as a transition system -/

/-- The calls the VFS makes into the module; `h` is the position of the in-core
inode in `fs_state.icache`. A create carries what `new_inode` and the `kmalloc`
of the lookup entry return (memory or none), a directory read carries for each
slot whether the `kmalloc` of its lookup entry returns memory; left out, every
allocation returns memory. -/
inductive op where
  | create (dir : inode) (dname : List Nat) (mode : Nat) (cur : task)
      (inode_ok : Bool := true) (le_ok : Bool := true)
  | get_block (h : Nat) (block : Nat) (create : Int)
  | write_inode (h : Nat)
  | readdir (f_pos : Nat) (km : Nat → Bool := fun _ => true)
  | unlink (h : Nat) (now : Nat)
  | delete_inode (h : Nat)

/-- The state after one call. A call on an inode that is not in core leaves
the state as it is; `delete_inode` drops the inode from the cache. -/
def step (st : fs_state) : op → fs_state
  | .create dir dname mode cur inode_ok le_ok =>
    (fs_mknod st dir dname mode cur inode_ok le_ok).st
  | .get_block h block create =>
    match st.icache[h]? with
    | none => st
    | some ino =>
      let r := fs_get_block st.sbi ino block ⟨0, false, false⟩ create
      { st with sbi := r.sbi, icache := st.icache.set h r.ino }
  | .write_inode h =>
    match st.icache[h]? with
    | none => st
    | some ino => { st with dev := (fs_write_inode st.sbi st.dev ino).2 }
  | .readdir f_pos km =>
    { st with sbi := { st.sbi with s_lookup := (fs_readdir st.sbi st.dev f_pos km).lookup } }
  | .unlink h now =>
    match st.icache[h]? with
    | none => st
    | some ino => { st with icache := st.icache.set h (fs_unlink ino now).2 }
  | .delete_inode h =>
    match st.icache[h]? with
    | none => st
    | some ino =>
      let r := fs_delete_inode st.sbi st.dev ino
      { dev := r.2, sbi := r.1, icache := st.icache.eraseIdx h }

/-- Run a sequence of calls. -/
def run (st : fs_state) (ops : List op) : fs_state := ops.foldl step st

/-- The calls of a session together with rename, with unmounting and mounting
the device again, and with the lookup of a name. -/
inductive call where
  | base (o : op)
  | rename (h : Nat) (new_name : List Nat)
  | remount (now : Nat)
  | lookup (dname : List Nat) (now : Nat)

/-- The state after one call. `rename` is `fs_rename` on the in-core inode at
position `h`; `remount` forgets the mount data and the in-core inodes and mounts
the device as it is (a device without block 0 cannot be mounted and is left);
`lookup` is `fs_lookup`. -/
def step_call (st : fs_state) : call → fs_state
  | .base o => step st o
  | .rename h new_name =>
    match st.icache[h]? with
    | none => st
    | some ino => { st with dev := (fs_rename st.dev (some ino) new_name).2 }
  | .remount now =>
    match fs_fill_super st.dev now with
    | some st1 => st1
    | none => st
  | .lookup dname now => fs_lookup st dname now

/-- Run a sequence of calls. -/
def run_calls (st : fs_state) (cs : List call) : fs_state := cs.foldl step_call st

/-- The bit number `fs_read_inode` passes to `set_bit` for the pointer `p`. -/
def read_inode_bit (sbi : m_sb) (p : Nat) : Int := (p : Int) - (blk0_off sbi : Int)

/-- The bit number `fs_delete_inode` passes to `clear_bit` for the pointer `p`. -/
def delete_inode_bit (sbi : m_sb) (p : Nat) : Int :=
  (p : Int) - (sbi.s_nnodes / FS_INO_PER_BLK : Nat) - 1

/-- The pointer `fs_get_block` stores when it allocates bit `i`. -/
def get_block_ptr (sbi : m_sb) (i : Nat) : Nat :=
  u16 (FS_INO_BLK + sbi.s_nnodes / FS_INO_PER_BLK + i)

/-- The inode numbers of the records of a table of `n` slots follow the slots:
a record holds 0 or `FS_ROOT_INO + 1 + i`, and the latter when it is linked. -/
def disk_ok (n : Nat) (t : Nat → d_ino) : Prop :=
  ∀ i, i < n → ((t i).i_ino = 0 ∨ (t i).i_ino = FS_ROOT_INO + 1 + i) ∧
    ((t i).i_nlinks ≠ 0 → (t i).i_ino = FS_ROOT_INO + 1 + i)

/-- The inode numbers of the entries of a name index of `n` slots follow the
slots. -/
def lookup_ok (n : Nat) (l : Nat → Option lookup_entry) : Prop :=
  ∀ (i : Nat) (le : lookup_entry), l i = some le → i < n ∧ le.i_ino = FS_ROOT_INO + 1 + i

/-- The in-core inodes are the root or have the number of a slot below `n`. -/
def icache_ok (n : Nat) (ic : List inode) : Prop :=
  ∀ (h : Nat) (ino : inode), ic[h]? = some ino →
    ino.i_ino = FS_ROOT_INO ∨
      (FS_ROOT_INO + 1 ≤ ino.i_ino ∧ ino.i_ino - FS_ROOT_INO - 1 < n)

/-- The invariant of the inode numbers of a mounted file system. -/
def ino_inv (st : fs_state) : Prop :=
  st.sbi.s_nnodes = st.dev.sb.s_nnodes ∧ st.sbi.s_nnodes ≤ 65520 ∧
  disk_ok st.sbi.s_nnodes st.dev.itable ∧ lookup_ok st.sbi.s_nnodes st.sbi.s_lookup ∧
  icache_ok st.sbi.s_nnodes st.icache

/-- The name a call creates a file under, if it is a create. -/
def op.created_name : op → Option (List Nat)
  | .create _ dname _ _ _ _ => some dname
  | _ => none

/-- The names of the creates of a session, in order. -/
def created_names (ops : List op) : List (List Nat) := ops.filterMap op.created_name

/-- Whether a call is a directory read. -/
def op.is_readdir : op → Bool
  | .readdir _ _ => true
  | _ => false

/-- Whether a call is `fs_delete_inode`. -/
def op.is_delete_inode : op → Bool
  | .delete_inode _ => true
  | _ => false

/-- The invariant of the name index in a session without directory reads: every
entry sits below the inode count, carries the inode number of its slot, and has
the name of a create of the session. -/
def lookup_inv (names : List (List Nat)) (sbi : m_sb) : Prop :=
  ∀ (k : Nat) (le : lookup_entry), sbi.s_lookup k = some le →
    k < sbi.s_nnodes ∧ le.i_ino = u16 (FS_ROOT_INO + k + 1) ∧
    ∃ nm, nm ∈ names ∧ le.name = strncpy nm FS_FNAME_LEN

/-- The arguments of one `fs_mknod` call. -/
structure create_args where
  dir : inode
  dname : List Nat
  mode : Nat
  cur : task

/-- A run of `fs_mknod` calls: what each call returned, and the state after the
last. -/
def mknod_seq (st : fs_state) : List create_args → List mknod_result × fs_state
  | [] => ([], st)
  | c :: cs =>
    let r := fs_mknod st c.dir c.dname c.mode c.cur
    ((r :: (mknod_seq r.st cs).1), (mknod_seq r.st cs).2)

/-- The invariant of the block pointers of the in-core inodes `ic` under the
bitmap `bm` of a mount with `n` inodes: every nonzero pointer is the block of a
set bit below `n`, and no two pointers that are not zero are equal. -/
def ptr_inv (n : Nat) (bm : Nat → Bool) (ic : List inode) : Prop :=
  (∀ (h : Nat) (ino : inode) (b : Nat), ic[h]? = some ino → b ≤ 2 → ino.i_data.get b ≠ 0 →
    ∃ i, i < n ∧ bm i = true ∧
      ino.i_data.get b = u16 (FS_INO_BLK + n / FS_INO_PER_BLK + i)) ∧
  (∀ (h1 h2 : Nat) (ino1 ino2 : inode) (b1 b2 : Nat),
    ic[h1]? = some ino1 → ic[h2]? = some ino2 → b1 ≤ 2 → b2 ≤ 2 →
    ino1.i_data.get b1 ≠ 0 → ino1.i_data.get b1 = ino2.i_data.get b2 → h1 = h2 ∧ b1 = b2)

/-- A device of `n` blocks that holds nothing yet. -/
def blank_disk (n : Nat) : disk :=
  { dev_blocks := n, sb := ⟨[], 0, 0⟩, itable := fun _ => mkfs_di 0 }

/-! ## A sample device

A device of 17 blocks (8704 bytes): one table block, 16 inodes. -/

/-- The sample device after formatting. -/
def sample_disk : disk :=
  { dev_blocks := 18, sb := ⟨magic, 16, 17⟩
    itable := fun i => if i < 16 then mkfs_di i else mkfs_di 0 }

/-- The root inode as `fs_read_inode` fills it in at time 0 on the sample device. -/
def sample_root : inode :=
  { i_ino := 1, i_mode := 0o644 ||| S_IFDIR, i_uid := 0, i_gid := 0, i_size := 16,
    i_nlink := 1, i_mtime := 0, i_ctime := 0, i_data := idata.zero }

/-- The sample device, mounted. -/
def sample_mount : fs_state :=
  { dev := sample_disk
    sbi := { s_nnodes := 16, s_nblocks := 17, s_lookup := fun _ => none,
             s_inode_bm := fun _ => false }
    icache := [sample_root] }

/-- A create of a regular file with mode 0644 named by the byte `c`. -/
def sample_create (c : Nat) : create_args :=
  { dir := sample_root, dname := [102, c], mode := 0o100644, cur := ⟨0, 0, 0⟩ }

/-- A session on the sample device: create a file, then map its logical blocks
0, 1 and 2 for writing. -/
def sample_ops : List op :=
  [.create sample_root [102, 48] 0o100644 ⟨0, 0, 0⟩, .get_block 1 0 1, .get_block 1 1 1,
    .get_block 1 2 1]

/-- The file of `sample_ops` at the end of the session. -/
def sample_file : inode :=
  { i_ino := 2, i_mode := 0o100644, i_uid := 0, i_gid := 0, i_size := 0, i_nlink := 1,
    i_mtime := 0, i_ctime := 0, i_data := ⟨2, 3, 4⟩ }

/-- The sample device after a session that left a linked file named `a` in slot
0 (inode number 2) with one data block. -/
def sample_used_disk : disk :=
  { sample_disk with
    itable := Function.update sample_disk.itable 0
      { name := strncpy [97] FS_FNAME_LEN, i_ino := 2, i_mode := 0o100644, i_size := 5,
        i_nlinks := 1, i_uid := 0, i_gid := 0, i_time := 0, i_data := ⟨2, 0, 0⟩ } }

/-- The mount of `sample_used_disk`. -/
def sample_used_mount : fs_state :=
  { sample_mount with dev := sample_used_disk }

/-- A device on which slot 1 holds a linked file named `a` with inode number 3
and slot 0 is free. -/
def sample_disk_slot1 : disk :=
  { sample_disk with
    itable := Function.update sample_disk.itable 1
      { name := strncpy [97] FS_FNAME_LEN, i_ino := 3, i_mode := 0o100644, i_size := 0,
        i_nlinks := 1, i_uid := 0, i_gid := 0, i_time := 0, i_data := idata.zero } }

/-- Mount data whose name index holds an entry named `a` with inode number 7 in
slot 0. -/
def sample_stale_sbi : m_sb :=
  { s_nnodes := 16, s_nblocks := 17
    s_lookup := Function.update (fun _ => none) 0 (some ⟨strncpy [97] FS_FNAME_LEN, 7⟩)
    s_inode_bm := fun _ => false }

/-- A session on the sample device: create a file, map its logical block 0 for
writing twice, and delete the inode. -/
def sample_ops_remap : List op :=
  [.create sample_root [102, 48] 0o100644 ⟨0, 0, 0⟩, .get_block 1 0 1, .get_block 1 0 1,
    .delete_inode 1]

/-- A session on the sample device that leaves a linked file named `a` (inode
number 2, slot 0) with one data block, written back, followed by unmounting the
device and mounting it again at time 0. -/
def sample_prev_session : List call :=
  [.base (.create sample_root [97] 0o100644 ⟨0, 0, 0⟩), .base (.get_block 1 0 1),
    .base (.write_inode 1), .remount 0]

/-- The fresh mount of the device that `sample_prev_session` leaves. -/
def sample_remounted : fs_state := run_calls sample_mount sample_prev_session

/-- The fresh mount after a directory read and the create of a file named `b`. -/
def sample_second : fs_state :=
  run_calls sample_remounted
    [.base (.readdir 0), .base (.create sample_root [98] 0o100644 ⟨0, 0, 0⟩)]

/-- The in-core inode of the file named `b` of `sample_second`. -/
def sample_file_b : inode :=
  { i_ino := 3, i_mode := 0o100644, i_uid := 0, i_gid := 0, i_size := 0, i_nlink := 1,
    i_mtime := 0, i_ctime := 0, i_data := idata.zero }

/-- The mount data of the sample device when the bits 0 to 14 of the bitmap are
set and bit 15 is free. -/
def sample_last_bit_sbi : m_sb :=
  { s_nnodes := 16, s_nblocks := 17, s_lookup := fun _ => none,
    s_inode_bm := fun i => decide (i < 15) }

/-- The file of `sample_ops` with owner `uid` and group `gid`. -/
def sample_file_owned (uid gid : Nat) : inode :=
  { sample_file with i_uid := uid, i_gid := gid, i_size := 700, i_mtime := 1000000 }

/-- A device of 100 blocks (51200 bytes) after formatting: 5 table blocks, 80
inodes. -/
def sample100_disk : disk :=
  { dev_blocks := 100, sb := ⟨magic, 80, 100⟩
    itable := fun i => if i < 80 then mkfs_di i else mkfs_di 0 }

/-- The mount of `sample100_disk` at time 0. -/
def sample100_mount : fs_state :=
  { dev := sample100_disk
    sbi := { s_nnodes := 80, s_nblocks := 100, s_lookup := fun _ => none,
             s_inode_bm := fun _ => false }
    icache := [{ sample_root with i_size := 80 }] }

/-- The creates of `f0`, `f1`, `f2`. -/
def sample100_creates : List create_args :=
  [sample_create 48, sample_create 49, sample_create 50]

/-- The session of the scenario: the three creates, then the first mapping for
writing of logical block 0 of each file. -/
def sample100_ops : List op :=
  [.create sample_root [102, 48] 0o100644 ⟨0, 0, 0⟩,
    .create sample_root [102, 49] 0o100644 ⟨0, 0, 0⟩,
    .create sample_root [102, 50] 0o100644 ⟨0, 0, 0⟩,
    .get_block 1 0 1, .get_block 2 0 1, .get_block 3 0 1]

/-- Returns of `write` under which the first inode record is not written (0
bytes) and every other call writes all it was asked to. -/
def sample_short_write (n : Nat) (k : Nat) : Int :=
  if k = 0 then 512 else if k = 1 then 0 else if k ≤ n then 32 else 512

/-- Returns of `write` under which every call writes all it was asked to but the
call for the tail block, which fails. -/
def sample_tail_fails (n : Nat) (k : Nat) : Int :=
  if k = 0 then 512 else if k ≤ n then 32 else if k ≤ 2 * n then 512 else -1

/-! ## Values of the constants -/

theorem FS_BSIZE_eq : FS_BSIZE = 512 := by decide

theorem sizeof_d_ino_eq : sizeof_d_ino = 32 := by decide

theorem FS_INO_PER_BLK_eq : FS_INO_PER_BLK = 16 := by decide

/-! ## The arithmetic of `float` -/

theorem to_int_small (x : Int) (h0 : -2147483648 ≤ x) (h1 : x < 2147483648) : to_int x = x := by
  unfold to_int
  omega

theorem round_even_intCast (m : Int) : round_even (m : ℚ) = m := by
  unfold round_even
  simp

theorem round_even_le (x : ℚ) : (round_even x : ℚ) ≤ x + 1 / 2 := by
  unfold round_even
  have h1 := Int.floor_le x
  have h2 := Int.lt_floor_add_one x
  split
  · linarith
  · split
    · push_cast; linarith
    · rename_i h3 h4
      have h5 : x - ⌊x⌋ = 1 / 2 := le_antisymm (not_lt.1 h4) (not_lt.1 h3)
      split
      · linarith
      · push_cast; linarith

theorem round_even_ge (x : ℚ) : x - 1 / 2 ≤ (round_even x : ℚ) := by
  unfold round_even
  have h1 := Int.floor_le x
  have h2 := Int.lt_floor_add_one x
  split
  · linarith
  · split
    · push_cast; linarith
    · rename_i h3 h4
      have h5 : x - ⌊x⌋ = 1 / 2 := le_antisymm (not_lt.1 h4) (not_lt.1 h3)
      split
      · linarith
      · push_cast; linarith

theorem log2_eq (r : ℚ) (e : Int) (h1 : (2 : ℚ) ^ e ≤ r) (h2 : r < (2 : ℚ) ^ (e + 1)) :
    Int.log 2 r = e := by
  have hr : 0 < r := lt_of_lt_of_le (by positivity) h1
  have a : e ≤ Int.log 2 r := (Int.zpow_le_iff_le_log (by norm_num) hr).1 (by exact_mod_cast h1)
  have b : Int.log 2 r < e + 1 := (Int.lt_zpow_iff_log_lt (by norm_num) hr).1 (by exact_mod_cast h2)
  omega

theorem log2_lt (x : ℚ) (k : Int) (hx : 0 < x) (h : x < (2 : ℚ) ^ k) : Int.log 2 x < k :=
  (Int.lt_zpow_iff_log_lt (by norm_num) hx).1 (by exact_mod_cast h)

theorem log2_ge (x : ℚ) (k : Int) (hx : 0 < x) (h : (2 : ℚ) ^ k ≤ x) : k ≤ Int.log 2 x :=
  (Int.zpow_le_iff_le_log (by norm_num) hx).1 (by exact_mod_cast h)

theorem two_zpow_le (x : ℚ) (hx : 0 < x) : (2 : ℚ) ^ Int.log 2 x ≤ x := by
  have := Int.zpow_log_le_self (b := 2) (r := x) (by norm_num) hx
  exact_mod_cast this

theorem lt_two_zpow (x : ℚ) : x < (2 : ℚ) ^ (Int.log 2 x + 1) := by
  have := Int.lt_zpow_succ_log_self (b := 2) (by norm_num) x
  exact_mod_cast this

/-- The unit in the last place at a negative exponent. -/
theorem two_zpow_neg (e : Int) (k : Nat) (hk : (k : Int) = 23 - e) :
    (2 : ℚ) ^ (e - 23) = ((2 : ℚ) ^ k)⁻¹ := by
  rw [← zpow_natCast, hk, ← zpow_neg]
  congr 1
  ring

theorem two_zpow_nonneg (e : Int) (k : Nat) (hk : (k : Int) = e - 23) :
    (2 : ℚ) ^ (e - 23) = (2 : ℚ) ^ k := by
  rw [← zpow_natCast, hk]

theorem f32_pos_exact (x : ℚ) (m : Int) (h : x / 2 ^ (Int.log 2 x - 23) = m) :
    f32_pos x = x := by
  unfold f32_pos
  rw [h, round_even_intCast, ← h]
  have : (2 : ℚ) ^ (Int.log 2 x - 23) ≠ 0 := by positivity
  field_simp

theorem f32_pos_exact_int (z : Int) (he : Int.log 2 (z : ℚ) ≤ 23) : f32_pos (z : ℚ) = z := by
  apply f32_pos_exact _ (z * 2 ^ (23 - Int.log 2 (z : ℚ)).toNat)
  rw [two_zpow_neg _ (23 - Int.log 2 (z : ℚ)).toNat (Int.toNat_of_nonneg (by omega))]
  push_cast
  rw [div_inv_eq_mul]

theorem f32_pos_int (z : Int) : ∃ m : Int, f32_pos (z : ℚ) = m := by
  by_cases he : Int.log 2 (z : ℚ) ≤ 23
  · exact ⟨z, f32_pos_exact_int z he⟩
  · refine ⟨round_even ((z : ℚ) / 2 ^ (Int.log 2 (z : ℚ) - 23))
      * 2 ^ (Int.log 2 (z : ℚ) - 23).toNat, ?_⟩
    unfold f32_pos
    rw [two_zpow_nonneg _ (Int.log 2 (z : ℚ) - 23).toNat (Int.toNat_of_nonneg (by omega))]
    push_cast
    rfl

theorem f32_int (z : Int) : ∃ m : Int, f32 (z : ℚ) = m := by
  unfold f32
  split
  · exact ⟨0, by simp⟩
  · split
    · exact f32_pos_int z
    · obtain ⟨m, hm⟩ := f32_pos_int (-z)
      refine ⟨-m, ?_⟩
      push_cast at hm ⊢
      rw [hm]

theorem f32_pos_mul16 (x : ℚ) (hx : 0 < x) : f32_pos (x * 16) = f32_pos x * 16 := by
  have hlog : Int.log 2 (x * 16) = Int.log 2 x + 4 := by
    apply log2_eq
    · rw [zpow_add₀ (by norm_num)]
      have := two_zpow_le x hx
      norm_num
      linarith
    · have := lt_two_zpow x
      rw [show Int.log 2 x + 4 + 1 = (Int.log 2 x + 1) + 4 by ring, zpow_add₀ (by norm_num)]
      norm_num
      linarith
  unfold f32_pos
  rw [hlog, show Int.log 2 x + 4 - 23 = (Int.log 2 x - 23) + 4 by ring,
    zpow_add₀ (by norm_num)]
  have hu : (2 : ℚ) ^ (Int.log 2 x - 23) ≠ 0 := by positivity
  have : x * 16 / ((2 : ℚ) ^ (Int.log 2 x - 23) * 2 ^ (4 : Int)) = x / 2 ^ (Int.log 2 x - 23) := by
    field_simp
    norm_num
    ring
  rw [this]
  norm_num
  ring

theorem f32_mul16 (x : ℚ) : f32 (x * 16) = f32 x * 16 := by
  unfold f32
  by_cases h0 : x = 0
  · simp [h0]
  · have h16 : x * 16 ≠ 0 := by positivity
    rw [if_neg h0, if_neg h16]
    by_cases hp : 0 < x
    · rw [if_pos hp, if_pos (by positivity), f32_pos_mul16 x hp]
    · have hn : 0 < -x := by
        rcases lt_trichotomy x 0 with h | h | h
        · linarith
        · exact absurd h h0
        · exact absurd h hp
      rw [if_neg hp, if_neg (by linarith), show -(x * 16) = (-x) * 16 by ring,
        f32_pos_mul16 (-x) hn]
      ring

theorem f32_natCast_small (n : Nat) (h : n < 16777216) : f32 (n : ℚ) = n := by
  unfold f32
  by_cases h0 : n = 0
  · simp [h0]
  · have hpos : (0 : ℚ) < n := by exact_mod_cast Nat.pos_of_ne_zero h0
    rw [if_neg (by exact_mod_cast h0), if_pos hpos]
    have hl : Int.log 2 ((n : Int) : ℚ) < 24 := by
      apply log2_lt _ _ (by exact_mod_cast hpos)
      norm_num
      exact_mod_cast h
    have := f32_pos_exact_int (n : Int) (by omega)
    exact_mod_cast this

theorem f32_to_int_intCast (m : Int) : f32_to_int (m : ℚ) = m := by
  unfold f32_to_int
  split <;> simp

theorem f32_div17 (a : Nat) (h : a < 16777216) :
    f32_to_int (f32 ((a : ℚ) / 17)) = ((a / 17 : Nat) : Int) := by
  by_cases h0 : a = 0
  · subst h0
    simp [f32, f32_to_int]
  · obtain ⟨k, r, hk, hr17, hdiv⟩ : ∃ k r : Nat, a = 17 * k + r ∧ r ≤ 16 ∧ a / 17 = k :=
      ⟨a / 17, a % 17, by omega, by omega, rfl⟩
    rw [hdiv]
    have ha : (0 : ℚ) < a := by exact_mod_cast Nat.pos_of_ne_zero h0
    have hx : (0 : ℚ) < (a : ℚ) / 17 := by positivity
    have hl : Int.log 2 ((a : ℚ) / 17) < 20 := by
      apply log2_lt _ _ hx
      have : (a : ℚ) < 16777216 := by exact_mod_cast h
      norm_num
      linarith
    obtain ⟨j, hj⟩ : ∃ j : Nat, (j : Int) = 23 - Int.log 2 ((a : ℚ) / 17) :=
      ⟨(23 - Int.log 2 ((a : ℚ) / 17)).toNat, Int.toNat_of_nonneg (by omega)⟩
    have hj4 : 4 ≤ j := by omega
    have hp : (16 : ℚ) ≤ 2 ^ j := by
      have : (2 : ℚ) ^ 4 ≤ 2 ^ j := pow_le_pow_right₀ (by norm_num) hj4
      norm_num at this
      exact this
    have hval : f32 ((a : ℚ) / 17)
        = (round_even ((a : ℚ) / 17 * 2 ^ j) : ℚ) / 2 ^ j := by
      unfold f32 f32_pos
      rw [if_neg (ne_of_gt hx), if_pos hx, two_zpow_neg _ j hj, div_inv_eq_mul]
      rfl
    have hdm : (a : ℚ) = 17 * (k : ℚ) + (r : ℚ) := by exact_mod_cast hk
    have hr : (r : ℚ) ≤ 16 := by exact_mod_cast hr17
    have hr0 : (0 : ℚ) ≤ (r : ℚ) := by positivity
    have hpj : (0 : ℚ) < 2 ^ j := by positivity
    have hge := round_even_ge ((a : ℚ) / 17 * 2 ^ j)
    have hle := round_even_le ((a : ℚ) / 17 * 2 ^ j)
    have hx1 : (k : ℚ) * 2 ^ j ≤ (a : ℚ) / 17 * 2 ^ j := by
      apply mul_le_mul_of_nonneg_right _ hpj.le
      rw [hdm]
      linarith
    have hx2 : (a : ℚ) / 17 * 2 ^ j ≤ ((k : ℚ) + 1) * 2 ^ j - 2 ^ j / 17 := by
      have : (a : ℚ) / 17 ≤ (k : ℚ) + 1 - 1 / 17 := by
        rw [hdm]
        linarith
      have h3 := mul_le_mul_of_nonneg_right this hpj.le
      linarith
    generalize round_even ((a : ℚ) / 17 * 2 ^ j) = R at hval hge hle
    -- the rounded significand lies in the same unit interval
    have hR1 : ((k : Int) * 2 ^ j : Int) ≤ R := by
      have : ((((k : Int) * 2 ^ j : Int) - 1 : Int) : ℚ) < (R : ℚ) := by
        push_cast
        linarith
      have h4 : ((k : Int) * 2 ^ j : Int) - 1 < R := by exact_mod_cast this
      omega
    have hR2 : R < (((k : Int) + 1) * 2 ^ j : Int) := by
      have : (R : ℚ) < (((((k : Int) + 1) * 2 ^ j : Int)) : ℚ) := by
        push_cast
        have : (2 : ℚ) ^ j / 17 ≥ 16 / 17 := by
          apply div_le_div_of_nonneg_right hp (by norm_num)
        linarith
      exact_mod_cast this
    have hR1q : (k : ℚ) * 2 ^ j ≤ (R : ℚ) := by exact_mod_cast hR1
    have hR2q : (R : ℚ) < ((k : ℚ) + 1) * 2 ^ j := by exact_mod_cast hR2
    have hnn : (0 : ℚ) ≤ f32 ((a : ℚ) / 17) := by
      rw [hval]
      apply div_nonneg _ hpj.le
      have : (0 : ℚ) ≤ (k : ℚ) * 2 ^ j := by positivity
      linarith
    unfold f32_to_int
    rw [if_pos hnn, hval, Int.floor_eq_iff]
    constructor
    · rw [le_div_iff₀ hpj]
      push_cast
      exact hR1q
    · rw [div_lt_iff₀ hpj]
      push_cast
      exact hR2q

theorem f32_one : f32 1 = 1 := by
  simpa using f32_natCast_small 1 (by norm_num)

theorem u16_of_int_natCast (n : Nat) : u16_of_int (n : Int) = u16 n := by
  unfold u16_of_int u16
  omega

theorem u16_of_int_to_int (n : Nat) : u16_of_int (to_int (n : Int)) = u16 n := by
  unfold u16_of_int to_int u16
  omega

/-! ## The geometry -/

theorem ino_p_blk_eq : ino_p_blk = 16 := by
  unfold ino_p_blk
  rw [FS_BSIZE_eq, sizeof_d_ino_eq, f32_natCast_small 512 (by norm_num),
    f32_natCast_small 32 (by norm_num)]
  have h : ((512 : Nat) : ℚ) / ((32 : Nat) : ℚ) = ((16 : Nat) : ℚ) := by norm_num
  rw [h, f32_natCast_small 16 (by norm_num)]
  norm_num

theorem f32_17 : f32 (ino_p_blk + f32 1) = 17 := by
  rw [ino_p_blk_eq, f32_one]
  have h : (16 : ℚ) + 1 = ((17 : Nat) : ℚ) := by norm_num
  rw [h, f32_natCast_small 17 (by norm_num)]
  norm_num

/-- Below `2 ^ 24` blocks every `float` of the geometry is exact. -/
theorem nino_zone_eq (nb : Nat) (h : nb < 16777216) :
    nino_zone nb = ((nb / 17 : Nat) : Int) := by
  unfold nino_zone
  rw [f32_17, to_int_small _ (by omega) (by omega), Int.cast_natCast,
    f32_natCast_small nb h]
  exact f32_div17 nb h

theorem nino_eq (nb : Nat) (h : nb < 16777216) :
    nino nb = ((16 * (nb / 17) : Nat) : Int) := by
  unfold nino
  rw [ino_p_blk_eq, nino_zone_eq nb h, Int.cast_natCast,
    f32_natCast_small (nb / 17) (by omega)]
  have h2 : ((nb / 17 : Nat) : ℚ) * 16 = ((16 * (nb / 17) : Nat) : ℚ) := by
    push_cast
    ring
  rw [h2, f32_natCast_small _ (by omega)]
  rw [← Int.cast_natCast (16 * (nb / 17)), f32_to_int_intCast]

theorem nblocks_l_eq (nb : Nat) (h : nb < 16777216) :
    nblocks_l nb = ((nb % 17 : Nat) : Int) := by
  unfold nblocks_l
  rw [nino_zone_eq nb h, nino_eq nb h, to_int_small _ (by omega) (by omega)]
  omega

/-- The inode count the formatter computes is a multiple of 16 for every size
of the device. -/
theorem nino_mul16 (nb : Nat) : ∃ m : Int, nino nb = 16 * m := by
  unfold nino
  rw [ino_p_blk_eq]
  obtain ⟨m, hm⟩ := f32_int (nino_zone nb)
  rw [hm, f32_mul16]
  obtain ⟨m', hm'⟩ := f32_int m
  rw [hm']
  have h : (m' : ℚ) * 16 = ((m' * 16 : Int) : ℚ) := by
    push_cast
    ring
  rw [h, f32_to_int_intCast]
  exact ⟨m', by ring⟩

theorem mkfs_sb_nnodes_mod16 (st_size : Nat) : (mkfs_sb st_size).s_nnodes % 16 = 0 := by
  show u16_of_int (nino (nblocks st_size)) % 16 = 0
  obtain ⟨m, hm⟩ := nino_mul16 (nblocks st_size)
  rw [hm]
  unfold u16_of_int
  omega

theorem mkfs_sb_nnodes_le (st_size : Nat) : (mkfs_sb st_size).s_nnodes ≤ 65520 := by
  have h16 := mkfs_sb_nnodes_mod16 st_size
  have hlt : (mkfs_sb st_size).s_nnodes < 65536 := by
    show u16_of_int (nino (nblocks st_size)) < 65536
    unfold u16_of_int
    omega
  omega

theorem mkfs_sb_nnodes (st_size : Nat) (h : nblocks st_size < 16777216) :
    (mkfs_sb st_size).s_nnodes = (16 * (nblocks st_size / 17)) % 65536 := by
  show u16_of_int (nino (nblocks st_size)) = _
  rw [nino_eq _ h]
  unfold u16_of_int
  omega

theorem mkfs_sb_nblocks (st_size : Nat) :
    (mkfs_sb st_size).s_nblocks = u16 (nblocks st_size) := by
  show u16_of_int (to_int ((nblocks st_size : Nat) : Int)) = _
  exact u16_of_int_to_int (nblocks st_size)

theorem two_zpow_24 : (2 : ℚ) ^ (24 : Int) = 16777216 := by
  rw [show (24 : Int) = ((24 : Nat) : Int) by rfl, zpow_natCast]
  norm_num

theorem two_zpow_25 : (2 : ℚ) ^ ((24 : Int) + 1) = 33554432 := by
  rw [show (24 : Int) + 1 = ((25 : Nat) : Int) by rfl, zpow_natCast]
  norm_num

/-- At 16777231 blocks the conversion of `nblocks` to `float` rounds up. -/
theorem f32_16777231 : f32 16777231 = 16777232 := by
  have hl : Int.log 2 (16777231 : ℚ) = 24 :=
    log2_eq _ _ (by rw [two_zpow_24]; norm_num) (by rw [two_zpow_25]; norm_num)
  have hf : ⌊(16777231 : ℚ) / 2⌋ = 8388615 := by
    rw [Int.floor_eq_iff]
    constructor <;> norm_num
  have hr : round_even ((16777231 : ℚ) / 2) = 8388616 := by
    unfold round_even
    rw [hf]
    norm_num
  have hu : (2 : ℚ) ^ ((24 : Int) - 23) = 2 := by
    rw [show (24 : Int) - 23 = ((1 : Nat) : Int) by rfl, zpow_natCast]
    norm_num
  unfold f32 f32_pos
  rw [if_neg (by norm_num), if_pos (by norm_num), hl, hu, hr]
  norm_num

/-! ## The formatter -/

/-- Claim C1, as the code has it: for every count of blocks below `2 ^ 24`
(where every `float` of `main` is exact), with blocks of 512 bytes and records of
32 bytes (16 to the block), the table size `nino_zone` is the whole part of
`nblocks / 17`, the inode count `nino` is 16 times the table size, the records
fit into the table, the count of lost blocks is not negative, and the table, the
data zone (one block for each inode) and the lost blocks add up to the device. -/
theorem C1_formatter_geometry (total_blocks : Nat) (h : total_blocks < 16777216) :
    FS_BSIZE = 512 ∧ sizeof_d_ino = 32 ∧ FS_INO_PER_BLK = 16 ∧
    nino_zone total_blocks = ((total_blocks / 17 : Nat) : Int) ∧
    nino total_blocks = 16 * nino_zone total_blocks ∧
    nino total_blocks * 32 ≤ nino_zone total_blocks * 512 ∧
    0 ≤ nblocks_l total_blocks ∧
    nino_zone total_blocks + nino total_blocks + nblocks_l total_blocks = total_blocks := by
  refine ⟨FS_BSIZE_eq, sizeof_d_ino_eq, FS_INO_PER_BLK_eq, nino_zone_eq _ h, ?_, ?_, ?_, ?_⟩
  · rw [nino_eq _ h, nino_zone_eq _ h]; push_cast; ring
  · rw [nino_eq _ h, nino_zone_eq _ h]; push_cast; omega
  · rw [nblocks_l_eq _ h]; omega
  · rw [nblocks_l_eq _ h, nino_eq _ h, nino_zone_eq _ h]; omega

theorem C1_formatter_geometry_witness :
    (100 : Nat) < 16777216 ∧ nino_zone 100 = ((100 / 17 : Nat) : Int) ∧
    nino 100 = 16 * nino_zone 100 ∧ 0 ≤ nblocks_l 100 ∧
    nino_zone 100 + nino 100 + nblocks_l 100 = (100 : Nat) :=
  have h := C1_formatter_geometry 100 (by decide)
  ⟨by decide, h.2.2.2.1, h.2.2.2.2.1, h.2.2.2.2.2.2.1, h.2.2.2.2.2.2.2⟩

/-- Claim C1 fails from `2 ^ 24` blocks on, where the conversion of `nblocks` to
`float` rounds: for 16777231 blocks `(float)nblocks` is 16777232, `nino_zone` is
986896 and not the whole part 986895 of `16777231 / 17`, `nino` is 15790336, and
the count of lost blocks is -1; the table and the data zone together are one
block more than the device has. -/
theorem C1_counterexample :
    (16777231 / 17 : Nat) = 986895 ∧
    nino_zone 16777231 = 986896 ∧
    nino 16777231 = 15790336 ∧
    nblocks_l 16777231 = -1 ∧
    ¬ (0 ≤ nblocks_l 16777231) ∧
    nino_zone 16777231 + nino 16777231 = (16777231 : Nat) + 1 := by
  have hz : nino_zone 16777231 = 986896 := by
    unfold nino_zone
    rw [f32_17, to_int_small _ (by norm_num) (by norm_num)]
    have h1 : (((16777231 : Nat) : Int) : ℚ) = 16777231 := by norm_num
    rw [h1, f32_16777231]
    have h2 : (16777232 : ℚ) / 17 = ((986896 : Nat) : ℚ) := by norm_num
    rw [h2, f32_natCast_small _ (by norm_num), ← Int.cast_natCast, f32_to_int_intCast]
    rfl
  have hn : nino 16777231 = 15790336 := by
    unfold nino
    rw [hz, ino_p_blk_eq]
    have h1 : ((986896 : Int) : ℚ) = ((986896 : Nat) : ℚ) := by norm_num
    rw [h1, f32_natCast_small _ (by norm_num)]
    have h2 : ((986896 : Nat) : ℚ) * 16 = ((15790336 : Nat) : ℚ) := by norm_num
    rw [h2, f32_natCast_small _ (by norm_num), ← Int.cast_natCast, f32_to_int_intCast]
    rfl
  have hl : nblocks_l 16777231 = -1 := by
    unfold nblocks_l
    rw [hz, hn, to_int_small _ (by norm_num) (by norm_num)]
    norm_num
  refine ⟨by norm_num, hz, hn, hl, ?_, ?_⟩
  · rw [hl]
    norm_num
  · rw [hz, hn]
    norm_num

theorem mkfs_dev_blocks_pos (st_size : Nat) (old : disk) :
    0 < (mkfs st_size old).dev_blocks := by
  simp only [mkfs, write_tables, bytes_written, FS_BSIZE_eq]
  have : 1 ≤ (512 + (mkfs_sb st_size).s_nnodes * sizeof_d_ino + (mkfs_sb st_size).s_nnodes * 512
      + (if writes_tail (mkfs_sb st_size) = true then 512 else 0) + 512 - 1) / 512 := by
    apply (Nat.le_div_iff_mul_le (by norm_num)).2
    omega
  omega

/-- Mounting succeeds on every device that has a block 0, and starts from an
empty name index and an empty bitmap. -/
theorem fs_fill_super_some (dev : disk) (now : Nat) (h : 0 < dev.dev_blocks) :
    ∃ root, fs_fill_super dev now = some
      { dev := dev
        sbi := { s_nnodes := dev.sb.s_nnodes, s_nblocks := dev.sb.s_nblocks,
                 s_lookup := fun _ => none, s_inode_bm := fun _ => false }
        icache := [root] } := by
  simp [fs_fill_super, fs_read_inode, fs_alloc_inode, sb_bread, FS_SB_BLK, h]

/-- The root inode of a mount has the number `FS_ROOT_INO` and no block
pointers. -/
theorem fs_fill_super_root (dev : disk) (now : Nat) (h : 0 < dev.dev_blocks) :
    ∃ root, fs_fill_super dev now = some
      { dev := dev
        sbi := { s_nnodes := dev.sb.s_nnodes, s_nblocks := dev.sb.s_nblocks,
                 s_lookup := fun _ => none, s_inode_bm := fun _ => false }
        icache := [root] } ∧ root.i_ino = FS_ROOT_INO ∧ root.i_data = idata.zero := by
  obtain ⟨root, hr⟩ := fs_fill_super_some dev now h
  refine ⟨root, hr, ?_, ?_⟩
  · simp only [fs_fill_super, fs_read_inode, fs_alloc_inode, sb_bread, FS_SB_BLK, h,
      decide_True, Bool.not_true, Bool.false_eq_true, if_false, if_true,
      Option.some.injEq, fs_state.mk.injEq, List.cons.injEq, and_true, true_and] at hr
    rw [← hr]
  · simp only [fs_fill_super, fs_read_inode, fs_alloc_inode, sb_bread, FS_SB_BLK, h,
      decide_True, Bool.not_true, Bool.false_eq_true, if_false, if_true,
      FS_ROOT_INO, Option.some.injEq, fs_state.mk.injEq, List.cons.injEq, and_true, true_and]
      at hr
    rw [← hr]

/-- Claim C2, as the code has it: on a device of fewer than 65536 blocks the
superblock the formatter writes holds the inode count and the block count it
computed, and a mount of the formatted device reads both back. -/
theorem C2_superblock_counts (st_size : Nat) (old : disk) (now : Nat)
    (h : nblocks st_size < 65536) :
    ((mkfs st_size old).sb.s_nnodes : Int) = nino (nblocks st_size) ∧
    (mkfs st_size old).sb.s_nblocks = nblocks st_size ∧
    ∃ st, fs_fill_super (mkfs st_size old) now = some st ∧
      (st.sbi.s_nnodes : Int) = nino (nblocks st_size) ∧
      st.sbi.s_nblocks = nblocks st_size := by
  have h1 : ((mkfs st_size old).sb.s_nnodes : Int) = nino (nblocks st_size) := by
    show (((mkfs_sb st_size).s_nnodes : Nat) : Int) = _
    rw [mkfs_sb_nnodes st_size (by omega), nino_eq _ (by omega)]
    congr 1
    omega
  have h2 : (mkfs st_size old).sb.s_nblocks = nblocks st_size := by
    show (mkfs_sb st_size).s_nblocks = _
    rw [mkfs_sb_nblocks]
    unfold u16
    omega
  obtain ⟨root, hr⟩ := fs_fill_super_some (mkfs st_size old) now (mkfs_dev_blocks_pos st_size old)
  exact ⟨h1, h2, _, hr, h1, h2⟩

theorem C2_superblock_counts_witness :
    nblocks 51200 < 65536 ∧
    ((mkfs 51200 (blank_disk 100)).sb.s_nnodes : Int) = nino (nblocks 51200) ∧
    (mkfs 51200 (blank_disk 100)).sb.s_nblocks = nblocks 51200 ∧
    ∃ st, fs_fill_super (mkfs 51200 (blank_disk 100)) 0 = some st ∧
      (st.sbi.s_nnodes : Int) = nino (nblocks 51200) ∧
      st.sbi.s_nblocks = nblocks 51200 :=
  ⟨by decide, C2_superblock_counts 51200 (blank_disk 100) 0 (by decide)⟩

/-- Claim C2 fails on a device of 65536 blocks: the formatter computes 65536
blocks, the superblock it writes records 0, and the mount reads 0 back. -/
theorem C2_counterexample :
    nblocks 33554432 = 65536 ∧
    (mkfs 33554432 (blank_disk 65536)).sb.s_nblocks = 0 ∧
    ∃ st, fs_fill_super (mkfs 33554432 (blank_disk 65536)) 0 = some st ∧
      st.sbi.s_nblocks = 0 ∧ st.sbi.s_nblocks ≠ nblocks 33554432 := by
  have h0 : nblocks 33554432 = 65536 := by decide
  have h2 : (mkfs 33554432 (blank_disk 65536)).sb.s_nblocks = 0 := by
    show (mkfs_sb 33554432).s_nblocks = 0
    rw [mkfs_sb_nblocks, h0]
    decide
  obtain ⟨root, hr⟩ := fs_fill_super_some (mkfs 33554432 (blank_disk 65536)) 0
    (mkfs_dev_blocks_pos 33554432 (blank_disk 65536))
  refine ⟨h0, h2, _, hr, h2, ?_⟩
  show (mkfs 33554432 (blank_disk 65536)).sb.s_nblocks ≠ _
  rw [h2, h0]
  decide

/-! ## The scanning loop -/

theorem scan_some_iff (p : Nat → Bool) (n s i : Nat) :
    scan p n s = some i ↔
      s ≤ i ∧ i < s + n ∧ p i = true ∧ ∀ j, s ≤ j → j < i → p j = false := by
  induction n generalizing s with
  | zero =>
    simp only [scan]
    constructor
    · intro h; cases h
    · rintro ⟨h1, h2, _⟩; omega
  | succ n ih =>
    simp only [scan]
    by_cases hp : p s = true
    · simp only [hp, if_true, Option.some.injEq]
      constructor
      · rintro rfl
        exact ⟨le_refl _, by omega, hp, fun j h1 h2 => by omega⟩
      · rintro ⟨h1, _, _, h4⟩
        by_contra hne
        have := h4 s (le_refl _) (by omega)
        rw [hp] at this
        cases this
    · have hp' : p s = false := by simpa using hp
      simp only [hp', Bool.false_eq_true, if_false, ih]
      constructor
      · rintro ⟨h1, h2, h3, h4⟩
        refine ⟨by omega, by omega, h3, fun j hj1 hj2 => ?_⟩
        by_cases hjs : j = s
        · rw [hjs]; exact hp'
        · exact h4 j (by omega) hj2
      · rintro ⟨h1, h2, h3, h4⟩
        have hne : s ≠ i := by
          rintro rfl
          rw [hp'] at h3
          cases h3
        exact ⟨by omega, by omega, h3, fun j hj1 hj2 => h4 j (by omega) hj2⟩

theorem scan_none_iff (p : Nat → Bool) (n s : Nat) :
    scan p n s = none ↔ ∀ j, s ≤ j → j < s + n → p j = false := by
  induction n generalizing s with
  | zero =>
    simp only [scan, true_iff]
    intro j h1 h2
    omega
  | succ n ih =>
    simp only [scan]
    by_cases hp : p s = true
    · simp only [hp, if_true]
      constructor
      · intro h; cases h
      · intro h
        have := h s (le_refl _) (by omega)
        rw [hp] at this
        cases this
    · have hp' : p s = false := by simpa using hp
      simp only [hp', Bool.false_eq_true, if_false, ih]
      constructor
      · intro h j hj1 hj2
        by_cases hjs : j = s
        · rw [hjs]; exact hp'
        · exact h j (by omega) (by omega)
      · intro h j hj1 hj2
        exact h j (by omega) (by omega)

theorem isNone_false_iff {α : Type} (o : Option α) : o.isNone = false ↔ o ≠ none := by
  cases o <;> simp

/-! ## The allocator -/

/-- Claim C4. `fs_find_free_inode` returns `FS_ROOT_INO + 1 + i` exactly for the
smallest index `i` below the inode count whose slot of the name index is empty,
and the root inode number exactly when no slot below the inode count is empty.
The function has no result but the number it returns: the name index is an
argument that is only read. -/
theorem C4_find_free_inode (sbi : m_sb) :
    (∀ i, fs_find_free_inode sbi = FS_ROOT_INO + 1 + i ↔
      (i < sbi.s_nnodes ∧ sbi.s_lookup i = none ∧ ∀ j, j < i → sbi.s_lookup j ≠ none)) ∧
    (fs_find_free_inode sbi = FS_ROOT_INO ↔ ∀ i, i < sbi.s_nnodes → sbi.s_lookup i ≠ none) := by
  unfold fs_find_free_inode
  constructor
  · intro i
    cases hs : scan (fun i => (sbi.s_lookup i).isNone) sbi.s_nnodes 0 with
    | none =>
      rw [scan_none_iff] at hs
      simp only [FS_ROOT_INO]
      constructor
      · intro h; omega
      · rintro ⟨h1, h2, _⟩
        have := hs i (Nat.zero_le _) (by omega)
        simp [h2] at this
    | some k =>
      rw [scan_some_iff] at hs
      obtain ⟨_, h2, h3, h4⟩ := hs
      simp only [FS_ROOT_INO]
      constructor
      · intro h
        have hk : k = i := by omega
        subst hk
        refine ⟨by omega, by simpa using h3, fun j hj => ?_⟩
        exact (isNone_false_iff _).1 (h4 j (Nat.zero_le _) hj)
      · rintro ⟨h1, h2', h3'⟩
        have hki : k = i := by
          rcases Nat.lt_trichotomy k i with hlt | heq | hgt
          · exact absurd (by simpa using h3) (h3' k hlt)
          · exact heq
          · have := h4 i (Nat.zero_le _) hgt
            simp [h2'] at this
        omega
  · cases hs : scan (fun i => (sbi.s_lookup i).isNone) sbi.s_nnodes 0 with
    | none =>
      rw [scan_none_iff] at hs
      simp only [true_iff]
      intro i hi
      exact (isNone_false_iff _).1 (hs i (Nat.zero_le _) (by omega))
    | some k =>
      rw [scan_some_iff] at hs
      obtain ⟨_, h2, h3, _⟩ := hs
      simp only [FS_ROOT_INO]
      constructor
      · intro h; omega
      · intro h
        exact absurd (by simpa using h3) (h k (by omega))

/-! ## The block mapping -/

theorem idata_get_set_same (d : idata) (b v : Nat) (hb : b ≤ 2) : (d.set b v).get b = v := by
  interval_cases b <;> rfl

theorem idata_get_set_ne (d : idata) (b b' v : Nat) (hb : b ≤ 2) (hb' : b' ≤ 2) (hne : b' ≠ b) :
    (d.set b v).get b' = d.get b' := by
  interval_cases b <;> interval_cases b' <;> first | rfl | exact absurd rfl hne

theorem get_block_alloc_some (sbi : m_sb) (ino : inode) (b i : Nat)
    (hi : i < sbi.s_nnodes) (hfree : sbi.s_inode_bm i = false)
    (hmin : ∀ j, j < i → sbi.s_inode_bm j = true) :
    get_block_alloc sbi ino b =
      ({ sbi with s_inode_bm := Function.update sbi.s_inode_bm i true },
       { ino with
         i_data := ino.i_data.set b (u16 (FS_INO_BLK + sbi.s_nnodes / FS_INO_PER_BLK + i)) }) := by
  have hs : scan (fun i => !test_bit i sbi.s_inode_bm) sbi.s_nnodes 0 = some i := by
    rw [scan_some_iff]
    refine ⟨Nat.zero_le _, by omega, by simp [test_bit, hfree], fun j _ hj => ?_⟩
    simp [test_bit, hmin j hj]
  simp [get_block_alloc, hs, set_bit]

theorem get_block_alloc_none (sbi : m_sb) (ino : inode) (b : Nat)
    (hfull : ∀ j, j < sbi.s_nnodes → sbi.s_inode_bm j = true) :
    get_block_alloc sbi ino b = (sbi, ino) := by
  have hs : scan (fun i => !test_bit i sbi.s_inode_bm) sbi.s_nnodes 0 = none := by
    rw [scan_none_iff]
    intro j _ hj
    simp [test_bit, hfull j (by omega)]
  simp [get_block_alloc, hs]

/-- Claim C5, as the code has it: for a logical block `b` in `0..2` and the
smallest unset bit `i` below the inode count, `fs_get_block` in allocate mode
sets bit `i` and no other, leaves the name index, stores the block number
`FS_INO_BLK + inode_count/16 + i` cut to 16 bits in the pointer for `b` and leaves
the other pointers, whether the block number fits the pointer or not; when the
block number fits the 16 bits of the pointer, the pointer holds the block
number, the buffer is mapped to that block and flagged new, and the call
returns 0. -/
theorem C5_get_block_allocates (sbi : m_sb) (ino : inode) (b : Nat) (bh : buffer_head)
    (create : Int) (i : Nat) (hb : b ≤ 2) (hc : create ≠ 0)
    (hi : i < sbi.s_nnodes) (hfree : sbi.s_inode_bm i = false)
    (hmin : ∀ j, j < i → sbi.s_inode_bm j = true) :
    (fs_get_block sbi ino b bh create).sbi.s_inode_bm = Function.update sbi.s_inode_bm i true ∧
    (fs_get_block sbi ino b bh create).sbi.s_lookup = sbi.s_lookup ∧
    (fs_get_block sbi ino b bh create).sbi.s_nnodes = sbi.s_nnodes ∧
    (fs_get_block sbi ino b bh create).ino.i_data.get b
      = u16 (FS_INO_BLK + sbi.s_nnodes / FS_INO_PER_BLK + i) ∧
    (∀ b', b' ≤ 2 → b' ≠ b →
      (fs_get_block sbi ino b bh create).ino.i_data.get b' = ino.i_data.get b') ∧
    (FS_INO_BLK + sbi.s_nnodes / FS_INO_PER_BLK + i < 2 ^ 16 →
      (fs_get_block sbi ino b bh create).rc = 0 ∧
      (fs_get_block sbi ino b bh create).ino.i_data.get b
        = FS_INO_BLK + sbi.s_nnodes / FS_INO_PER_BLK + i ∧
      (fs_get_block sbi ino b bh create).bh.mapped = true ∧
      (fs_get_block sbi ino b bh create).bh.b_blocknr
        = FS_INO_BLK + sbi.s_nnodes / FS_INO_PER_BLK + i ∧
      (fs_get_block sbi ino b bh create).bh.is_new = true) := by
  have hbb : ¬ b > FS_IDATA - 1 := by simp only [FS_IDATA]; omega
  have ha := get_block_alloc_some sbi ino b i hi hfree hmin
  have hcases : fs_get_block sbi ino b bh create =
      (if u16 (FS_INO_BLK + sbi.s_nnodes / FS_INO_PER_BLK + i) = 0 then
        ⟨-ENOSPC, { sbi with s_inode_bm := Function.update sbi.s_inode_bm i true },
          { ino with
            i_data := ino.i_data.set b (u16 (FS_INO_BLK + sbi.s_nnodes / FS_INO_PER_BLK + i)) }, bh⟩
      else
        ⟨0, { sbi with s_inode_bm := Function.update sbi.s_inode_bm i true },
          { ino with
            i_data := ino.i_data.set b (u16 (FS_INO_BLK + sbi.s_nnodes / FS_INO_PER_BLK + i)) },
          map_bh (set_buffer_new bh)
            (u16 (FS_INO_BLK + sbi.s_nnodes / FS_INO_PER_BLK + i))⟩) := by
    simp only [fs_get_block, hbb, if_false, hc, ne_eq, not_false_eq_true, if_true, ha,
      idata_get_set_same _ _ _ hb]
  have hframe : (fs_get_block sbi ino b bh create).sbi
        = { sbi with s_inode_bm := Function.update sbi.s_inode_bm i true } ∧
      (fs_get_block sbi ino b bh create).ino = { ino with
        i_data := ino.i_data.set b (u16 (FS_INO_BLK + sbi.s_nnodes / FS_INO_PER_BLK + i)) } := by
    rw [hcases]
    split <;> exact ⟨rfl, rfl⟩
  refine ⟨?_, ?_, ?_, ?_, ?_, ?_⟩
  · rw [hframe.1]
  · rw [hframe.1]
  · rw [hframe.1]
  · rw [hframe.2]
    exact idata_get_set_same _ _ _ hb
  · intro b' hb' hne
    rw [hframe.2]
    exact idata_get_set_ne _ _ _ _ hb hb' hne
  · intro hfit
    have hu : u16 (FS_INO_BLK + sbi.s_nnodes / FS_INO_PER_BLK + i)
        = FS_INO_BLK + sbi.s_nnodes / FS_INO_PER_BLK + i := Nat.mod_eq_of_lt hfit
    have hnz : ¬ FS_INO_BLK + sbi.s_nnodes / FS_INO_PER_BLK + i = 0 := by
      simp [FS_INO_BLK]
    rw [hu] at hcases
    rw [if_neg hnz] at hcases
    rw [hcases]
    exact ⟨rfl, idata_get_set_same _ _ _ hb, rfl, rfl, rfl⟩

theorem C5_get_block_allocates_witness :
    (fs_get_block ⟨16, 17, fun _ => none, fun j => decide (j < 3)⟩
      (fs_alloc_inode 2) 1 ⟨0, false, false⟩ 1).sbi.s_inode_bm
      = Function.update (fun j => decide (j < 3)) 3 true ∧
    FS_INO_BLK + 16 / FS_INO_PER_BLK + 3 < 2 ^ 16 ∧
    (fs_get_block ⟨16, 17, fun _ => none, fun j => decide (j < 3)⟩
      (fs_alloc_inode 2) 1 ⟨0, false, false⟩ 1).rc = 0 ∧
    (fs_get_block ⟨16, 17, fun _ => none, fun j => decide (j < 3)⟩
      (fs_alloc_inode 2) 1 ⟨0, false, false⟩ 1).ino.i_data.get 1 = 5 ∧
    (fs_get_block ⟨16, 17, fun _ => none, fun j => decide (j < 3)⟩
      (fs_alloc_inode 2) 1 ⟨0, false, false⟩ 1).bh = ⟨5, true, true⟩ :=
  have h := C5_get_block_allocates ⟨16, 17, fun _ => none, fun j => decide (j < 3)⟩
    (fs_alloc_inode 2) 1 ⟨0, false, false⟩ 1 3 (by decide) (by decide) (by decide) (by decide)
    (by decide)
  ⟨h.1, by decide, (h.2.2.2.2.2 (by decide)).1, (h.2.2.2.2.2 (by decide)).2.1, by decide⟩

/-- Claim C5 fails where the block number does not fit the pointer: with 65520
inodes and bits `0..61439` set, the smallest unset bit is 61440 and the block
number is 65536; bit 61440 is set, the pointer receives 0 and the call returns
`-ENOSPC` with the buffer left unmapped. -/
theorem C5_counterexample :
    (61440 < 65520 ∧ decide (61440 < 61440) = false ∧
      ∀ j, j < 61440 → decide (j < 61440) = true) ∧
    FS_INO_BLK + 65520 / FS_INO_PER_BLK + 61440 = 65536 ∧
    (fs_get_block ⟨65520, 4079, fun _ => none, fun j => decide (j < 61440)⟩
      (fs_alloc_inode 2) 0 ⟨0, false, false⟩ 1).rc = -ENOSPC ∧
    (fs_get_block ⟨65520, 4079, fun _ => none, fun j => decide (j < 61440)⟩
      (fs_alloc_inode 2) 0 ⟨0, false, false⟩ 1).ino.i_data.get 0 = 0 ∧
    (fs_get_block ⟨65520, 4079, fun _ => none, fun j => decide (j < 61440)⟩
      (fs_alloc_inode 2) 0 ⟨0, false, false⟩ 1).sbi.s_inode_bm 61440 = true ∧
    (fs_get_block ⟨65520, 4079, fun _ => none, fun j => decide (j < 61440)⟩
      (fs_alloc_inode 2) 0 ⟨0, false, false⟩ 1).bh.mapped = false := by
  have ha := get_block_alloc_some ⟨65520, 4079, fun _ => none, fun j => decide (j < 61440)⟩
    (fs_alloc_inode 2) 0 61440 (by decide) (by decide) (fun j hj => by simpa using hj)
  have hv : u16 (FS_INO_BLK + 65520 / FS_INO_PER_BLK + 61440) = 0 := by decide
  refine ⟨⟨by decide, by decide, fun j hj => by simpa using hj⟩, by decide, ?_, ?_, ?_, ?_⟩ <;>
    simp only [fs_get_block, FS_IDATA, ha, hv] <;> decide

/-- Claim C6, as the code has it: `fs_get_block` returns `-ENOSPC` when the
logical block index exceeds 2, and in allocate mode when no bit below the inode
count is unset and the file has no pointer for the block; in both cases the
bitmap, the pointers and the buffer are left as they were. -/
theorem C6_get_block_no_space (sbi : m_sb) (ino : inode) (b : Nat) (bh : buffer_head)
    (create : Int)
    (h : 2 < b ∨ (create ≠ 0 ∧ (∀ j, j < sbi.s_nnodes → sbi.s_inode_bm j = true) ∧
      ino.i_data.get b = 0)) :
    (fs_get_block sbi ino b bh create).rc = -ENOSPC ∧
    (fs_get_block sbi ino b bh create).sbi = sbi ∧
    (fs_get_block sbi ino b bh create).ino = ino ∧
    (fs_get_block sbi ino b bh create).bh = bh := by
  by_cases hb : b > FS_IDATA - 1
  · simp [fs_get_block, hb]
  · rcases h with h | ⟨hc, hfull, hz⟩
    · exact absurd (by simp only [FS_IDATA]; omega) hb
    · simp [fs_get_block, hb, hc, get_block_alloc_none sbi ino b hfull, hz]

theorem C6_get_block_no_space_witness :
    (2 < 0 ∨ ((1 : Int) ≠ 0 ∧ (∀ j, j < 16 → (fun _ : Nat => true) j = true) ∧
      (fs_alloc_inode 2).i_data.get 0 = 0)) ∧
    (fs_get_block ⟨16, 17, fun _ => none, fun _ => true⟩ (fs_alloc_inode 2) 0
      ⟨0, false, false⟩ 1).rc = -ENOSPC :=
  ⟨Or.inr ⟨by decide, fun _ _ => rfl, rfl⟩,
    (C6_get_block_no_space ⟨16, 17, fun _ => none, fun _ => true⟩ (fs_alloc_inode 2) 0
      ⟨0, false, false⟩ 1 (Or.inr ⟨by decide, fun _ _ => rfl, rfl⟩)).1⟩

/-- Claim C6 fails when the file already has a pointer for the block: with every
bit of the bitmap set and pointer 17 for logical block 0, the call in allocate
mode returns 0 and maps the buffer to block 17. -/
theorem C6_counterexample :
    (∀ j, j < 16 → (fun _ : Nat => true) j = true) ∧
    (fs_get_block ⟨16, 17, fun _ => none, fun _ => true⟩
      { fs_alloc_inode 2 with i_data := ⟨17, 0, 0⟩ } 0 ⟨0, false, false⟩ 1).rc = 0 ∧
    (fs_get_block ⟨16, 17, fun _ => none, fun _ => true⟩
      { fs_alloc_inode 2 with i_data := ⟨17, 0, 0⟩ } 0 ⟨0, false, false⟩ 1).bh
      = ⟨17, true, true⟩ := by
  refine ⟨fun _ _ => rfl, ?_, ?_⟩ <;> decide

/-! ## Creating files -/

theorem di_pos_slot (k : Nat) :
    di_pos (FS_INO_BLK + k / FS_INO_PER_BLK) (k % FS_INO_PER_BLK) = k := by
  simp only [di_pos, FS_INO_BLK, FS_INO_PER_BLK_eq]
  omega

theorem find_free_inode_eq (sbi : m_sb) (k : Nat) (hk : k < sbi.s_nnodes)
    (hfree : sbi.s_lookup k = none) (hused : ∀ j, j < k → sbi.s_lookup j ≠ none) :
    fs_find_free_inode sbi = FS_ROOT_INO + k + 1 := by
  have hs : scan (fun i => (sbi.s_lookup i).isNone) sbi.s_nnodes 0 = some k := by
    rw [scan_some_iff]
    exact ⟨Nat.zero_le _, by omega, by simp [hfree],
      fun j _ hj => (isNone_false_iff _).2 (hused j hj)⟩
  simp [fs_find_free_inode, hs]

theorem find_free_inode_full (sbi : m_sb)
    (hused : ∀ j, j < sbi.s_nnodes → sbi.s_lookup j ≠ none) :
    fs_find_free_inode sbi = FS_ROOT_INO := by
  have hs : scan (fun i => (sbi.s_lookup i).isNone) sbi.s_nnodes 0 = none := by
    rw [scan_none_iff]
    exact fun j _ hj => (isNone_false_iff _).2 (hused j (by omega))
  simp [fs_find_free_inode, hs]

/-- The function `fs_mknod` when `new_inode` and `kmalloc` return memory. -/
theorem fs_mknod_ok (st : fs_state) (dir : inode) (dname : List Nat) (mode : Nat) (cur : task) :
    fs_mknod st dir dname mode cur =
      (let i := fs_find_free_inode st.sbi
       if FS_ROOT_INO = i then ⟨-ENFILE, st, none⟩
       else
         let ino : inode := mknod_inode dir mode cur i
         let slot := ino.i_ino - FS_ROOT_INO - 1
         if !sb_bread st.dev (FS_INO_BLK + slot / FS_INO_PER_BLK) then
           ⟨0, { st with icache := st.icache ++ [ino] }, none⟩
         else
           let pos := di_pos (FS_INO_BLK + slot / FS_INO_PER_BLK) (slot % FS_INO_PER_BLK)
           let di := st.dev.itable pos
           let di1 : d_ino :=
             { di with
               name := strncpy dname FS_FNAME_LEN, i_ino := u16 ino.i_ino,
               i_mode := u16 ino.i_mode, i_size := u16 ino.i_size, i_nlinks := 1,
               i_data := idata.zero }
           let le : lookup_entry := ⟨strncpy dname FS_FNAME_LEN, u16 ino.i_ino⟩
           ⟨0, { dev := { st.dev with itable := Function.update st.dev.itable pos di1 }
                 sbi := { st.sbi with s_lookup := Function.update st.sbi.s_lookup slot (some le) }
                 icache := st.icache ++ [ino] }, some ino⟩) := rfl

/-- The function `fs_mknod` for any outcome of its allocations, in terms of the
call in which both return memory: without the inode nothing happens, and without
the lookup entry the name index stays as it was. -/
theorem fs_mknod_flags (st : fs_state) (dir : inode) (dname : List Nat) (mode : Nat)
    (cur : task) (inode_ok le_ok : Bool) :
    fs_mknod st dir dname mode cur inode_ok le_ok =
      if inode_ok = false then ⟨-ENOSPC, st, none⟩
      else if le_ok = true then fs_mknod st dir dname mode cur
      else ⟨(fs_mknod st dir dname mode cur).rc,
        { (fs_mknod st dir dname mode cur).st with sbi := st.sbi },
        (fs_mknod st dir dname mode cur).d_inode⟩ := by
  cases inode_ok
  · rfl
  · cases le_ok
    · rw [fs_mknod_ok]
      unfold fs_mknod
      simp only [Bool.not_true, Bool.false_eq_true, if_false]
      split
      · rfl
      · split
        · rfl
        · rfl
    · rfl

/-- The body of the loop of `fs_readdir` when `kmalloc` returns memory. -/
theorem readdir_slot_ok (dev : disk) (i j : Nat) (a : readdir_acc) :
    readdir_slot dev i j a =
      (let di := dev.itable (di_pos (FS_INO_BLK + i) j)
       if di.i_nlinks ≠ 0 then
         { lookup := Function.update a.lookup (i * FS_INO_PER_BLK + j)
             (some ⟨strncpy di.name FS_FNAME_LEN, di.i_ino⟩)
           ents := a.ents ++ [⟨(cstr di.name).take FS_FNAME_LEN, a.f_pos, di.i_ino⟩]
           f_pos := a.f_pos + 1 }
       else a) := rfl

theorem readdir_blocks_nil (dev : disk) (a : readdir_acc) (km : Nat → Bool) :
    readdir_blocks dev [] a km = a := rfl

theorem readdir_blocks_cons (dev : disk) (i : Nat) (bs : List Nat) (a : readdir_acc) :
    readdir_blocks dev (i :: bs) a =
      if sb_bread dev (FS_INO_BLK + i) then
        readdir_blocks dev bs
          ((List.range FS_INO_PER_BLK).foldl (fun a j => readdir_slot dev i j a) a)
      else a := rfl

theorem readdir_blocks_cons_km (dev : disk) (i : Nat) (bs : List Nat) (a : readdir_acc)
    (km : Nat → Bool) :
    readdir_blocks dev (i :: bs) a km =
      if sb_bread dev (FS_INO_BLK + i) then
        readdir_blocks dev bs
          ((List.range FS_INO_PER_BLK).foldl
            (fun a j => readdir_slot dev i j a (km (i * FS_INO_PER_BLK + j))) a) km
      else a := rfl

/-- The function `fs_readdir` when every `kmalloc` returns memory. -/
theorem fs_readdir_ok (sbi : m_sb) (dev : disk) (f_pos : Nat) :
    fs_readdir sbi dev f_pos =
      if f_pos ≠ 0 then ⟨sbi.s_lookup, [], f_pos⟩
      else
        readdir_blocks dev (List.range (sbi.s_nnodes / FS_INO_PER_BLK))
          ⟨sbi.s_lookup, [⟨[46], f_pos, FS_ROOT_INO⟩, ⟨[46, 46], f_pos + 1, FS_ROOT_INO⟩],
            f_pos + 2⟩ := rfl

/-- A create on a full name index: `-ENFILE`, and the state is left as it was. -/
theorem fs_mknod_full (st : fs_state) (dir : inode) (dname : List Nat) (mode : Nat) (cur : task)
    (hused : ∀ j, j < st.sbi.s_nnodes → st.sbi.s_lookup j ≠ none) :
    fs_mknod st dir dname mode cur = ⟨-ENFILE, st, none⟩ := by
  simp [fs_mknod, find_free_inode_full st.sbi hused]

theorem mknod_inode_ino (dir : inode) (mode : Nat) (cur : task) (i : Nat) :
    (mknod_inode dir mode cur i).i_ino = i ∧ (mknod_inode dir mode cur i).i_data = idata.zero ∧
    (mknod_inode dir mode cur i).i_size = 0 ∧ (mknod_inode dir mode cur i).i_mode = u16 mode :=
  ⟨rfl, rfl, rfl, rfl⟩

/-- A create when `k` is the first empty slot and its table block can be read. -/
theorem fs_mknod_slot (st : fs_state) (dir : inode) (dname : List Nat) (mode : Nat) (cur : task)
    (k : Nat) (hk : k < st.sbi.s_nnodes) (hfree : st.sbi.s_lookup k = none)
    (hused : ∀ j, j < k → st.sbi.s_lookup j ≠ none)
    (hread : FS_INO_BLK + k / FS_INO_PER_BLK < st.dev.dev_blocks) :
    fs_mknod st dir dname mode cur =
      ⟨0, { dev := { st.dev with
              itable := Function.update st.dev.itable k
                { st.dev.itable k with
                  name := strncpy dname FS_FNAME_LEN, i_ino := u16 (FS_ROOT_INO + k + 1),
                  i_mode := u16 (u16 mode), i_size := u16 0, i_nlinks := 1,
                  i_data := idata.zero } }
            sbi := { st.sbi with
              s_lookup := Function.update st.sbi.s_lookup k
                (some ⟨strncpy dname FS_FNAME_LEN, u16 (FS_ROOT_INO + k + 1)⟩) }
            icache := st.icache ++ [mknod_inode dir mode cur (FS_ROOT_INO + k + 1)] },
        some (mknod_inode dir mode cur (FS_ROOT_INO + k + 1))⟩ := by
  have hf := find_free_inode_eq st.sbi k hk hfree hused
  have hne : ¬ FS_ROOT_INO = FS_ROOT_INO + k + 1 := by omega
  have hsl : FS_ROOT_INO + k + 1 - FS_ROOT_INO - 1 = k := by omega
  have hrd : sb_bread st.dev (FS_INO_BLK + k / FS_INO_PER_BLK) = true := by
    simp [sb_bread, hread]
  obtain ⟨h1, h2, h3, h4⟩ := mknod_inode_ino dir mode cur (FS_ROOT_INO + k + 1)
  rw [fs_mknod_ok]
  simp only [hf, hne, if_false, h1, h3, h4, hsl, hrd, di_pos_slot, Bool.not_true,
    Bool.false_eq_true]

theorem mknod_seq_spec (n : Nat) (cs : List create_args) :
    ∀ (st : fs_state) (k : Nat), st.sbi.s_nnodes = n → k + cs.length ≤ n →
      (∀ j, j < k → st.sbi.s_lookup j ≠ none) → (∀ j, k ≤ j → st.sbi.s_lookup j = none) →
      (∀ j, j < n → FS_INO_BLK + j / FS_INO_PER_BLK < st.dev.dev_blocks) →
      (∀ m, m < cs.length → ∃ r ino, (mknod_seq st cs).1[m]? = some r ∧ r.rc = 0 ∧
        r.d_inode = some ino ∧ ino.i_ino = FS_ROOT_INO + 1 + (k + m)) ∧
      (mknod_seq st cs).2.sbi.s_nnodes = n ∧
      (∀ j, j < k + cs.length → (mknod_seq st cs).2.sbi.s_lookup j ≠ none) ∧
      (∀ j, k + cs.length ≤ j → (mknod_seq st cs).2.sbi.s_lookup j = none) := by
  induction cs with
  | nil =>
    intro st k hn _ hused hfree _
    exact ⟨fun m hm => absurd hm (by simp), hn, by simpa using hused, by simpa using hfree⟩
  | cons c cs ih =>
    intro st k hn hlen hused hfree hread
    simp only [List.length_cons] at hlen
    have hk : k < st.sbi.s_nnodes := by omega
    have hstep := fs_mknod_slot st c.dir c.dname c.mode c.cur k hk (hfree k (le_refl _)) hused
      (hread k (by omega))
    have ih' := ih (fs_mknod st c.dir c.dname c.mode c.cur).st (k + 1)
      (by rw [hstep]; exact hn) (by omega)
      (by
        intro j hj
        rw [hstep]
        by_cases hjk : j = k
        · subst hjk; simp
        · simpa [Function.update_noteq hjk] using hused j (by omega))
      (by
        intro j hj
        rw [hstep]
        have hjk : j ≠ k := by omega
        simpa [Function.update_noteq hjk] using hfree j (by omega))
      (by rw [hstep]; exact hread)
    obtain ⟨ih1, ih2, ih3, ih4⟩ := ih'
    simp only [mknod_seq, List.length_cons]
    refine ⟨fun m hm => ?_, ih2, fun j hj => ih3 j (by omega), fun j hj => ih4 j (by omega)⟩
    cases m with
    | zero =>
      refine ⟨fs_mknod st c.dir c.dname c.mode c.cur,
        mknod_inode c.dir c.mode c.cur (FS_ROOT_INO + k + 1), by simp, ?_, ?_, ?_⟩
      · rw [hstep]
      · rw [hstep]
      · show FS_ROOT_INO + k + 1 = _
        omega
    | succ m =>
      obtain ⟨r, ino, h1, h2, h3, h4⟩ := ih1 m (by simpa using hm)
      exact ⟨r, ino, by simpa using h1, h2, h3, by omega⟩

theorem mkfs_readable (st_size : Nat) (old : disk) (j : Nat)
    (hj : j < (mkfs st_size old).sb.s_nnodes) :
    FS_INO_BLK + j / FS_INO_PER_BLK < (mkfs st_size old).dev_blocks := by
  have hj' : j < (mkfs_sb st_size).s_nnodes := hj
  simp only [mkfs, write_tables, bytes_written, FS_BSIZE_eq, FS_INO_BLK, FS_INO_PER_BLK_eq,
    sizeof_d_ino_eq]
  have : 1 + (mkfs_sb st_size).s_nnodes ≤ (512 + (mkfs_sb st_size).s_nnodes * 32
      + (mkfs_sb st_size).s_nnodes * 512
      + (if writes_tail (mkfs_sb st_size) = true then 512 else 0) + 512 - 1) / 512 := by
    apply (Nat.le_div_iff_mul_le (by norm_num)).2
    omega
  have h16 : j / 16 ≤ j := Nat.div_le_self _ _
  omega

/-- Claim C3. After a mount of a freshly formatted device with `n` inodes, `n`
creates in a row all return 0, the `k`-th (from 0) with inode number
`FS_ROOT_INO + 1 + k`, and the next create returns `-ENFILE` and leaves the
inode table and the name index as they were. The names need not differ. -/
theorem C3_create_until_full (st_size : Nat) (old : disk) (now : Nat) (st0 : fs_state)
    (hm : fs_fill_super (mkfs st_size old) now = some st0)
    (cs : List create_args) (hlen : cs.length = st0.sbi.s_nnodes) (c : create_args) :
    st0.sbi.s_nnodes = (mkfs st_size old).sb.s_nnodes ∧
    (∀ k, k < cs.length → ∃ r ino, (mknod_seq st0 cs).1[k]? = some r ∧ r.rc = 0 ∧
      r.d_inode = some ino ∧ ino.i_ino = FS_ROOT_INO + 1 + k) ∧
    (fs_mknod (mknod_seq st0 cs).2 c.dir c.dname c.mode c.cur).rc = -ENFILE ∧
    (fs_mknod (mknod_seq st0 cs).2 c.dir c.dname c.mode c.cur).st.dev.itable
      = (mknod_seq st0 cs).2.dev.itable ∧
    (fs_mknod (mknod_seq st0 cs).2 c.dir c.dname c.mode c.cur).st.sbi.s_lookup
      = (mknod_seq st0 cs).2.sbi.s_lookup := by
  obtain ⟨root, hr⟩ := fs_fill_super_some (mkfs st_size old) now (mkfs_dev_blocks_pos st_size old)
  rw [hr] at hm
  cases hm
  obtain ⟨h1, h2, h3, _⟩ := mknod_seq_spec (mkfs st_size old).sb.s_nnodes cs
    { dev := mkfs st_size old
      sbi := { s_nnodes := (mkfs st_size old).sb.s_nnodes, s_nblocks := (mkfs st_size old).sb.s_nblocks,
               s_lookup := fun _ => none, s_inode_bm := fun _ => false }
      icache := [root] } 0 rfl
    (by simpa using le_of_eq hlen) (fun j hj => absurd hj (by omega)) (fun _ _ => rfl)
    (fun j hj => mkfs_readable st_size old j hj)
  refine ⟨rfl, fun k hk => ?_, ?_⟩
  · obtain ⟨r, ino, hr1, hr2, hr3, hr4⟩ := h1 k hk
    exact ⟨r, ino, hr1, hr2, hr3, by omega⟩
  · rw [fs_mknod_full _ c.dir c.dname c.mode c.cur (fun j hj => h3 j (by
      rw [h2] at hj
      simp only [Nat.zero_add]
      exact hlen ▸ hj))]
    exact ⟨rfl, rfl, rfl⟩

/-! ## The block pointers of the files in core -/

theorem idata_zero_get (b : Nat) : idata.zero.get b = 0 := by
  unfold idata.get idata.zero
  split <;> rfl

theorem ptr_inv_append (n : Nat) (bm : Nat → Bool) (ic : List inode) (ino : inode)
    (hz : ino.i_data = idata.zero) (hinv : ptr_inv n bm ic) : ptr_inv n bm (ic ++ [ino]) := by
  have key : ∀ (h : Nat) (x : inode),
      (ic ++ [ino])[h]? = some x → ic[h]? = some x ∨ x = ino := by
    intro h x hx
    rw [List.getElem?_append] at hx
    split at hx
    · exact Or.inl hx
    · right
      cases hd : h - ic.length with
      | zero => rw [hd] at hx; simpa using hx.symm
      | succ m => rw [hd] at hx; simp at hx
  refine ⟨?_, ?_⟩
  · intro h x b hx hb hnz
    rcases key h x hx with h1 | h1
    · exact hinv.1 h x b h1 hb hnz
    · rw [h1, hz, idata_zero_get] at hnz
      exact absurd rfl hnz
  · intro h1 h2 x1 x2 b1 b2 hx1 hx2 hb1 hb2 hnz heq
    rcases key h1 x1 hx1 with k1 | k1
    · rcases key h2 x2 hx2 with k2 | k2
      · exact hinv.2 h1 h2 x1 x2 b1 b2 k1 k2 hb1 hb2 hnz heq
      · rw [k2, hz, idata_zero_get] at heq
        exact absurd heq hnz
    · rw [k1, hz, idata_zero_get] at hnz
      exact absurd rfl hnz

theorem ptr_inv_set_same (n : Nat) (bm : Nat → Bool) (ic : List inode) (h : Nat)
    (ino ino' : inode) (hh : ic[h]? = some ino) (hd : ino'.i_data = ino.i_data)
    (hinv : ptr_inv n bm ic) : ptr_inv n bm (ic.set h ino') := by
  have key : ∀ (k : Nat) (x : inode), (ic.set h ino')[k]? = some x →
      ∃ y : inode, ic[k]? = some y ∧ x.i_data = y.i_data := by
    intro k x hx
    rw [List.getElem?_set] at hx
    split at hx
    · rename_i hk
      subst hk
      split at hx
      · cases hx
        exact ⟨ino, hh, hd⟩
      · cases hx
    · exact ⟨x, hx, rfl⟩
  refine ⟨?_, ?_⟩
  · intro k x b hx hb hnz
    obtain ⟨y, hy, hxy⟩ := key k x hx
    rw [hxy] at hnz ⊢
    exact hinv.1 k y b hy hb hnz
  · intro h1 h2 x1 x2 b1 b2 hx1 hx2 hb1 hb2 hnz heq
    obtain ⟨y1, hy1, hxy1⟩ := key h1 x1 hx1
    obtain ⟨y2, hy2, hxy2⟩ := key h2 x2 hx2
    rw [hxy1] at hnz heq
    rw [hxy2] at heq
    exact hinv.2 h1 h2 y1 y2 b1 b2 hy1 hy2 hb1 hb2 hnz heq

theorem u16_add_inj (base i j : Nat) (hi : i < 2 ^ 16) (hj : j < 2 ^ 16)
    (h : u16 (base + i) = u16 (base + j)) : i = j := by
  unfold u16 at h
  omega

theorem ptr_inv_alloc (n : Nat) (bm : Nat → Bool) (ic : List inode) (h : Nat) (ino : inode)
    (b i : Nat) (hn : n < 2 ^ 16) (hh : ic[h]? = some ino) (hb : b ≤ 2) (hi : i < n)
    (hfree : bm i = false) (hinv : ptr_inv n bm ic) :
    ptr_inv n (Function.update bm i true)
      (ic.set h { ino with
        i_data := ino.i_data.set b (u16 (FS_INO_BLK + n / FS_INO_PER_BLK + i)) }) := by
  have hlt : h < ic.length := by
    by_contra hc
    rw [List.getElem?_eq_none (by omega)] at hh
    cases hh
  have hup : ∀ j, bm j = true → Function.update bm i true j = true := by
    intro j hj
    by_cases hji : j = i
    · subst hji; simp
    · rw [Function.update_noteq hji]; exact hj
  -- a pointer of the old state never equals the block of bit `i`
  have hfresh : ∀ (k : Nat) (x : inode) (c : Nat), ic[k]? = some x → c ≤ 2 →
      x.i_data.get c ≠ 0 →
      x.i_data.get c ≠ u16 (FS_INO_BLK + n / FS_INO_PER_BLK + i) := by
    intro k x c hx hc hnz heq
    obtain ⟨j, hj, hbj, hpj⟩ := hinv.1 k x c hx hc hnz
    rw [hpj] at heq
    have := u16_add_inj _ j i (by omega) (by omega) heq
    subst this
    rw [hfree] at hbj
    cases hbj
  have key : ∀ (k : Nat) (x : inode), (ic.set h { ino with
        i_data := ino.i_data.set b (u16 (FS_INO_BLK + n / FS_INO_PER_BLK + i)) })[k]? = some x →
      (k ≠ h ∧ ic[k]? = some x) ∨
      (k = h ∧ x.i_data = ino.i_data.set b (u16 (FS_INO_BLK + n / FS_INO_PER_BLK + i))) := by
    intro k x hx
    rw [List.getElem?_set] at hx
    split at hx
    · rename_i hk
      subst hk
      simp only [hlt, if_true, Option.some.injEq] at hx
      right
      exact ⟨rfl, by rw [← hx]⟩
    · rename_i hk
      exact Or.inl ⟨fun e => hk e.symm, hx⟩
  refine ⟨?_, ?_⟩
  · intro k x c hx hc hnz
    rcases key k x hx with ⟨_, hk⟩ | ⟨_, hk⟩
    · obtain ⟨j, hj, hbj, hpj⟩ := hinv.1 k x c hk hc hnz
      exact ⟨j, hj, hup j hbj, hpj⟩
    · by_cases hcb : c = b
      · subst hcb
        rw [hk, idata_get_set_same _ _ _ hb]
        exact ⟨i, hi, by simp, rfl⟩
      · rw [hk, idata_get_set_ne _ _ _ _ hb hc hcb] at hnz ⊢
        obtain ⟨j, hj, hbj, hpj⟩ := hinv.1 h ino c hh hc hnz
        exact ⟨j, hj, hup j hbj, hpj⟩
  · intro h1 h2 x1 x2 b1 b2 hx1 hx2 hb1 hb2 hnz heq
    rcases key h1 x1 hx1 with ⟨hne1, hk1⟩ | ⟨he1, hk1⟩
    · rcases key h2 x2 hx2 with ⟨hne2, hk2⟩ | ⟨he2, hk2⟩
      · exact hinv.2 h1 h2 x1 x2 b1 b2 hk1 hk2 hb1 hb2 hnz heq
      · by_cases hcb : b2 = b
        · subst hcb
          rw [hk2, idata_get_set_same _ _ _ hb] at heq
          exact absurd heq (hfresh h1 x1 b1 hk1 hb1 hnz)
        · rw [hk2, idata_get_set_ne _ _ _ _ hb hb2 hcb] at heq
          exact absurd (hinv.2 h1 h x1 ino b1 b2 hk1 hh hb1 hb2 hnz heq).1 (he2 ▸ hne1)
    · by_cases hcb1 : b1 = b
      · subst hcb1
        rw [hk1, idata_get_set_same _ _ _ hb1] at heq hnz
        rcases key h2 x2 hx2 with ⟨hne2, hk2⟩ | ⟨he2, hk2⟩
        · have hnz2 : x2.i_data.get b2 ≠ 0 := by rw [← heq]; exact hnz
          exact absurd heq.symm (hfresh h2 x2 b2 hk2 hb2 hnz2)
        · by_cases hcb2 : b2 = b1
          · exact ⟨by omega, hcb2.symm⟩
          · rw [hk2, idata_get_set_ne _ _ _ _ hb1 hb2 hcb2] at heq
            have hnz2 : ino.i_data.get b2 ≠ 0 := by rw [← heq]; exact hnz
            exact absurd heq.symm (hfresh h ino b2 hh hb2 hnz2)
      · rw [hk1, idata_get_set_ne _ _ _ _ hb hb1 hcb1] at heq hnz
        rcases key h2 x2 hx2 with ⟨hne2, hk2⟩ | ⟨he2, hk2⟩
        · exact absurd (hinv.2 h h2 ino x2 b1 b2 hh hk2 hb1 hb2 hnz heq).1
            (fun e => hne2 e.symm)
        · by_cases hcb2 : b2 = b
          · subst hcb2
            rw [hk2, idata_get_set_same _ _ _ hb2] at heq
            exact absurd heq (hfresh h ino b1 hh hb1 hnz)
          · rw [hk2, idata_get_set_ne _ _ _ _ hb hb2 hcb2] at heq
            exact ⟨by omega, (hinv.2 h h ino ino b1 b2 hh hh hb1 hb2 hnz heq).2⟩

theorem ptr_inv_erase (n : Nat) (bm bm' : Nat → Bool) (ic : List inode) (h : Nat) (ino : inode)
    (hh : ic[h]? = some ino) (hinv : ptr_inv n bm ic)
    (hkeep : ∀ j, j < n → bm j = true →
      (∀ b, b ≤ 2 → ino.i_data.get b ≠ u16 (FS_INO_BLK + n / FS_INO_PER_BLK + j)) →
      bm' j = true) :
    ptr_inv n bm' (ic.eraseIdx h) := by
  have key : ∀ (k : Nat) (x : inode), (ic.eraseIdx h)[k]? = some x →
      ic[if k < h then k else k + 1]? = some x := by
    intro k x hx
    rw [List.getElem?_eraseIdx] at hx
    split <;> simp_all
  have hf : ∀ k : Nat, (if k < h then k else k + 1) ≠ h := by
    intro k
    split <;> omega
  have hinj : ∀ k1 k2 : Nat,
      (if k1 < h then k1 else k1 + 1) = (if k2 < h then k2 else k2 + 1) → k1 = k2 := by
    intro k1 k2
    split <;> split <;> omega
  refine ⟨?_, ?_⟩
  · intro k x c hx hc hnz
    obtain ⟨j, hj, hbj, hpj⟩ := hinv.1 _ x c (key k x hx) hc hnz
    refine ⟨j, hj, hkeep j hj hbj (fun b hb heq => ?_), hpj⟩
    rw [← hpj] at heq
    exact hf k (hinv.2 _ h x ino c b (key k x hx) hh hc hb hnz heq.symm).1
  · intro h1 h2 x1 x2 b1 b2 hx1 hx2 hb1 hb2 hnz heq
    obtain ⟨e1, e2⟩ := hinv.2 _ _ x1 x2 b1 b2 (key h1 x1 hx1) (key h2 x2 hx2) hb1 hb2 hnz heq
    exact ⟨hinj h1 h2 e1, e2⟩

theorem clear_bit_keep (c : Int) (bm : Nat → Bool) (j : Nat) (hne : c ≠ (j : Int)) :
    clear_bit c bm j = bm j := by
  unfold clear_bit
  split
  · rw [Function.update_noteq]
    omega
  · rfl

theorem range_FS_IDATA : List.range FS_IDATA = [0, 1, 2] := by decide

/-- What `fs_delete_inode` leaves of the mount data: the inode count, and every
bit that is not the bit of one of the pointers of the inode. -/
theorem fs_delete_inode_bm (sbi : m_sb) (dev : disk) (ino : inode) :
    (fs_delete_inode sbi dev ino).1.s_nnodes = sbi.s_nnodes ∧
    ∀ j : Nat, (∀ b, b ≤ 2 → ino.i_data.get b ≠ 0 →
        (ino.i_data.get b : Int) - (sbi.s_nnodes / FS_INO_PER_BLK : Nat) - 1 ≠ (j : Int)) →
      (fs_delete_inode sbi dev ino).1.s_inode_bm j = sbi.s_inode_bm j := by
  unfold fs_delete_inode
  cases fs_raw_inode sbi dev ino.i_ino with
  | none => exact ⟨rfl, fun _ _ => rfl⟩
  | some pos =>
    refine ⟨rfl, fun j hj => ?_⟩
    simp only [range_FS_IDATA, List.foldl_cons, List.foldl_nil]
    have h0 := hj 0 (by omega)
    have h1 := hj 1 (by omega)
    have h2 := hj 2 (by omega)
    split <;> split <;> split <;>
      simp_all only [ne_eq, not_false_eq_true, not_true_eq_false, true_implies,
        clear_bit_keep, Decidable.not_not]

theorem fs_get_block_cases (sbi : m_sb) (ino : inode) (block : Nat) (bh : buffer_head)
    (create : Int) :
    (fs_get_block sbi ino block bh create).sbi.s_nnodes = sbi.s_nnodes ∧
    (fs_get_block sbi ino block bh create).sbi.s_lookup = sbi.s_lookup ∧
    (((fs_get_block sbi ino block bh create).sbi.s_inode_bm = sbi.s_inode_bm ∧
      (fs_get_block sbi ino block bh create).ino = ino) ∨
     ∃ i, i < sbi.s_nnodes ∧ block ≤ 2 ∧ create ≠ 0 ∧ sbi.s_inode_bm i = false ∧
      (∀ j, j < i → sbi.s_inode_bm j = true) ∧
      (fs_get_block sbi ino block bh create).sbi.s_inode_bm
        = Function.update sbi.s_inode_bm i true ∧
      (fs_get_block sbi ino block bh create).ino = { ino with
        i_data := ino.i_data.set block (u16 (FS_INO_BLK + sbi.s_nnodes / FS_INO_PER_BLK + i)) }) := by
  by_cases hb : block > FS_IDATA - 1
  · simp [fs_get_block, hb]
  · have hb2 : block ≤ 2 := by simp only [FS_IDATA] at hb; omega
    by_cases hc : create = 0
    · simp [fs_get_block, hb, hc]
    · cases hs : scan (fun i => !test_bit i sbi.s_inode_bm) sbi.s_nnodes 0 with
      | none =>
        have ha : get_block_alloc sbi ino block = (sbi, ino) := by
          simp [get_block_alloc, hs]
        simp only [fs_get_block, hb, if_false, ne_eq, hc, not_false_eq_true, if_true, ha]
        split <;> simp
      | some i =>
        have hs' := hs
        rw [scan_some_iff] at hs'
        obtain ⟨_, h2, h3, h4⟩ := hs'
        have hfree : sbi.s_inode_bm i = false := by simpa [test_bit] using h3
        have hmin : ∀ j, j < i → sbi.s_inode_bm j = true := by
          intro j hj
          simpa [test_bit] using h4 j (Nat.zero_le _) hj
        have ha := get_block_alloc_some sbi ino block i (by omega) hfree hmin
        simp only [fs_get_block, hb, if_false, ne_eq, hc, not_false_eq_true, if_true, ha]
        split <;> exact ⟨rfl, rfl, Or.inr ⟨i, by omega, hb2, trivial, hfree, hmin, rfl, rfl⟩⟩

/-- What every create leaves, whatever its allocations return: the inode count
and the bitmap, and the in-core inodes, to which it adds at most one inode
without block pointers. -/
theorem fs_mknod_frame (st : fs_state) (dir : inode) (dname : List Nat) (mode : Nat)
    (cur : task) (inode_ok le_ok : Bool) :
    (fs_mknod st dir dname mode cur inode_ok le_ok).st.sbi.s_nnodes = st.sbi.s_nnodes ∧
    (fs_mknod st dir dname mode cur inode_ok le_ok).st.sbi.s_inode_bm = st.sbi.s_inode_bm ∧
    ((fs_mknod st dir dname mode cur inode_ok le_ok).st.icache = st.icache ∨
      ∃ ino : inode, ino.i_data = idata.zero ∧
        (fs_mknod st dir dname mode cur inode_ok le_ok).st.icache = st.icache ++ [ino]) := by
  unfold fs_mknod
  simp only
  split
  · exact ⟨rfl, rfl, Or.inl rfl⟩
  · split
    · exact ⟨rfl, rfl, Or.inl rfl⟩
    · split
      · exact ⟨rfl, rfl, Or.inr ⟨_, rfl, rfl⟩⟩
      · exact ⟨rfl, rfl, Or.inr ⟨_, rfl, rfl⟩⟩

theorem fs_unlink_data (ino : inode) (now : Nat) :
    (fs_unlink ino now).2.i_data = ino.i_data := rfl

theorem step_ptr_inv (st : fs_state) (o : op) (hn : st.sbi.s_nnodes < 2 ^ 16)
    (hinv : ptr_inv st.sbi.s_nnodes st.sbi.s_inode_bm st.icache) :
    (step st o).sbi.s_nnodes = st.sbi.s_nnodes ∧
    ptr_inv (step st o).sbi.s_nnodes (step st o).sbi.s_inode_bm (step st o).icache := by
  cases o with
  | create dir dname mode cur inode_ok le_ok =>
    obtain ⟨h1, h2, h3⟩ := fs_mknod_frame st dir dname mode cur inode_ok le_ok
    simp only [step]
    rw [h1, h2]
    refine ⟨rfl, ?_⟩
    rcases h3 with h3 | ⟨ino, hz, h3⟩
    · rw [h3]; exact hinv
    · rw [h3]; exact ptr_inv_append _ _ _ ino hz hinv
  | get_block h block create =>
    simp only [step]
    cases hh : st.icache[h]? with
    | none => exact ⟨rfl, hinv⟩
    | some ino =>
      obtain ⟨h1, _, h3⟩ := fs_get_block_cases st.sbi ino block ⟨0, false, false⟩ create
      simp only
      rw [h1]
      refine ⟨rfl, ?_⟩
      rcases h3 with ⟨h3, h4⟩ | ⟨i, hi, hb, _, hfree, _, h3, h4⟩
      · rw [h3, h4]
        exact ptr_inv_set_same _ _ _ h ino ino hh rfl hinv
      · rw [h3, h4]
        exact ptr_inv_alloc _ _ _ h ino block i hn hh hb hi hfree hinv
  | write_inode h =>
    simp only [step]
    cases hh : st.icache[h]? with
    | none => exact ⟨rfl, hinv⟩
    | some ino => exact ⟨rfl, hinv⟩
  | readdir f_pos => exact ⟨rfl, hinv⟩
  | unlink h now =>
    simp only [step]
    cases hh : st.icache[h]? with
    | none => exact ⟨rfl, hinv⟩
    | some ino =>
      exact ⟨rfl, ptr_inv_set_same _ _ _ h ino (fs_unlink ino now).2 hh
        (fs_unlink_data ino now) hinv⟩
  | delete_inode h =>
    simp only [step]
    cases hh : st.icache[h]? with
    | none => exact ⟨rfl, hinv⟩
    | some ino =>
      obtain ⟨h1, h2⟩ := fs_delete_inode_bm st.sbi st.dev ino
      simp only
      rw [h1]
      refine ⟨rfl, ptr_inv_erase _ _ _ _ h ino hh hinv (fun j hj hbj hne => ?_)⟩
      rw [h2 j]
      · exact hbj
      · intro b hb hnz heq
        obtain ⟨i, _, _, hp⟩ := hinv.1 h ino b hh hb hnz
        have hlt : ino.i_data.get b < 2 ^ 16 := by
          rw [hp]; exact Nat.mod_lt _ (by norm_num)
        apply hne b hb
        unfold u16
        simp only [FS_INO_BLK]
        omega

theorem run_ptr_inv (ops : List op) : ∀ st : fs_state, st.sbi.s_nnodes < 2 ^ 16 →
    ptr_inv st.sbi.s_nnodes st.sbi.s_inode_bm st.icache →
    ptr_inv (run st ops).sbi.s_nnodes (run st ops).sbi.s_inode_bm (run st ops).icache := by
  induction ops with
  | nil => exact fun _ _ h => h
  | cons o ops ih =>
    intro st hn hinv
    obtain ⟨h1, h2⟩ := step_ptr_inv st o hn hinv
    exact ih (step st o) (by rw [h1]; exact hn) h2

theorem mkfs_sb_8704 : mkfs_sb 8704 = ⟨magic, 16, 17⟩ := by
  have h1 : (mkfs_sb 8704).s_nnodes = 16 := by
    rw [mkfs_sb_nnodes _ (by decide)]
    decide
  have h2 : (mkfs_sb 8704).s_nblocks = 17 := by
    rw [mkfs_sb_nblocks]
    decide
  have h3 : (mkfs_sb 8704).s_magic = magic := rfl
  cases hs : mkfs_sb 8704 with
  | mk a b c =>
    rw [hs] at h1 h2 h3
    simp only at h1 h2 h3
    rw [h1, h2, h3]

theorem sample_disk_eq : mkfs 8704 (blank_disk 17) = sample_disk := by
  unfold mkfs
  rw [mkfs_sb_8704]
  have hb : max (nblocks 8704) ((bytes_written ⟨magic, 16, 17⟩ + FS_BSIZE - 1) / FS_BSIZE) = 18 := by
    decide
  simp only [write_tables, hb, sample_disk, blank_disk, ite_self]

theorem sample_mount_eq : fs_fill_super (mkfs 8704 (blank_disk 17)) 0 = some sample_mount := by
  rw [sample_disk_eq]
  rfl

theorem C3_create_until_full_witness :
    fs_fill_super (mkfs 8704 (blank_disk 17)) 0 = some sample_mount ∧
    ((List.range 16).map sample_create).length = sample_mount.sbi.s_nnodes ∧
    (∀ k, k < ((List.range 16).map sample_create).length → ∃ r ino,
      (mknod_seq sample_mount ((List.range 16).map sample_create)).1[k]? = some r ∧ r.rc = 0 ∧
      r.d_inode = some ino ∧ ino.i_ino = FS_ROOT_INO + 1 + k) ∧
    (fs_mknod (mknod_seq sample_mount ((List.range 16).map sample_create)).2
      sample_root [103] 0o100644 ⟨0, 0, 0⟩).rc = -ENFILE :=
  have h := C3_create_until_full 8704 (blank_disk 17) 0 sample_mount sample_mount_eq
    ((List.range 16).map sample_create) (by decide) ⟨sample_root, [103], 0o100644, ⟨0, 0, 0⟩⟩
  ⟨sample_mount_eq, by decide, h.2.1, h.2.2.1⟩

/-- Claim C7. In every state reached from a mount of a freshly formatted device by
creates, block mappings (in either mode), inode write-backs, directory reads,
unlinks and inode deletions, a nonzero block pointer of an in-core file differs
from every pointer of another in-core file and from the pointers of the other
logical blocks of the same file. So the blocks mapped for the logical blocks 0,
1 and 2 of a new file differ from each other. -/
theorem C7_pointers_distinct (st_size : Nat) (old : disk) (now : Nat) (st0 : fs_state)
    (hm : fs_fill_super (mkfs st_size old) now = some st0) (ops : List op)
    (h1 h2 : Nat) (ino1 ino2 : inode) (b1 b2 : Nat)
    (hx1 : (run st0 ops).icache[h1]? = some ino1) (hx2 : (run st0 ops).icache[h2]? = some ino2)
    (hb1 : b1 ≤ 2) (hb2 : b2 ≤ 2) (hne : h1 ≠ h2 ∨ b1 ≠ b2)
    (hnz : ino1.i_data.get b1 ≠ 0) :
    ino1.i_data.get b1 ≠ ino2.i_data.get b2 := by
  obtain ⟨root, hr, _, hroot⟩ :=
    fs_fill_super_root (mkfs st_size old) now (mkfs_dev_blocks_pos st_size old)
  rw [hr] at hm
  cases hm
  have hn : (mkfs st_size old).sb.s_nnodes < 2 ^ 16 :=
    lt_of_le_of_lt (mkfs_sb_nnodes_le st_size) (by norm_num)
  have h0 : ptr_inv (mkfs st_size old).sb.s_nnodes (fun _ => false) [root] := by
    have := ptr_inv_append (mkfs st_size old).sb.s_nnodes (fun _ => false) [] root hroot
      ⟨fun h ino b hx => by simp at hx, fun h1 h2 i1 i2 b1 b2 hx => by simp at hx⟩
    simpa using this
  have hinv := run_ptr_inv ops
    { dev := mkfs st_size old
      sbi := { s_nnodes := (mkfs st_size old).sb.s_nnodes
               s_nblocks := (mkfs st_size old).sb.s_nblocks
               s_lookup := fun _ => none, s_inode_bm := fun _ => false }
      icache := [root] } hn h0
  intro heq
  have := hinv.2 h1 h2 ino1 ino2 b1 b2 hx1 hx2 hb1 hb2 hnz heq
  omega

theorem C7_pointers_distinct_witness :
    fs_fill_super (mkfs 8704 (blank_disk 17)) 0 = some sample_mount ∧
    (run sample_mount sample_ops).icache[1]? = some sample_file ∧
    sample_file.i_data.get 0 ≠ 0 ∧
    sample_file.i_data.get 0 ≠ sample_file.i_data.get 1 :=
  ⟨sample_mount_eq, by decide, by decide,
    C7_pointers_distinct 8704 (blank_disk 17) 0 sample_mount sample_mount_eq sample_ops
      1 1 sample_file sample_file 0 1 (by decide) (by decide) (by decide) (by decide)
      (Or.inr (by decide)) (by decide)⟩

/-! ## The name index -/

theorem cstr_strncpy (s : List Nat) (n : Nat) : cstr (strncpy s n) = (cstr s).take n := by
  unfold strncpy
  have hall : ∀ a ∈ (cstr s).take n, (fun c : Nat => c != 0) a = true := by
    intro a ha
    have := List.mem_of_mem_take ha
    unfold cstr at this
    exact List.mem_takeWhile_imp (p := fun c : Nat => c != 0) this
  have hrep : ∀ k : Nat, List.takeWhile (fun c : Nat => c != 0) (List.replicate k 0) = [] := by
    intro k
    cases k <;> simp [List.replicate]
  show List.takeWhile _ _ = _
  rw [List.takeWhile_append_of_pos hall, hrep, List.append_nil]

theorem strncmp_eq_strncpy (a b : List Nat) (n : Nat) :
    strncmp_eq (strncpy a n) b n = strncmp_eq a b n := by
  unfold strncmp_eq
  rw [cstr_strncpy, List.take_take, Nat.min_self]

theorem strncmp_eq_self (a : List Nat) (n : Nat) : strncmp_eq a a n = true := by
  simp [strncmp_eq]

/-- What a create that attaches an inode to the dentry has done. -/
theorem fs_mknod_success (st : fs_state) (dir : inode) (dname : List Nat) (mode : Nat)
    (cur : task) (ino : inode) (h : (fs_mknod st dir dname mode cur).d_inode = some ino) :
    ∃ k, k < st.sbi.s_nnodes ∧ st.sbi.s_lookup k = none ∧
      (∀ j, j < k → st.sbi.s_lookup j ≠ none) ∧ ino.i_ino = FS_ROOT_INO + k + 1 ∧
      (fs_mknod st dir dname mode cur).st.sbi.s_lookup = Function.update st.sbi.s_lookup k
        (some ⟨strncpy dname FS_FNAME_LEN, u16 (FS_ROOT_INO + k + 1)⟩) ∧
      (fs_mknod st dir dname mode cur).st.sbi.s_nnodes = st.sbi.s_nnodes := by
  cases hs : scan (fun i => (st.sbi.s_lookup i).isNone) st.sbi.s_nnodes 0 with
  | none =>
    have hf : fs_find_free_inode st.sbi = FS_ROOT_INO := by simp [fs_find_free_inode, hs]
    simp [fs_mknod, hf] at h
  | some k =>
    have hs' := hs
    rw [scan_some_iff] at hs'
    obtain ⟨_, h2, h3, h4⟩ := hs'
    have hk : k < st.sbi.s_nnodes := by omega
    have hfree : st.sbi.s_lookup k = none := by simpa using h3
    have hused : ∀ j, j < k → st.sbi.s_lookup j ≠ none :=
      fun j hj => (isNone_false_iff _).1 (h4 j (Nat.zero_le _) hj)
    by_cases hread : FS_INO_BLK + k / FS_INO_PER_BLK < st.dev.dev_blocks
    · have hstep := fs_mknod_slot st dir dname mode cur k hk hfree hused hread
      rw [hstep] at h ⊢
      simp only [Option.some.injEq] at h
      exact ⟨k, hk, hfree, hused, by rw [← h]; rfl, rfl, rfl⟩
    · have hf := find_free_inode_eq st.sbi k hk hfree hused
      have hne : ¬ FS_ROOT_INO = FS_ROOT_INO + k + 1 := by omega
      have hsl : FS_ROOT_INO + k + 1 - FS_ROOT_INO - 1 = k := by omega
      have hrd : sb_bread st.dev (FS_INO_BLK + k / FS_INO_PER_BLK) = false := by
        simp [sb_bread, hread]
      obtain ⟨h1, _, _, _⟩ := mknod_inode_ino dir mode cur (FS_ROOT_INO + k + 1)
      simp [fs_mknod, hf, hne, h1, hsl, hrd] at h

/-- The name index after a create whose allocations succeed. -/
theorem fs_mknod_lookup_ok (st : fs_state) (dir : inode) (dname : List Nat) (mode : Nat)
    (cur : task) :
    (fs_mknod st dir dname mode cur).st.sbi.s_nnodes = st.sbi.s_nnodes ∧
    ((fs_mknod st dir dname mode cur).st.sbi.s_lookup = st.sbi.s_lookup ∨
      ∃ k, k < st.sbi.s_nnodes ∧
        (fs_mknod st dir dname mode cur).st.sbi.s_lookup = Function.update st.sbi.s_lookup k
          (some ⟨strncpy dname FS_FNAME_LEN, u16 (FS_ROOT_INO + k + 1)⟩)) := by
  cases hd : (fs_mknod st dir dname mode cur).d_inode with
  | some ino =>
    obtain ⟨k, hk, _, _, _, h5, h6⟩ := fs_mknod_success st dir dname mode cur ino hd
    exact ⟨h6, Or.inr ⟨k, hk, h5⟩⟩
  | none =>
    rw [fs_mknod_ok] at hd ⊢
    simp only at hd ⊢
    split
    · exact ⟨rfl, Or.inl rfl⟩
    · split
      · exact ⟨rfl, Or.inl rfl⟩
      · rename_i h1 h2
        simp [h1, h2] at hd

/-- The name index after any create, whatever its allocations return. -/
theorem fs_mknod_lookup (st : fs_state) (dir : inode) (dname : List Nat) (mode : Nat)
    (cur : task) (inode_ok le_ok : Bool) :
    (fs_mknod st dir dname mode cur inode_ok le_ok).st.sbi.s_nnodes = st.sbi.s_nnodes ∧
    ((fs_mknod st dir dname mode cur inode_ok le_ok).st.sbi.s_lookup = st.sbi.s_lookup ∨
      ∃ k, k < st.sbi.s_nnodes ∧
        (fs_mknod st dir dname mode cur inode_ok le_ok).st.sbi.s_lookup
          = Function.update st.sbi.s_lookup k
            (some ⟨strncpy dname FS_FNAME_LEN, u16 (FS_ROOT_INO + k + 1)⟩)) := by
  rw [fs_mknod_flags]
  split
  · exact ⟨rfl, Or.inl rfl⟩
  · split
    · exact fs_mknod_lookup_ok st dir dname mode cur
    · exact ⟨rfl, Or.inl rfl⟩

theorem fs_delete_inode_lookup (sbi : m_sb) (dev : disk) (ino : inode) (k : Nat)
    (le : lookup_entry) (h : (fs_delete_inode sbi dev ino).1.s_lookup k = some le) :
    sbi.s_lookup k = some le := by
  unfold fs_delete_inode at h
  cases hr : fs_raw_inode sbi dev ino.i_ino with
  | none => rw [hr] at h; exact h
  | some pos =>
    rw [hr] at h
    simp only at h
    split at h
    · by_cases hk : k = ino.i_ino - FS_ROOT_INO - 1
      · rw [hk] at h; simp at h
      · rw [Function.update_noteq hk] at h; exact h
    · exact h

theorem name_to_inode_no_match (sbi : m_sb) (dname : List Nat)
    (h : ∀ (j : Nat) (le : lookup_entry), j < sbi.s_nnodes → sbi.s_lookup j = some le →
      strncmp_eq le.name dname FS_FNAME_LEN = false) :
    fs_name_to_inode sbi dname = 0 := by
  have hs : scan (fun i => match sbi.s_lookup i with
      | none => false
      | some le => strncmp_eq le.name dname FS_FNAME_LEN) sbi.s_nnodes 0 = none := by
    rw [scan_none_iff]
    intro j _ hj
    cases hl : sbi.s_lookup j with
    | none => rfl
    | some le => exact h j le (by omega) hl
  simp [fs_name_to_inode, hs]

theorem name_to_inode_first_match (sbi : m_sb) (dname : List Nat) (k : Nat) (le : lookup_entry)
    (hk : k < sbi.s_nnodes) (hle : sbi.s_lookup k = some le)
    (hmatch : strncmp_eq le.name dname FS_FNAME_LEN = true)
    (hmin : ∀ (j : Nat) (le' : lookup_entry), j < k → sbi.s_lookup j = some le' →
      strncmp_eq le'.name dname FS_FNAME_LEN = false) :
    fs_name_to_inode sbi dname = le.i_ino := by
  have hs : scan (fun i => match sbi.s_lookup i with
      | none => false
      | some le => strncmp_eq le.name dname FS_FNAME_LEN) sbi.s_nnodes 0 = some k := by
    rw [scan_some_iff]
    refine ⟨Nat.zero_le _, by omega, by simp [hle, hmatch], fun j _ hj => ?_⟩
    cases hl : sbi.s_lookup j with
    | none => rfl
    | some le' => exact hmin j le' hj hl
  simp [fs_name_to_inode, hs, hle]

theorem no_match_of_name_to_inode_zero (sbi : m_sb) (dname : List Nat)
    (hz : fs_name_to_inode sbi dname = 0)
    (hnz : ∀ (j : Nat) (le : lookup_entry), sbi.s_lookup j = some le → le.i_ino ≠ 0)
    (j : Nat) (le : lookup_entry) (hj : j < sbi.s_nnodes) (hle : sbi.s_lookup j = some le) :
    strncmp_eq le.name dname FS_FNAME_LEN = false := by
  unfold fs_name_to_inode at hz
  cases hs : scan (fun i => match sbi.s_lookup i with
      | none => false
      | some le => strncmp_eq le.name dname FS_FNAME_LEN) sbi.s_nnodes 0 with
  | none =>
    rw [scan_none_iff] at hs
    have := hs j (Nat.zero_le _) (by omega)
    simpa [hle] using this
  | some k =>
    rw [hs] at hz
    rw [scan_some_iff] at hs
    obtain ⟨_, _, h3, _⟩ := hs
    cases hl : sbi.s_lookup k with
    | none => simp [hl] at h3
    | some le' =>
      simp only [hl] at hz
      exact absurd hz (hnz k le' hl)

theorem lookup_inv_mono (names names' : List (List Nat)) (sbi : m_sb)
    (hsub : ∀ nm, nm ∈ names → nm ∈ names') (h : lookup_inv names sbi) :
    lookup_inv names' sbi := by
  intro k le hle
  obtain ⟨h1, h2, nm, h3, h4⟩ := h k le hle
  exact ⟨h1, h2, nm, hsub nm h3, h4⟩

theorem step_lookup_inv (st : fs_state) (o : op) (names : List (List Nat))
    (hno : o.is_readdir = false) (hinv : lookup_inv names st.sbi) :
    lookup_inv (names ++ (o.created_name).toList) (step st o).sbi := by
  cases o with
  | create dir dname mode cur inode_ok le_ok =>
    obtain ⟨h1, h2⟩ := fs_mknod_lookup st dir dname mode cur inode_ok le_ok
    intro k le hle
    simp only [step] at hle ⊢
    rw [h1]
    rcases h2 with h2 | ⟨k', hk', h2⟩
    · rw [h2] at hle
      obtain ⟨a, b, nm, c, d⟩ := hinv k le hle
      exact ⟨a, b, nm, by simp [c], d⟩
    · rw [h2] at hle
      by_cases hkk : k = k'
      · subst hkk
        simp only [Function.update_same, Option.some.injEq] at hle
        subst hle
        exact ⟨hk', rfl, dname, by simp [op.created_name], rfl⟩
      · rw [Function.update_noteq hkk] at hle
        obtain ⟨a, b, nm, c, d⟩ := hinv k le hle
        exact ⟨a, b, nm, by simp [c], d⟩
  | get_block h block create =>
    simp only [step, op.created_name, Option.toList, List.append_nil]
    cases hh : st.icache[h]? with
    | none => exact hinv
    | some ino =>
      obtain ⟨h1, h2, _⟩ := fs_get_block_cases st.sbi ino block ⟨0, false, false⟩ create
      intro k le hle
      simp only at hle ⊢
      rw [h2] at hle
      rw [h1]
      exact hinv k le hle
  | write_inode h =>
    simp only [step, op.created_name, Option.toList, List.append_nil]
    cases hh : st.icache[h]? with
    | none => exact hinv
    | some ino => exact hinv
  | readdir f_pos km => simp [op.is_readdir] at hno
  | unlink h now =>
    simp only [step, op.created_name, Option.toList, List.append_nil]
    cases hh : st.icache[h]? with
    | none => exact hinv
    | some ino => exact hinv
  | delete_inode h =>
    simp only [step, op.created_name, Option.toList, List.append_nil]
    cases hh : st.icache[h]? with
    | none => exact hinv
    | some ino =>
      intro k le hle
      simp only at hle ⊢
      rw [(fs_delete_inode_bm st.sbi st.dev ino).1]
      exact hinv k le (fs_delete_inode_lookup st.sbi st.dev ino k le hle)

theorem run_lookup_inv (ops : List op) : ∀ (st : fs_state) (names : List (List Nat)),
    (∀ o, o ∈ ops → o.is_readdir = false) → lookup_inv names st.sbi →
    lookup_inv (names ++ created_names ops) (run st ops).sbi := by
  induction ops with
  | nil =>
    intro st names _ h
    simpa [created_names, run] using h
  | cons o ops ih =>
    intro st names hno h
    have h1 := step_lookup_inv st o names (hno o (by simp)) h
    have h2 := ih (step st o) _ (fun o' ho' => hno o' (by simp [ho'])) h1
    refine lookup_inv_mono _ _ _ (fun nm hnm => ?_) h2
    simp only [created_names, List.mem_append, List.filterMap_cons] at hnm ⊢
    rcases hnm with (hnm | hnm) | hnm
    · exact Or.inl hnm
    · right
      cases hc : o.created_name with
      | none => simp [hc] at hnm
      | some x =>
        simp only [hc, Option.toList, List.mem_singleton] at hnm
        simp [hnm]
    · right
      cases hc : o.created_name with
      | none => simpa using hnm
      | some x => simp only [List.mem_cons]; exact Or.inr hnm

theorem run_nnodes (ops : List op) : ∀ st : fs_state,
    (run st ops).sbi.s_nnodes = st.sbi.s_nnodes := by
  induction ops with
  | nil => exact fun _ => rfl
  | cons o ops ih =>
    intro st
    show (run (step st o) ops).sbi.s_nnodes = _
    rw [ih]
    cases o with
    | create dir dname mode cur inode_ok le_ok =>
      exact (fs_mknod_lookup st dir dname mode cur inode_ok le_ok).1
    | get_block h block create =>
      simp only [step]
      cases hh : st.icache[h]? with
      | none => rfl
      | some ino => exact (fs_get_block_cases st.sbi ino block ⟨0, false, false⟩ create).1
    | write_inode h =>
      simp only [step]
      cases hh : st.icache[h]? <;> rfl
    | readdir f_pos => rfl
    | unlink h now =>
      simp only [step]
      cases hh : st.icache[h]? <;> rfl
    | delete_inode h =>
      simp only [step]
      cases hh : st.icache[h]? with
      | none => rfl
      | some ino => exact (fs_delete_inode_bm st.sbi st.dev ino).1

/-- What a successful mount starts from. -/
theorem fs_fill_super_eq (dev : disk) (now : Nat) (st0 : fs_state)
    (hm : fs_fill_super dev now = some st0) :
    st0.dev = dev ∧ st0.sbi.s_nnodes = dev.sb.s_nnodes ∧
    st0.sbi.s_lookup = (fun _ => none) ∧ st0.sbi.s_inode_bm = (fun _ => false) := by
  by_cases hb : 0 < dev.dev_blocks
  · obtain ⟨root, hr⟩ := fs_fill_super_some dev now hb
    rw [hr] at hm
    cases hm
    exact ⟨rfl, rfl, rfl, rfl⟩
  · simp [fs_fill_super, sb_bread, FS_SB_BLK, hb] at hm

/-- Claim C8, as the code has it: in a mount of a formatted device, in every state
reached without a directory read (whatever the allocations of the creates of the
session returned), lookup returns 0 for every name that no create of the session
has used (names are compared on their first `FS_FNAME_LEN` bytes), whatever
records the device holds; and after a create whose lookup entry could be
allocated, under a name for which lookup returned 0 before (the VFS calls create
for no other name), lookup returns the inode number of the new file. -/
theorem C8_lookup_before_enumerate (st_size : Nat) (dev : disk) (now : Nat) (st0 : fs_state)
    (hsb : dev.sb = mkfs_sb st_size) (hm : fs_fill_super dev now = some st0)
    (ops : List op) (hops : ∀ o, o ∈ ops → o.is_readdir = false) (dname : List Nat) :
    ((∀ nm, nm ∈ created_names ops → strncmp_eq nm dname FS_FNAME_LEN = false) →
      fs_name_to_inode (run st0 ops).sbi dname = 0) ∧
    (fs_name_to_inode (run st0 ops).sbi dname = 0 →
      ∀ (dir : inode) (mode : Nat) (cur : task) (ino : inode) (inode_ok : Bool),
        (fs_mknod (run st0 ops) dir dname mode cur inode_ok true).d_inode = some ino →
        fs_name_to_inode (fs_mknod (run st0 ops) dir dname mode cur inode_ok true).st.sbi dname
          = ino.i_ino) := by
  obtain ⟨_, hn0, hl0, _⟩ := fs_fill_super_eq dev now st0 hm
  have hinv0 : lookup_inv [] st0.sbi := by
    intro k le hle
    rw [hl0] at hle
    cases hle
  have hinv := run_lookup_inv ops st0 [] hops hinv0
  simp only [List.nil_append] at hinv
  have hn : (run st0 ops).sbi.s_nnodes ≤ 65520 := by
    rw [run_nnodes, hn0, hsb]
    exact mkfs_sb_nnodes_le st_size
  constructor
  · intro hnew
    apply name_to_inode_no_match
    intro j le _ hle
    obtain ⟨_, _, nm, h3, h4⟩ := hinv j le hle
    rw [h4, strncmp_eq_strncpy]
    exact hnew nm h3
  · intro hz dir mode cur ino inode_ok hd
    have hio : inode_ok = true := by
      cases inode_ok
      · exact absurd hd (by simp [fs_mknod])
      · rfl
    subst hio
    obtain ⟨k, hk, _, hused, hino, hlk, hnn⟩ :=
      fs_mknod_success (run st0 ops) dir dname mode cur ino hd
    have hnz : ∀ (j : Nat) (le : lookup_entry),
        (run st0 ops).sbi.s_lookup j = some le → le.i_ino ≠ 0 := by
      intro j le hle
      obtain ⟨h1, h2, _⟩ := hinv j le hle
      rw [h2]
      unfold u16
      simp only [FS_ROOT_INO]
      omega
    have hno := no_match_of_name_to_inode_zero (run st0 ops).sbi dname hz hnz
    have hres := name_to_inode_first_match (fs_mknod (run st0 ops) dir dname mode cur).st.sbi
      dname k ⟨strncpy dname FS_FNAME_LEN, u16 (FS_ROOT_INO + k + 1)⟩
      (by rw [hnn]; exact hk) (by rw [hlk]; simp)
      (by rw [strncmp_eq_strncpy]; exact strncmp_eq_self _ _)
      (by
        intro j le' hj hle'
        rw [hlk, Function.update_noteq (by omega)] at hle'
        exact hno j le' (by omega) hle')
    rw [hres, hino]
    show u16 _ = _
    unfold u16
    simp only [FS_ROOT_INO] at *
    omega

theorem C8_lookup_before_enumerate_witness :
    sample_used_disk.sb = mkfs_sb 8704 ∧
    fs_fill_super sample_used_disk 0 = some sample_used_mount ∧
    (sample_used_disk.itable 0).name = strncpy [97] FS_FNAME_LEN ∧
    (sample_used_disk.itable 0).i_nlinks = 1 ∧
    fs_name_to_inode (run sample_used_mount []).sbi [97] = 0 ∧
    (fs_mknod (run sample_used_mount []) sample_root [98] 0o100644 ⟨0, 0, 0⟩).d_inode
      = some (mknod_inode sample_root 0o100644 ⟨0, 0, 0⟩ 2) ∧
    fs_name_to_inode
      (fs_mknod (run sample_used_mount []) sample_root [98] 0o100644 ⟨0, 0, 0⟩).st.sbi [98]
      = (mknod_inode sample_root 0o100644 ⟨0, 0, 0⟩ 2).i_ino :=
  ⟨mkfs_sb_8704.symm, rfl, rfl, rfl,
    (C8_lookup_before_enumerate 8704 sample_used_disk 0 sample_used_mount mkfs_sb_8704.symm rfl
      [] (fun _ h => absurd h (List.not_mem_nil _)) [97]).1
      (fun _ h => absurd h (List.not_mem_nil _)),
    by decide,
    (C8_lookup_before_enumerate 8704 sample_used_disk 0 sample_used_mount mkfs_sb_8704.symm rfl
      [] (fun _ h => absurd h (List.not_mem_nil _)) [98]).2 (by decide)
      sample_root 0o100644 ⟨0, 0, 0⟩ (mknod_inode sample_root 0o100644 ⟨0, 0, 0⟩ 2) true
      (by decide)⟩

/-- Claim C8 fails for a file whose lookup entry could not be allocated: in a
fresh mount the lookup of `f0` returns 0; the create of `f0` in which `kmalloc`
returns no memory for the entry returns 0 with the inode of number 2 attached
and the record of slot 0 written, and the lookup of `f0` still returns 0. -/
theorem C8_counterexample :
    fs_name_to_inode sample_mount.sbi [102, 48] = 0 ∧
    (fs_mknod sample_mount sample_root [102, 48] 0o100644 ⟨0, 0, 0⟩ true false).rc = 0 ∧
    (fs_mknod sample_mount sample_root [102, 48] 0o100644 ⟨0, 0, 0⟩ true false).d_inode
      = some (mknod_inode sample_root 0o100644 ⟨0, 0, 0⟩ 2) ∧
    ((fs_mknod sample_mount sample_root [102, 48] 0o100644 ⟨0, 0, 0⟩ true false).st.dev.itable
      0).i_nlinks = 1 ∧
    ((fs_mknod sample_mount sample_root [102, 48] 0o100644 ⟨0, 0, 0⟩ true false).st.dev.itable
      0).name = strncpy [102, 48] FS_FNAME_LEN ∧
    fs_name_to_inode
      (fs_mknod sample_mount sample_root [102, 48] 0o100644 ⟨0, 0, 0⟩ true false).st.sbi
      [102, 48] = 0 := by
  refine ⟨by decide, by decide, by decide, by decide, by decide, by decide⟩

/-! ## Reading the directory -/

theorem readdir_slot_lookup_km (dev : disk) (i j : Nat) (a : readdir_acc) (le_ok : Bool)
    (p : Nat) :
    (readdir_slot dev i j a le_ok).lookup p =
      if p = i * FS_INO_PER_BLK + j ∧ (dev.itable p).i_nlinks ≠ 0 ∧ le_ok = true then
        some ⟨strncpy (dev.itable p).name FS_FNAME_LEN, (dev.itable p).i_ino⟩
      else a.lookup p := by
  have hpos : di_pos (FS_INO_BLK + i) j = i * FS_INO_PER_BLK + j := by
    simp [di_pos, FS_INO_BLK]
  unfold readdir_slot
  simp only [hpos]
  by_cases hl : (dev.itable (i * FS_INO_PER_BLK + j)).i_nlinks ≠ 0
  · rw [if_pos hl]
    cases le_ok
    · have hc : ¬ (p = i * FS_INO_PER_BLK + j ∧ (dev.itable p).i_nlinks ≠ 0 ∧
          false = true) := by
        rintro ⟨_, _, h⟩
        cases h
      rw [if_neg hc]
      rfl
    · by_cases hp : p = i * FS_INO_PER_BLK + j
      · subst hp
        have hc : i * FS_INO_PER_BLK + j = i * FS_INO_PER_BLK + j ∧
            (dev.itable (i * FS_INO_PER_BLK + j)).i_nlinks ≠ 0 ∧ true = true := ⟨rfl, hl, rfl⟩
        rw [if_pos hc]
        simp only [if_true, eq_self_iff_true, Function.update_same]
      · have hc : ¬ (p = i * FS_INO_PER_BLK + j ∧ (dev.itable p).i_nlinks ≠ 0 ∧
            true = true) := fun h => hp h.1
        rw [if_neg hc]
        simp only [if_true, eq_self_iff_true, Function.update_noteq hp]
  · rw [if_neg hl, if_neg]
    rintro ⟨h1, h2, _⟩
    rw [h1] at h2
    exact hl h2

theorem readdir_inner_km (dev : disk) (km : Nat → Bool) (i : Nat) (m : Nat) :
    ∀ (a : readdir_acc) (p : Nat),
      ((List.range m).foldl
          (fun a j => readdir_slot dev i j a (km (i * FS_INO_PER_BLK + j))) a).lookup p =
        if i * FS_INO_PER_BLK ≤ p ∧ p < i * FS_INO_PER_BLK + m ∧ (dev.itable p).i_nlinks ≠ 0 ∧
            km p = true then
          some ⟨strncpy (dev.itable p).name FS_FNAME_LEN, (dev.itable p).i_ino⟩
        else a.lookup p := by
  induction m with
  | zero =>
    intro a p
    have : ¬ (i * FS_INO_PER_BLK ≤ p ∧ p < i * FS_INO_PER_BLK + 0 ∧
        (dev.itable p).i_nlinks ≠ 0 ∧ km p = true) := by omega
    rw [if_neg this]
    rfl
  | succ m ih =>
    intro a p
    rw [List.range_succ, List.foldl_append]
    simp only [List.foldl_cons, List.foldl_nil]
    rw [readdir_slot_lookup_km, ih]
    by_cases hl : (dev.itable p).i_nlinks ≠ 0 ∧ km p = true
    · by_cases h1 : p = i * FS_INO_PER_BLK + m
      · rw [if_pos ⟨h1, hl.1, by rw [← h1]; exact hl.2⟩, if_pos ⟨by omega, by omega, hl⟩]
      · rw [if_neg (fun h => h1 h.1)]
        by_cases h2 : i * FS_INO_PER_BLK ≤ p ∧ p < i * FS_INO_PER_BLK + m
        · rw [if_pos ⟨h2.1, h2.2, hl⟩, if_pos ⟨h2.1, by omega, hl⟩]
        · rw [if_neg (fun h => h2 ⟨h.1, h.2.1⟩), if_neg (fun h => h2 ⟨h.1, by omega⟩)]
    · rw [if_neg (fun h => hl ⟨h.2.1, by rw [h.1]; exact h.2.2⟩),
        if_neg (fun h => hl h.2.2), if_neg (fun h => hl h.2.2)]

theorem readdir_outer_km (dev : disk) (km : Nat → Bool) (len : Nat) :
    ∀ (s : Nat) (a : readdir_acc) (p : Nat),
      (∀ i, s ≤ i → i < s + len → FS_INO_BLK + i < dev.dev_blocks) →
      (readdir_blocks dev (List.range' s len) a km).lookup p =
        if s * FS_INO_PER_BLK ≤ p ∧ p < (s + len) * FS_INO_PER_BLK ∧
            (dev.itable p).i_nlinks ≠ 0 ∧ km p = true then
          some ⟨strncpy (dev.itable p).name FS_FNAME_LEN, (dev.itable p).i_ino⟩
        else a.lookup p := by
  induction len with
  | zero =>
    intro s a p _
    have : ¬ (s * FS_INO_PER_BLK ≤ p ∧ p < (s + 0) * FS_INO_PER_BLK ∧
        (dev.itable p).i_nlinks ≠ 0 ∧ km p = true) := by
      simp only [Nat.add_zero]; omega
    rw [if_neg this]
    rfl
  | succ len ih =>
    intro s a p hread
    have hrd : sb_bread dev (FS_INO_BLK + s) = true := by
      simp [sb_bread, hread s (le_refl _) (by omega)]
    rw [List.range'_succ]
    simp only [readdir_blocks_cons_km, hrd, if_true]
    rw [ih (s + 1) _ p (fun i h1 h2 => hread i (by omega) (by omega)), readdir_inner_km]
    simp only [FS_INO_PER_BLK_eq]
    by_cases hl : (dev.itable p).i_nlinks ≠ 0 ∧ km p = true
    · by_cases h1 : (s + 1) * 16 ≤ p ∧ p < (s + 1 + len) * 16
      · rw [if_pos ⟨h1.1, h1.2, hl⟩, if_pos ⟨by omega, by omega, hl⟩]
      · rw [if_neg (fun h => h1 ⟨h.1, h.2.1⟩)]
        by_cases h3 : s * 16 ≤ p ∧ p < s * 16 + 16
        · rw [if_pos ⟨h3.1, h3.2, hl⟩, if_pos ⟨h3.1, by omega, hl⟩]
        · rw [if_neg (fun h => h3 ⟨h.1, h.2.1⟩), if_neg (fun h => h3 ⟨h.1, by omega⟩)]
    · rw [if_neg (fun h => hl h.2.2), if_neg (fun h => hl h.2.2), if_neg (fun h => hl h.2.2)]

/-- The name index after a directory read from position 0 when every table block
can be read: the entries of the slots in whole table blocks whose record is
linked and whose lookup entry could be allocated are rewritten from the record,
the others are left. -/
theorem fs_readdir_lookup_km (sbi : m_sb) (dev : disk) (km : Nat → Bool)
    (hread : ∀ i, i < sbi.s_nnodes / FS_INO_PER_BLK → FS_INO_BLK + i < dev.dev_blocks)
    (p : Nat) :
    (fs_readdir sbi dev 0 km).lookup p =
      if p < sbi.s_nnodes / FS_INO_PER_BLK * FS_INO_PER_BLK ∧ (dev.itable p).i_nlinks ≠ 0 ∧
          km p = true then
        some ⟨strncpy (dev.itable p).name FS_FNAME_LEN, (dev.itable p).i_ino⟩
      else sbi.s_lookup p := by
  unfold fs_readdir
  simp only [ne_eq, not_true_eq_false, if_false, List.range_eq_range']
  rw [readdir_outer_km dev km _ 0 _ p (fun i _ h2 => hread i (by omega))]
  simp only [Nat.zero_mul, Nat.zero_le, true_and, Nat.zero_add]

theorem readdir_slot_lookup (dev : disk) (i j : Nat) (a : readdir_acc) (p : Nat) :
    (readdir_slot dev i j a).lookup p =
      if p = i * FS_INO_PER_BLK + j ∧ (dev.itable p).i_nlinks ≠ 0 then
        some ⟨strncpy (dev.itable p).name FS_FNAME_LEN, (dev.itable p).i_ino⟩
      else a.lookup p := by
  have hpos : di_pos (FS_INO_BLK + i) j = i * FS_INO_PER_BLK + j := by
    simp [di_pos, FS_INO_BLK]
  rw [readdir_slot_ok]
  simp only [hpos]
  by_cases hl : (dev.itable (i * FS_INO_PER_BLK + j)).i_nlinks ≠ 0
  · rw [if_pos hl]
    by_cases hp : p = i * FS_INO_PER_BLK + j
    · subst hp
      rw [if_pos ⟨rfl, hl⟩]
      simp only [Function.update_same]
    · rw [if_neg (fun h => hp h.1)]
      simp only [Function.update_noteq hp]
  · rw [if_neg hl, if_neg]
    rintro ⟨h1, h2⟩
    rw [h1] at h2
    exact hl h2

theorem readdir_inner (dev : disk) (i : Nat) (m : Nat) :
    ∀ (a : readdir_acc) (p : Nat),
      ((List.range m).foldl (fun a j => readdir_slot dev i j a) a).lookup p =
        if i * FS_INO_PER_BLK ≤ p ∧ p < i * FS_INO_PER_BLK + m ∧ (dev.itable p).i_nlinks ≠ 0 then
          some ⟨strncpy (dev.itable p).name FS_FNAME_LEN, (dev.itable p).i_ino⟩
        else a.lookup p := by
  induction m with
  | zero =>
    intro a p
    have : ¬ (i * FS_INO_PER_BLK ≤ p ∧ p < i * FS_INO_PER_BLK + 0 ∧
        (dev.itable p).i_nlinks ≠ 0) := by omega
    rw [if_neg this]
    rfl
  | succ m ih =>
    intro a p
    rw [List.range_succ, List.foldl_append]
    simp only [List.foldl_cons, List.foldl_nil]
    rw [readdir_slot_lookup, ih]
    by_cases hl : (dev.itable p).i_nlinks ≠ 0
    · by_cases h1 : p = i * FS_INO_PER_BLK + m
      · rw [if_pos ⟨h1, hl⟩, if_pos ⟨by omega, by omega, hl⟩]
      · rw [if_neg (fun h => h1 h.1)]
        by_cases h2 : i * FS_INO_PER_BLK ≤ p ∧ p < i * FS_INO_PER_BLK + m
        · rw [if_pos ⟨h2.1, h2.2, hl⟩, if_pos ⟨h2.1, by omega, hl⟩]
        · rw [if_neg (fun h => h2 ⟨h.1, h.2.1⟩), if_neg (fun h => h2 ⟨h.1, by omega⟩)]
    · rw [if_neg (fun h => hl h.2), if_neg (fun h => hl h.2.2), if_neg (fun h => hl h.2.2)]

theorem readdir_outer (dev : disk) (len : Nat) :
    ∀ (s : Nat) (a : readdir_acc) (p : Nat),
      (∀ i, s ≤ i → i < s + len → FS_INO_BLK + i < dev.dev_blocks) →
      (readdir_blocks dev (List.range' s len) a).lookup p =
        if s * FS_INO_PER_BLK ≤ p ∧ p < (s + len) * FS_INO_PER_BLK ∧
            (dev.itable p).i_nlinks ≠ 0 then
          some ⟨strncpy (dev.itable p).name FS_FNAME_LEN, (dev.itable p).i_ino⟩
        else a.lookup p := by
  induction len with
  | zero =>
    intro s a p _
    have : ¬ (s * FS_INO_PER_BLK ≤ p ∧ p < (s + 0) * FS_INO_PER_BLK ∧
        (dev.itable p).i_nlinks ≠ 0) := by
      simp only [Nat.add_zero]; omega
    rw [if_neg this]
    rfl
  | succ len ih =>
    intro s a p hread
    have hrd : sb_bread dev (FS_INO_BLK + s) = true := by
      simp [sb_bread, hread s (le_refl _) (by omega)]
    rw [List.range'_succ]
    simp only [readdir_blocks_cons, hrd, if_true]
    rw [ih (s + 1) _ p (fun i h1 h2 => hread i (by omega) (by omega)), readdir_inner]
    simp only [FS_INO_PER_BLK_eq]
    by_cases hl : (dev.itable p).i_nlinks ≠ 0
    · by_cases h1 : (s + 1) * 16 ≤ p ∧ p < (s + 1 + len) * 16
      · rw [if_pos ⟨h1.1, h1.2, hl⟩, if_pos ⟨by omega, by omega, hl⟩]
      · rw [if_neg (fun h => h1 ⟨h.1, h.2.1⟩)]
        by_cases h3 : s * 16 ≤ p ∧ p < s * 16 + 16
        · rw [if_pos ⟨h3.1, h3.2, hl⟩, if_pos ⟨h3.1, by omega, hl⟩]
        · rw [if_neg (fun h => h3 ⟨h.1, h.2.1⟩), if_neg (fun h => h3 ⟨h.1, by omega⟩)]
    · rw [if_neg (fun h => hl h.2.2), if_neg (fun h => hl h.2.2), if_neg (fun h => hl h.2.2)]

/-- The name index after a directory read from position 0 when every table block
can be read: the entries of the slots in whole table blocks whose record is
linked are rewritten from the record, the others are left. -/
theorem fs_readdir_lookup (sbi : m_sb) (dev : disk)
    (hread : ∀ i, i < sbi.s_nnodes / FS_INO_PER_BLK → FS_INO_BLK + i < dev.dev_blocks)
    (p : Nat) :
    (fs_readdir sbi dev 0).lookup p =
      if p < sbi.s_nnodes / FS_INO_PER_BLK * FS_INO_PER_BLK ∧ (dev.itable p).i_nlinks ≠ 0 then
        some ⟨strncpy (dev.itable p).name FS_FNAME_LEN, (dev.itable p).i_ino⟩
      else sbi.s_lookup p := by
  rw [fs_readdir_ok]
  simp only [ne_eq, not_true_eq_false, if_false, List.range_eq_range']
  rw [readdir_outer dev _ 0 _ p (fun i _ h2 => hread i (by omega))]
  simp only [Nat.zero_mul, Nat.zero_le, true_and, Nat.zero_add]

/-- Claim C9, as the code has it: when the inode count is a multiple of 16, every
table block can be read, and every populated slot of the name index belongs to a
record with nonzero link count, then after a directory read from position 0 the
lookup of the name of a linked record returns the inode number stored in the
lowest-slot linked record whose name agrees with it on the first `FS_FNAME_LEN`
bytes (so the name is found unless that stored number is 0). -/
theorem C9_lookup_after_enumerate (sbi : m_sb) (dev : disk)
    (h16 : sbi.s_nnodes % FS_INO_PER_BLK = 0)
    (hread : ∀ i, i < sbi.s_nnodes / FS_INO_PER_BLK → FS_INO_BLK + i < dev.dev_blocks)
    (hstale : ∀ j, j < sbi.s_nnodes → sbi.s_lookup j ≠ none → (dev.itable j).i_nlinks ≠ 0)
    (k0 : Nat) (hk0 : k0 < sbi.s_nnodes) (hl0 : (dev.itable k0).i_nlinks ≠ 0) :
    ∃ k, k ≤ k0 ∧ (dev.itable k).i_nlinks ≠ 0 ∧
      strncmp_eq (dev.itable k).name (dev.itable k0).name FS_FNAME_LEN = true ∧
      (∀ j, j < k → (dev.itable j).i_nlinks ≠ 0 →
        strncmp_eq (dev.itable j).name (dev.itable k0).name FS_FNAME_LEN = false) ∧
      fs_name_to_inode { sbi with s_lookup := (fs_readdir sbi dev 0).lookup }
        (dev.itable k0).name = (dev.itable k).i_ino := by
  have hex : ∃ k, (dev.itable k).i_nlinks ≠ 0 ∧
      strncmp_eq (dev.itable k).name (dev.itable k0).name FS_FNAME_LEN = true :=
    ⟨k0, hl0, strncmp_eq_self _ _⟩
  have hk := Nat.find_spec hex
  have hle : Nat.find hex ≤ k0 := Nat.find_min' hex ⟨hl0, strncmp_eq_self _ _⟩
  have hmin : ∀ j, j < Nat.find hex → (dev.itable j).i_nlinks ≠ 0 →
      strncmp_eq (dev.itable j).name (dev.itable k0).name FS_FNAME_LEN = false := by
    intro j hj hl
    have := Nat.find_min hex hj
    simp only [not_and, Bool.not_eq_true] at this
    exact this hl
  have hwhole : sbi.s_nnodes / FS_INO_PER_BLK * FS_INO_PER_BLK = sbi.s_nnodes := by
    rw [FS_INO_PER_BLK_eq] at h16 ⊢
    omega
  refine ⟨Nat.find hex, hle, hk.1, hk.2, hmin, ?_⟩
  apply name_to_inode_first_match _ _ (Nat.find hex)
    ⟨strncpy (dev.itable (Nat.find hex)).name FS_FNAME_LEN, (dev.itable (Nat.find hex)).i_ino⟩
  · exact lt_of_le_of_lt hle hk0
  · show (fs_readdir sbi dev 0).lookup (Nat.find hex) = _
    rw [fs_readdir_lookup sbi dev hread, hwhole, if_pos ⟨lt_of_le_of_lt hle hk0, hk.1⟩]
  · rw [strncmp_eq_strncpy]
    exact hk.2
  · intro j le' hj hle'
    have hjn : j < sbi.s_nnodes := by omega
    change (fs_readdir sbi dev 0).lookup j = some le' at hle'
    rw [fs_readdir_lookup sbi dev hread, hwhole] at hle'
    by_cases hl : (dev.itable j).i_nlinks ≠ 0
    · rw [if_pos ⟨hjn, hl⟩] at hle'
      simp only [Option.some.injEq] at hle'
      rw [← hle', strncmp_eq_strncpy]
      exact hmin j hj hl
    · rw [if_neg (fun h => hl h.2)] at hle'
      exact absurd (hstale j hjn (by rw [hle']; simp)) hl

theorem C9_lookup_after_enumerate_witness :
    sample_mount.sbi.s_nnodes % FS_INO_PER_BLK = 0 ∧
    (sample_used_disk.itable 0).i_nlinks ≠ 0 ∧
    ∃ k, k ≤ 0 ∧ (sample_used_disk.itable k).i_nlinks ≠ 0 ∧
      strncmp_eq (sample_used_disk.itable k).name (sample_used_disk.itable 0).name
        FS_FNAME_LEN = true ∧
      (∀ j, j < k → (sample_used_disk.itable j).i_nlinks ≠ 0 →
        strncmp_eq (sample_used_disk.itable j).name (sample_used_disk.itable 0).name
          FS_FNAME_LEN = false) ∧
      fs_name_to_inode
        { sample_mount.sbi with
          s_lookup := (fs_readdir sample_mount.sbi sample_used_disk 0).lookup }
        (sample_used_disk.itable 0).name = (sample_used_disk.itable k).i_ino :=
  ⟨by decide, by decide,
    C9_lookup_after_enumerate sample_mount.sbi sample_used_disk (by decide)
      (fun i hi => by
        have h1 : sample_mount.sbi.s_nnodes / FS_INO_PER_BLK = 1 := by decide
        have h2 : sample_used_disk.dev_blocks = 18 := rfl
        rw [h1] at hi
        rw [h2]
        simp only [FS_INO_BLK]
        omega)
      (fun j _ hj => absurd rfl hj) 0 (by decide) (by decide)⟩

/-- Claim C9 fails on a name index with an entry in a slot whose record is not
linked: with an entry named `a` (inode number 7) in slot 0, a free record in slot
0 and a linked record named `a` with inode number 3 in slot 1, the lookup of `a`
after a directory read returns 7. -/
theorem C9_counterexample :
    sample_stale_sbi.s_nnodes % FS_INO_PER_BLK = 0 ∧
    (sample_disk_slot1.itable 0).i_nlinks = 0 ∧
    (sample_disk_slot1.itable 1).i_nlinks = 1 ∧
    (sample_disk_slot1.itable 1).name = strncpy [97] FS_FNAME_LEN ∧
    (sample_disk_slot1.itable 1).i_ino = 3 ∧
    fs_name_to_inode
      { sample_stale_sbi with
        s_lookup := (fs_readdir sample_stale_sbi sample_disk_slot1 0).lookup }
      (sample_disk_slot1.itable 1).name = 7 := by
  refine ⟨by decide, by decide, by decide, rfl, rfl, by decide⟩

/-! ## Deleting a file -/

/-- Claim C10 at the failing input: a file is created in a fresh mount of the
sample device, its logical block 0 is mapped for writing twice (bits 0 and 1 are
set, the pointer ends as the block of bit 1), and the inode is deleted. The
name-index slot is empty again and is the one the next create takes, bit 1 is
cleared, but bit 0, set by the first allocation for the file, stays set. -/
theorem C10_delete_leaves_bit :
    (run sample_mount (sample_ops_remap.take 3)).sbi.s_inode_bm 0 = true ∧
    (run sample_mount (sample_ops_remap.take 3)).sbi.s_inode_bm 1 = true ∧
    (run sample_mount (sample_ops_remap.take 3)).icache[1]?.map (fun x => x.i_data)
      = some ⟨3, 0, 0⟩ ∧
    (run sample_mount sample_ops_remap).icache = [sample_root] ∧
    (run sample_mount sample_ops_remap).sbi.s_lookup 0 = none ∧
    fs_find_free_inode (run sample_mount sample_ops_remap).sbi = FS_ROOT_INO + 1 ∧
    (run sample_mount sample_ops_remap).sbi.s_inode_bm 1 = false ∧
    (run sample_mount sample_ops_remap).sbi.s_inode_bm 0 = true := by
  refine ⟨by decide, by decide, by decide, by decide, by decide, by decide, by decide,
    by decide⟩

/-! ## The read path and repeated mapping -/

/-- Claim C13 at the failing input: in read mode (`create = 0`) `fs_get_block` on a
file whose pointer for logical block 0 is zero returns 0 with the buffer mapped,
and mapped to block `FS_SB_BLK` = 0, the superblock; the write path treats the
same zero pointer as no block. -/
theorem C13_read_maps_hole_to_superblock (sbi : m_sb) (bh : buffer_head) :
    (fs_alloc_inode 2).i_data.get 0 = 0 ∧
    (fs_get_block sbi (fs_alloc_inode 2) 0 bh 0).rc = 0 ∧
    (fs_get_block sbi (fs_alloc_inode 2) 0 bh 0).bh.mapped = true ∧
    (fs_get_block sbi (fs_alloc_inode 2) 0 bh 0).bh.b_blocknr = FS_SB_BLK ∧
    (fs_get_block sbi (fs_alloc_inode 2) 0 bh 0).sbi = sbi ∧
    (fs_get_block sbi (fs_alloc_inode 2) 0 bh 0).ino = fs_alloc_inode 2 := by
  have h0 : (fs_alloc_inode 2).i_data.get 0 = FS_SB_BLK := rfl
  refine ⟨rfl, ?_, ?_, ?_, ?_, ?_⟩ <;> simp [fs_get_block, FS_IDATA, map_bh, h0]

/-- Claim C14 at the failing input: on the mounted sample device two successive
calls of `fs_get_block` in allocate mode for logical block 0 of the same file
return block 2 and then block 3; the second call sets bit 1 although the pointer
was nonzero. -/
theorem C14_second_call_allocates_again :
    (fs_get_block sample_mount.sbi (fs_alloc_inode 2) 0 ⟨0, false, false⟩ 1).bh.b_blocknr = 2 ∧
    (fs_get_block sample_mount.sbi (fs_alloc_inode 2) 0 ⟨0, false, false⟩ 1).ino.i_data.get 0
      = 2 ∧
    (fs_get_block sample_mount.sbi (fs_alloc_inode 2) 0 ⟨0, false, false⟩ 1).sbi.s_inode_bm 1
      = false ∧
    (fs_get_block
      (fs_get_block sample_mount.sbi (fs_alloc_inode 2) 0 ⟨0, false, false⟩ 1).sbi
      (fs_get_block sample_mount.sbi (fs_alloc_inode 2) 0 ⟨0, false, false⟩ 1).ino
      0 ⟨0, false, false⟩ 1).bh.b_blocknr = 3 ∧
    (fs_get_block
      (fs_get_block sample_mount.sbi (fs_alloc_inode 2) 0 ⟨0, false, false⟩ 1).sbi
      (fs_get_block sample_mount.sbi (fs_alloc_inode 2) 0 ⟨0, false, false⟩ 1).ino
      0 ⟨0, false, false⟩ 1).sbi.s_inode_bm 1 = true := by
  refine ⟨by decide, by decide, by decide, by decide, by decide⟩

/-! ## Writing an inode back and renaming -/

/-- The device after `fs_write_inode` of an inode that has a slot whose table
block can be read. -/
theorem fs_write_inode_slot (sbi : m_sb) (dev : disk) (ino : inode)
    (hk : FS_ROOT_INO + 1 ≤ ino.i_ino)
    (hread : FS_INO_BLK + (ino.i_ino - FS_ROOT_INO - 1) / FS_INO_PER_BLK < dev.dev_blocks) :
    fs_write_inode sbi dev ino =
      (0, { dev with
        itable := Function.update dev.itable (ino.i_ino - FS_ROOT_INO - 1)
          { dev.itable (ino.i_ino - FS_ROOT_INO - 1) with
            name := strncpy (match fs_inode_to_name sbi ino.i_ino with
              | some nm => nm
              | none => ufile_name ino.i_ino) FS_FNAME_LEN
            i_ino := u16 ino.i_ino, i_mode := u16 ino.i_mode, i_uid := u8 ino.i_uid,
            i_gid := u8 ino.i_gid, i_size := u16 ino.i_size, i_nlinks := 1,
            i_time := u32 ino.i_mtime, i_data := ino.i_data } }) := by
  have h1 : ¬ FS_ROOT_INO = ino.i_ino := by simp only [FS_ROOT_INO] at hk ⊢; omega
  have h2 : ¬ ino.i_ino < FS_ROOT_INO + 1 := by omega
  have hrd : sb_bread dev (FS_INO_BLK + (ino.i_ino - FS_ROOT_INO - 1) / FS_INO_PER_BLK)
      = true := by
    simp [sb_bread, hread]
  simp only [fs_write_inode, h1, h2, if_false, hrd, Bool.not_true, Bool.false_eq_true,
    di_pos_slot]

/-- Claim C15, as the code has it: `fs_write_inode` of a non-root inode with
number `k` whose table block can be read returns 0 and leaves in slot
`k - FS_ROOT_INO - 1` the name the name index holds for the inode number (or
`ufile` followed by the number when it holds none), the inode number, mode and
size cut to 16 bits, owner and group cut to 8 bits, the modification time cut to
32 bits, the three pointers, and link count 1 whatever the link count in core;
the other records are left. -/
theorem C15_write_inode_record (sbi : m_sb) (dev : disk) (ino : inode)
    (hk : FS_ROOT_INO + 1 ≤ ino.i_ino)
    (hread : FS_INO_BLK + (ino.i_ino - FS_ROOT_INO - 1) / FS_INO_PER_BLK < dev.dev_blocks) :
    (fs_write_inode sbi dev ino).1 = 0 ∧
    (fs_write_inode sbi dev ino).2.itable (ino.i_ino - FS_ROOT_INO - 1) =
      { name := strncpy (match fs_inode_to_name sbi ino.i_ino with
          | some nm => nm
          | none => ufile_name ino.i_ino) FS_FNAME_LEN
        i_ino := u16 ino.i_ino, i_mode := u16 ino.i_mode, i_size := u16 ino.i_size,
        i_nlinks := 1, i_uid := u8 ino.i_uid, i_gid := u8 ino.i_gid,
        i_time := u32 ino.i_mtime, i_data := ino.i_data } ∧
    ∀ j, j ≠ ino.i_ino - FS_ROOT_INO - 1 →
      (fs_write_inode sbi dev ino).2.itable j = dev.itable j := by
  rw [fs_write_inode_slot sbi dev ino hk hread]
  refine ⟨rfl, ?_, fun j hj => ?_⟩
  · simp only [Function.update_same]
  · simp only [Function.update_noteq hj]

theorem C15_write_inode_record_witness :
    FS_ROOT_INO + 1 ≤ sample_file.i_ino ∧
    (fs_write_inode sample_mount.sbi sample_disk sample_file).1 = 0 ∧
    (fs_write_inode sample_mount.sbi sample_disk sample_file).2.itable 0 =
      { name := strncpy (ufile_name 2) FS_FNAME_LEN, i_ino := 2, i_mode := 0o100644,
        i_size := 0, i_nlinks := 1, i_uid := 0, i_gid := 0, i_time := 0,
        i_data := ⟨2, 3, 4⟩ } :=
  have h := C15_write_inode_record sample_mount.sbi sample_disk sample_file (by decide)
    (by decide)
  ⟨by decide, h.1, h.2.1.trans (by decide)⟩

/-- Claim C15 fails for the link count: on the mounted sample device a file is
created and unlinked, so that its link count in core is 0, and written back; the
record on the device has link count 1. -/
theorem C15_counterexample :
    (run sample_mount [.create sample_root [102, 48] 0o100644 ⟨0, 0, 0⟩, .unlink 1 0,
      .write_inode 1]).icache[1]?.map (fun x => (x.i_ino, x.i_nlink)) = some (2, 0) ∧
    ((run sample_mount [.create sample_root [102, 48] 0o100644 ⟨0, 0, 0⟩, .unlink 1 0,
      .write_inode 1]).dev.itable 0).i_nlinks = 1 := by
  constructor <;> decide

/-- Claim C16. `fs_rename` of a file with inode number `k` (not below
`FS_ROOT_INO + 1`) whose table block can be read returns 0 and changes only the
name of the record in slot `k - FS_ROOT_INO - 1`, to the first `FS_FNAME_LEN`
bytes of the new name (padded with zero bytes); the other fields of the record,
the other records, the superblock and the size of the device are left. As a
call of a session it leaves the mount data, with the bitmap and every entry of
the name index, and the in-core inodes as they were. -/
theorem C16_rename_frame (st : fs_state) (h : Nat) (ino : inode) (new_name : List Nat)
    (hh : st.icache[h]? = some ino) (hk : FS_ROOT_INO + 1 ≤ ino.i_ino)
    (hread : FS_INO_BLK + (ino.i_ino - FS_ROOT_INO - 1) / FS_INO_PER_BLK
      < st.dev.dev_blocks) :
    (fs_rename st.dev (some ino) new_name).1 = 0 ∧
    (step_call st (.rename h new_name)).dev = (fs_rename st.dev (some ino) new_name).2 ∧
    (step_call st (.rename h new_name)).dev.itable (ino.i_ino - FS_ROOT_INO - 1) =
      { st.dev.itable (ino.i_ino - FS_ROOT_INO - 1) with
        name := strncpy new_name FS_FNAME_LEN } ∧
    (∀ j, j ≠ ino.i_ino - FS_ROOT_INO - 1 →
      (step_call st (.rename h new_name)).dev.itable j = st.dev.itable j) ∧
    (step_call st (.rename h new_name)).dev.sb = st.dev.sb ∧
    (step_call st (.rename h new_name)).dev.dev_blocks = st.dev.dev_blocks ∧
    (step_call st (.rename h new_name)).sbi = st.sbi ∧
    (step_call st (.rename h new_name)).icache = st.icache := by
  have h2 : ¬ ino.i_ino < FS_ROOT_INO + 1 := by omega
  have hrd : sb_bread st.dev (FS_INO_BLK + (ino.i_ino - FS_ROOT_INO - 1) / FS_INO_PER_BLK)
      = true := by
    simp [sb_bread, hread]
  have hr : fs_rename st.dev (some ino) new_name =
      (0, { st.dev with
        itable := Function.update st.dev.itable (ino.i_ino - FS_ROOT_INO - 1)
          { st.dev.itable (ino.i_ino - FS_ROOT_INO - 1) with
            name := strncpy new_name FS_FNAME_LEN } }) := by
    simp only [fs_rename, h2, if_false, hrd, Bool.not_true, Bool.false_eq_true, di_pos_slot]
  have hstep : step_call st (.rename h new_name) =
      { st with dev := (fs_rename st.dev (some ino) new_name).2 } := by
    simp only [step_call, hh]
  rw [hstep, hr]
  refine ⟨rfl, rfl, ?_, fun j hj => ?_, rfl, rfl, rfl, rfl⟩
  · simp only [Function.update_same]
  · simp only [Function.update_noteq hj]

theorem C16_rename_frame_witness :
    (run sample_mount sample_ops).icache[1]? = some sample_file ∧
    FS_ROOT_INO + 1 ≤ sample_file.i_ino ∧
    (fs_rename (run sample_mount sample_ops).dev (some sample_file) [103]).1 = 0 ∧
    ((step_call (run sample_mount sample_ops) (.rename 1 [103])).dev.itable 0).name
      = strncpy [103] FS_FNAME_LEN ∧
    (step_call (run sample_mount sample_ops) (.rename 1 [103])).sbi
      = (run sample_mount sample_ops).sbi :=
  have h := C16_rename_frame (run sample_mount sample_ops) 1 sample_file [103] (by decide)
    (by decide) (by decide)
  ⟨by decide, by decide, h.1, congrArg d_ino.name h.2.2.1, h.2.2.2.2.2.2.1⟩

/-! ## A freshly formatted device -/

theorem readdir_slot_unlinked (dev : disk) (i j : Nat) (a : readdir_acc) (le_ok : Bool)
    (h : (dev.itable (i * FS_INO_PER_BLK + j)).i_nlinks = 0) :
    readdir_slot dev i j a le_ok = a := by
  have hpos : di_pos (FS_INO_BLK + i) j = i * FS_INO_PER_BLK + j := by
    simp [di_pos, FS_INO_BLK]
  unfold readdir_slot
  simp only [hpos, h, ne_eq, not_true_eq_false, if_false]

theorem readdir_inner_unlinked (dev : disk) (km : Nat → Bool) (i m : Nat) (a : readdir_acc)
    (h : ∀ j, j < m → (dev.itable (i * FS_INO_PER_BLK + j)).i_nlinks = 0) :
    (List.range m).foldl (fun a j => readdir_slot dev i j a (km (i * FS_INO_PER_BLK + j))) a
      = a := by
  induction m with
  | zero => rfl
  | succ m ih =>
    rw [List.range_succ, List.foldl_append, ih (fun j hj => h j (by omega))]
    simp only [List.foldl_cons, List.foldl_nil]
    exact readdir_slot_unlinked dev i m a _ (h m (by omega))

theorem readdir_blocks_unlinked (dev : disk) (km : Nat → Bool) (bs : List Nat)
    (a : readdir_acc)
    (h : ∀ i, i ∈ bs → ∀ j, j < FS_INO_PER_BLK →
      (dev.itable (i * FS_INO_PER_BLK + j)).i_nlinks = 0) :
    readdir_blocks dev bs a km = a := by
  induction bs generalizing a with
  | nil => rfl
  | cons i bs ih =>
    simp only [readdir_blocks]
    split
    · rw [readdir_inner_unlinked dev km i _ a (fun j hj => h i (by simp) j hj)]
      exact ih a (fun i' hi' => h i' (by simp [hi']))
    · rfl

/-- Claim C17. After the formatter has run on a device of any size (each of its
writes complete), every record of the inode table has link count 0, and after a
mount of the device a directory read from position 0 hands out only the entries
`.` and `..` and leaves every slot of the name index empty, whatever its
allocations would return (it makes none). -/
theorem C17_formatted_device_is_empty (st_size : Nat) (old : disk) (now : Nat)
    (st0 : fs_state) (hm : fs_fill_super (mkfs st_size old) now = some st0)
    (km : Nat → Bool) :
    (∀ i, i < (mkfs st_size old).sb.s_nnodes → ((mkfs st_size old).itable i).i_nlinks = 0) ∧
    (fs_readdir st0.sbi st0.dev 0 km).ents
      = [⟨[46], 0, FS_ROOT_INO⟩, ⟨[46, 46], 1, FS_ROOT_INO⟩] ∧
    ∀ p, (fs_readdir st0.sbi st0.dev 0 km).lookup p = none := by
  obtain ⟨hdev, hn, hl, _⟩ := fs_fill_super_eq _ now st0 hm
  have hrec : ∀ i, i < (mkfs st_size old).sb.s_nnodes →
      ((mkfs st_size old).itable i).i_nlinks = 0 := by
    intro i hi
    have hi' : i < (mkfs_sb st_size).s_nnodes := hi
    simp only [mkfs, write_tables, hi', if_true]
    rfl
  have hrd : fs_readdir st0.sbi st0.dev 0 km =
      ⟨st0.sbi.s_lookup, [⟨[46], 0, FS_ROOT_INO⟩, ⟨[46, 46], 1, FS_ROOT_INO⟩], 2⟩ := by
    unfold fs_readdir
    simp only [ne_eq, not_true_eq_false, if_false]
    apply readdir_blocks_unlinked
    intro i hi j hj
    rw [hdev]
    apply hrec
    rw [← hn]
    have := List.mem_range.1 hi
    rw [FS_INO_PER_BLK_eq] at this hj ⊢
    omega
  rw [hrd]
  refine ⟨hrec, rfl, fun p => ?_⟩
  show st0.sbi.s_lookup p = none
  rw [hl]

theorem C17_formatted_device_is_empty_witness :
    fs_fill_super (mkfs 8704 (blank_disk 17)) 0 = some sample_mount ∧
    (fs_readdir sample_mount.sbi sample_mount.dev 0).ents
      = [⟨[46], 0, FS_ROOT_INO⟩, ⟨[46, 46], 1, FS_ROOT_INO⟩] :=
  ⟨sample_mount_eq,
    (C17_formatted_device_is_empty 8704 (blank_disk 17) 0 sample_mount sample_mount_eq
      (fun _ => true)).2.1⟩

/-- Claim C18 at the failing input: with 16 inodes, when the `write` of the first
inode record returns 0 and every other call writes all it was asked to,
`write_tables` returns to `main`, which exits with 0; and with 16 inodes on 19
blocks, when only the `write` of the tail block fails, it returns as well. A
short `write` of the superblock or of a data block does end in `die`. -/
theorem C18_short_write_not_detected :
    sample_short_write 16 1 = 0 ∧ (0 : Int) < sizeof_d_ino ∧
    write_tables_returns ⟨magic, 16, 17⟩ (sample_short_write 16) = true ∧
    writes_tail ⟨magic, 16, 19⟩ = true ∧ sample_tail_fails 16 33 = -1 ∧
    write_tables_returns ⟨magic, 16, 19⟩ (sample_tail_fails 16) = true ∧
    write_tables_returns ⟨magic, 16, 17⟩ (fun k => if k = 0 then 511 else 512) = false ∧
    write_tables_returns ⟨magic, 16, 17⟩ (fun k => if k = 20 then 100 else 512) = false := by
  refine ⟨by decide, by decide, by decide, by decide, by decide, by decide, by decide,
    by decide⟩

/-! ## The scenario of 100 blocks -/

theorem mkfs_sb_51200 : mkfs_sb 51200 = ⟨magic, 80, 100⟩ := by
  have h1 : (mkfs_sb 51200).s_nnodes = 80 := by
    rw [mkfs_sb_nnodes _ (by decide)]
    decide
  have h2 : (mkfs_sb 51200).s_nblocks = 100 := by
    rw [mkfs_sb_nblocks]
    decide
  have h3 : (mkfs_sb 51200).s_magic = magic := rfl
  cases hs : mkfs_sb 51200 with
  | mk a b c =>
    rw [hs] at h1 h2 h3
    simp only at h1 h2 h3
    rw [h1, h2, h3]

theorem sample100_disk_eq : mkfs 51200 (blank_disk 100) = sample100_disk := by
  unfold mkfs
  rw [mkfs_sb_51200]
  have hb : max (nblocks 51200) ((bytes_written ⟨magic, 80, 100⟩ + FS_BSIZE - 1) / FS_BSIZE)
      = 100 := by
    decide
  simp only [write_tables, hb, sample100_disk, blank_disk, ite_self]

theorem sample100_mount_eq :
    fs_fill_super (mkfs 51200 (blank_disk 100)) 0 = some sample100_mount := by
  rw [sample100_disk_eq]
  rfl

/-- Claim C19. For a device of 100 blocks of 512 bytes the formatter computes 5
table blocks, 80 inodes and 15 lost blocks. After the mount, the creates of
`f0`, `f1`, `f2` (each allocation returning memory) return 0 with the inode
numbers `FS_ROOT_INO + 1`, `FS_ROOT_INO + 2`, `FS_ROOT_INO + 3`; the first mapping for writing of logical
block 0 of each file gives the blocks 6, 7 and 8; and the directory read that
follows hands out the names `.`, `..`, `f0`, `f1`, `f2` and no other. -/
theorem C19_scenario_100_blocks :
    nblocks 51200 = 100 ∧ nino_zone 100 = 5 ∧ nino 100 = 80 ∧ nblocks_l 100 = 15 ∧
    fs_fill_super (mkfs 51200 (blank_disk 100)) 0 = some sample100_mount ∧
    (mknod_seq sample100_mount sample100_creates).1.map
        (fun r => (r.rc, r.d_inode.map (fun x => x.i_ino)))
      = [(0, some (FS_ROOT_INO + 1)), (0, some (FS_ROOT_INO + 2)), (0, some (FS_ROOT_INO + 3))] ∧
    (run sample100_mount (sample100_ops.take 3)).icache.map (fun x => x.i_data.get 0)
      = [0, 0, 0, 0] ∧
    (run sample100_mount sample100_ops).icache.map (fun x => (x.i_ino, x.i_data.get 0))
      = [(1, 0), (2, 6), (3, 7), (4, 8)] ∧
    (fs_readdir (run sample100_mount sample100_ops).sbi
        (run sample100_mount sample100_ops).dev 0).ents.map (fun e => e.name)
      = [[46], [46, 46], [102, 48], [102, 49], [102, 50]] := by
  refine ⟨by decide, ?_, ?_, ?_, sample100_mount_eq, by decide, by decide, by decide, ?_⟩
  · rw [nino_zone_eq _ (by decide)]; decide
  · rw [nino_eq _ (by decide)]; decide
  · rw [nblocks_l_eq _ (by decide)]; decide
  · decide

/-! ## The start of the data zone -/

/-- The bit numbers of `fs_read_inode` are `read_inode_bit` of the pointers of the
record. -/
theorem fs_read_inode_bits (sbi : m_sb) (dev : disk) (ino : inode) (now : Nat) (pos : Nat)
    (hne : FS_ROOT_INO ≠ ino.i_ino) (hr : fs_raw_inode sbi dev ino.i_ino = some pos) :
    (fs_read_inode sbi dev ino now).1.s_inode_bm =
      (List.range FS_IDATA).foldl (fun bm i =>
        if (dev.itable pos).i_data.get i ≠ 0 then
          set_bit (read_inode_bit sbi ((dev.itable pos).i_data.get i)) bm
        else bm) sbi.s_inode_bm := by
  simp only [fs_read_inode, hne, if_false, hr]
  rfl

/-- The bit numbers of `fs_delete_inode` are `delete_inode_bit` of the pointers of
the inode. -/
theorem fs_delete_inode_bits (sbi : m_sb) (dev : disk) (ino : inode) (pos : Nat)
    (hr : fs_raw_inode sbi dev ino.i_ino = some pos) :
    (fs_delete_inode sbi dev ino).1.s_inode_bm =
      (List.range FS_IDATA).foldl (fun bm i =>
        if ino.i_data.get i ≠ 0 then
          clear_bit (delete_inode_bit sbi (ino.i_data.get i)) bm
        else bm) sbi.s_inode_bm := by
  simp only [fs_delete_inode, hr]
  rfl

/-- The pointer `fs_get_block` stores for bit `i` is `get_block_ptr`. -/
theorem get_block_alloc_ptr (sbi : m_sb) (ino : inode) (b i : Nat)
    (hi : i < sbi.s_nnodes) (hfree : sbi.s_inode_bm i = false)
    (hmin : ∀ j, j < i → sbi.s_inode_bm j = true) :
    (get_block_alloc sbi ino b).2.i_data = ino.i_data.set b (get_block_ptr sbi i) := by
  rw [get_block_alloc_some sbi ino b i hi hfree hmin]
  rfl

/-- Claim C20, as the code has it: the start of the data zone of `fs_read_inode`
differs from the one of `fs_get_block` and `fs_delete_inode` exactly when the
inode count is not a multiple of 16; and for every inode count the formatter
produces and every bit `i` (below the inode count or not) whose block number
`FS_INO_BLK + inode_count/16 + i` is below 65536, the bit `fs_read_inode` sets and
the bit `fs_delete_inode` clears for the pointer `fs_get_block` stores for bit `i`
are both `i`. -/
theorem C20_data_zone_start (sbi : m_sb) (st_size : Nat) (i : Nat)
    (hn : sbi.s_nnodes = (mkfs_sb st_size).s_nnodes)
    (hfit : FS_INO_BLK + sbi.s_nnodes / FS_INO_PER_BLK + i < 2 ^ 16) :
    (∀ s : m_sb, blk0_off s ≠ FS_INO_BLK + s.s_nnodes / FS_INO_PER_BLK ↔
      s.s_nnodes % FS_INO_PER_BLK ≠ 0) ∧
    read_inode_bit sbi (get_block_ptr sbi i) = (i : Int) ∧
    delete_inode_bit sbi (get_block_ptr sbi i) = (i : Int) := by
  have h16 : sbi.s_nnodes % 16 = 0 := by
    rw [hn]
    exact mkfs_sb_nnodes_mod16 st_size
  have hp : get_block_ptr sbi i = FS_INO_BLK + sbi.s_nnodes / FS_INO_PER_BLK + i :=
    Nat.mod_eq_of_lt hfit
  refine ⟨fun s => ?_, ?_, ?_⟩
  · unfold blk0_off
    simp only [FS_INO_BLK, FS_INO_PER_BLK_eq]
    split <;> omega
  · unfold read_inode_bit blk0_off
    rw [hp]
    simp only [FS_INO_BLK, FS_INO_PER_BLK_eq, h16, ne_eq, not_true_eq_false, if_false]
    push_cast
    omega
  · unfold delete_inode_bit
    rw [hp]
    simp only [FS_INO_BLK, FS_INO_PER_BLK_eq]
    push_cast
    omega

theorem C20_data_zone_start_witness :
    sample_mount.sbi.s_nnodes = (mkfs_sb 8704).s_nnodes ∧ 3 < sample_mount.sbi.s_nnodes ∧
    get_block_ptr sample_mount.sbi 3 = 5 ∧
    read_inode_bit sample_mount.sbi (get_block_ptr sample_mount.sbi 3) = 3 ∧
    delete_inode_bit sample_mount.sbi (get_block_ptr sample_mount.sbi 3) = 3 :=
  have hn : sample_mount.sbi.s_nnodes = (mkfs_sb 8704).s_nnodes := by
    rw [mkfs_sb_8704]; rfl
  have h := C20_data_zone_start sample_mount.sbi 8704 3 hn (by decide)
  ⟨hn, by decide, by decide, h.2.1, h.2.2⟩

/-- Claim C20 fails where the block number does not fit the pointer: a device of
69615 blocks is formatted with 65520 inodes; for bit 61441 the block number is
65537, the pointer `fs_get_block` stores is 1, and the bit number both
`fs_read_inode` and `fs_delete_inode` compute for it is -4095. -/
theorem C20_counterexample :
    (mkfs_sb 35642880).s_nnodes = 65520 ∧ 61441 < 65520 ∧
    get_block_ptr ⟨65520, 4079, fun _ => none, fun _ => false⟩ 61441 = 1 ∧
    read_inode_bit ⟨65520, 4079, fun _ => none, fun _ => false⟩
      (get_block_ptr ⟨65520, 4079, fun _ => none, fun _ => false⟩ 61441) = -4095 ∧
    delete_inode_bit ⟨65520, 4079, fun _ => none, fun _ => false⟩
      (get_block_ptr ⟨65520, 4079, fun _ => none, fun _ => false⟩ 61441) = -4095 := by
  refine ⟨?_, by decide, by decide, by decide, by decide⟩
  rw [mkfs_sb_nnodes _ (by decide)]
  decide

/-! ## The round trip over a remount -/

theorem lookup_by_ino_first (sbi : m_sb) (x k : Nat) (le : lookup_entry)
    (hk : k < sbi.s_nnodes) (hle : sbi.s_lookup k = some le) (hx : le.i_ino = x)
    (hmin : ∀ (j : Nat) (le' : lookup_entry), j < k → sbi.s_lookup j = some le' →
      le'.i_ino ≠ x) :
    lookup_by_ino sbi x = some k := by
  unfold lookup_by_ino
  rw [scan_some_iff]
  refine ⟨Nat.zero_le _, by omega, by simp [hle, hx], fun j _ hj => ?_⟩
  cases hl : sbi.s_lookup j with
  | none => rfl
  | some le' => simpa using hmin j le' hj hl

theorem fs_inode_to_name_first (sbi : m_sb) (x k : Nat) (le : lookup_entry)
    (hk : k < sbi.s_nnodes) (hle : sbi.s_lookup k = some le) (hx : le.i_ino = x)
    (hmin : ∀ (j : Nat) (le' : lookup_entry), j < k → sbi.s_lookup j = some le' →
      le'.i_ino ≠ x) :
    fs_inode_to_name sbi x = some le.name := by
  unfold fs_inode_to_name
  rw [lookup_by_ino_first sbi x k le hk hle hx hmin]
  simp [hle]

/-- The lookup that follows a directory read from position 0, when `k` is the
lowest slot with a linked record whose name agrees with `dname` and no entry
below `k` sits in a slot with a free record. -/
theorem name_to_inode_after_readdir (sbi : m_sb) (dev : disk) (dname : List Nat) (k : Nat)
    (h16 : sbi.s_nnodes % FS_INO_PER_BLK = 0)
    (hread : ∀ i, i < sbi.s_nnodes / FS_INO_PER_BLK → FS_INO_BLK + i < dev.dev_blocks)
    (hk : k < sbi.s_nnodes) (hl : (dev.itable k).i_nlinks ≠ 0)
    (hmatch : strncmp_eq (dev.itable k).name dname FS_FNAME_LEN = true)
    (hmin : ∀ j, j < k → (dev.itable j).i_nlinks ≠ 0 →
      strncmp_eq (dev.itable j).name dname FS_FNAME_LEN = false)
    (hstale : ∀ j, j < k → sbi.s_lookup j ≠ none → (dev.itable j).i_nlinks ≠ 0) :
    fs_name_to_inode { sbi with s_lookup := (fs_readdir sbi dev 0).lookup } dname
      = (dev.itable k).i_ino := by
  have hwhole : sbi.s_nnodes / FS_INO_PER_BLK * FS_INO_PER_BLK = sbi.s_nnodes := by
    rw [FS_INO_PER_BLK_eq] at h16 ⊢
    omega
  apply name_to_inode_first_match _ _ k
    ⟨strncpy (dev.itable k).name FS_FNAME_LEN, (dev.itable k).i_ino⟩
  · exact hk
  · show (fs_readdir sbi dev 0).lookup k = _
    rw [fs_readdir_lookup sbi dev hread, hwhole, if_pos ⟨hk, hl⟩]
  · rw [strncmp_eq_strncpy]
    exact hmatch
  · intro j le' hj hle'
    have hjn : j < sbi.s_nnodes := by omega
    change (fs_readdir sbi dev 0).lookup j = some le' at hle'
    rw [fs_readdir_lookup sbi dev hread, hwhole] at hle'
    by_cases hlj : (dev.itable j).i_nlinks ≠ 0
    · rw [if_pos ⟨hjn, hlj⟩] at hle'
      simp only [Option.some.injEq] at hle'
      rw [← hle', strncmp_eq_strncpy]
      exact hmin j hj hlj
    · rw [if_neg (fun h => hlj h.2)] at hle'
      exact absurd (hstale j hj (by rw [hle']; simp)) hlj

/-- A mount followed by a directory read and a lookup, on a device whose slot `k`
holds the lowest linked record with the name. -/
theorem mount_readdir_lookup (dev : disk) (now : Nat) (dname : List Nat) (k : Nat)
    (hpos : 0 < dev.dev_blocks) (h16 : dev.sb.s_nnodes % FS_INO_PER_BLK = 0)
    (hread : ∀ i, i < dev.sb.s_nnodes / FS_INO_PER_BLK → FS_INO_BLK + i < dev.dev_blocks)
    (hk : k < dev.sb.s_nnodes) (hl : (dev.itable k).i_nlinks ≠ 0)
    (hmatch : strncmp_eq (dev.itable k).name dname FS_FNAME_LEN = true)
    (hmin : ∀ j, j < k → (dev.itable j).i_nlinks ≠ 0 →
      strncmp_eq (dev.itable j).name dname FS_FNAME_LEN = false) :
    ∃ st1, fs_fill_super dev now = some st1 ∧
      fs_name_to_inode { st1.sbi with s_lookup := (fs_readdir st1.sbi st1.dev 0).lookup } dname
        = (dev.itable k).i_ino := by
  obtain ⟨root, hr⟩ := fs_fill_super_some dev now hpos
  exact ⟨_, hr, name_to_inode_after_readdir _ dev dname k h16 hread hk hl hmatch hmin
    (fun j _ hj => absurd rfl hj)⟩

/-- A mount followed by a directory read and a lookup, on a device whose slot `k`
holds the lowest linked record with the name, when the lookup entry for slot `k`
can be allocated. -/
theorem mount_readdir_lookup_km (dev : disk) (now : Nat) (dname : List Nat) (k : Nat)
    (km : Nat → Bool) (hkm : km k = true)
    (hpos : 0 < dev.dev_blocks) (h16 : dev.sb.s_nnodes % FS_INO_PER_BLK = 0)
    (hread : ∀ i, i < dev.sb.s_nnodes / FS_INO_PER_BLK → FS_INO_BLK + i < dev.dev_blocks)
    (hk : k < dev.sb.s_nnodes) (hl : (dev.itable k).i_nlinks ≠ 0)
    (hmatch : strncmp_eq (dev.itable k).name dname FS_FNAME_LEN = true)
    (hmin : ∀ j, j < k → (dev.itable j).i_nlinks ≠ 0 →
      strncmp_eq (dev.itable j).name dname FS_FNAME_LEN = false) :
    ∃ st1, fs_fill_super dev now = some st1 ∧
      fs_name_to_inode
        { st1.sbi with s_lookup := (fs_readdir st1.sbi st1.dev 0 km).lookup } dname
        = (dev.itable k).i_ino := by
  obtain ⟨root, hr⟩ := fs_fill_super_some dev now hpos
  refine ⟨_, hr, ?_⟩
  have hwhole : dev.sb.s_nnodes / FS_INO_PER_BLK * FS_INO_PER_BLK = dev.sb.s_nnodes := by
    rw [FS_INO_PER_BLK_eq] at h16 ⊢
    omega
  apply name_to_inode_first_match _ _ k
    ⟨strncpy (dev.itable k).name FS_FNAME_LEN, (dev.itable k).i_ino⟩
  · exact hk
  · show (fs_readdir _ dev 0 km).lookup k = _
    rw [fs_readdir_lookup_km _ dev km hread]
    show (if k < dev.sb.s_nnodes / FS_INO_PER_BLK * FS_INO_PER_BLK ∧ _ then _ else _) = _
    rw [hwhole, if_pos ⟨hk, hl, hkm⟩]
  · rw [strncmp_eq_strncpy]
    exact hmatch
  · intro j le' hj hle'
    have hjn : j < dev.sb.s_nnodes := by omega
    change (fs_readdir _ dev 0 km).lookup j = some le' at hle'
    rw [fs_readdir_lookup_km _ dev km hread] at hle'
    change (if j < dev.sb.s_nnodes / FS_INO_PER_BLK * FS_INO_PER_BLK ∧ _ then _ else _) = _
      at hle'
    rw [hwhole] at hle'
    split at hle'
    · rename_i hc
      simp only [Option.some.injEq] at hle'
      rw [← hle', strncmp_eq_strncpy]
      exact hmin j hj hc.2.1
    · cases hle'

/-- Claim C11, as the code has it. On a formatted device with at least one inode:
after the mount, a create of any name for which `new_inode` and the `kmalloc` of
the lookup entry return memory returns 0 with an inode of some number `k`; after
the inode is written back and the device is mounted again, a directory read from
position 0 that can allocate the lookup entry of slot 0, the slot of the file,
followed by the lookup of the name returns `k`. -/
theorem C11_round_trip (st_size : Nat) (old : disk) (now : Nat) (st0 : fs_state)
    (hm : fs_fill_super (mkfs st_size old) now = some st0) (hn : 0 < st0.sbi.s_nnodes)
    (dir : inode) (dname : List Nat) (mode : Nat) (cur : task) (now2 : Nat)
    (km : Nat → Bool) (hkm : km 0 = true) :
    ∃ (ino : inode) (st1 : fs_state),
      (fs_mknod st0 dir dname mode cur true true).rc = 0 ∧
      (fs_mknod st0 dir dname mode cur true true).d_inode = some ino ∧
      ino.i_ino - FS_ROOT_INO - 1 = 0 ∧
      fs_fill_super (fs_write_inode (fs_mknod st0 dir dname mode cur true true).st.sbi
        (fs_mknod st0 dir dname mode cur true true).st.dev ino).2 now2 = some st1 ∧
      fs_name_to_inode
        { st1.sbi with s_lookup := (fs_readdir st1.sbi st1.dev 0 km).lookup } dname
        = ino.i_ino := by
  obtain ⟨hdev, hn0, hl0, _⟩ := fs_fill_super_eq _ now st0 hm
  have hread : ∀ j, j < st0.sbi.s_nnodes →
      FS_INO_BLK + j / FS_INO_PER_BLK < st0.dev.dev_blocks := by
    intro j hj
    rw [hdev]
    exact mkfs_readable st_size old j (by rw [← hn0]; exact hj)
  have h16 : st0.sbi.s_nnodes % 16 = 0 := by
    rw [hn0]
    exact mkfs_sb_nnodes_mod16 st_size
  have hnn : st0.dev.sb.s_nnodes = st0.sbi.s_nnodes := by rw [hdev, hn0]
  have hstep := fs_mknod_slot st0 dir dname mode cur 0 hn (by rw [hl0])
    (fun j hj => absurd hj (by omega)) (hread 0 hn)
  have hino : (mknod_inode dir mode cur (FS_ROOT_INO + 0 + 1)).i_ino = 2 := rfl
  have hslot : (mknod_inode dir mode cur (FS_ROOT_INO + 0 + 1)).i_ino - FS_ROOT_INO - 1 = 0 :=
    rfl
  -- what the create has left
  have hr1 : (fs_mknod st0 dir dname mode cur).rc = 0 := by rw [hstep]
  have hr2 : (fs_mknod st0 dir dname mode cur).d_inode
      = some (mknod_inode dir mode cur (FS_ROOT_INO + 0 + 1)) := by rw [hstep]
  have hr3 : (fs_mknod st0 dir dname mode cur).st.sbi.s_lookup 0
      = some ⟨strncpy dname FS_FNAME_LEN, u16 (FS_ROOT_INO + 0 + 1)⟩ := by
    rw [hstep]
    simp only [Function.update_same]
  have hr4 : (fs_mknod st0 dir dname mode cur).st.sbi.s_nnodes = st0.sbi.s_nnodes := by
    rw [hstep]
  have hr5 : (fs_mknod st0 dir dname mode cur).st.dev.dev_blocks = st0.dev.dev_blocks := by
    rw [hstep]
  have hr6 : (fs_mknod st0 dir dname mode cur).st.dev.sb = st0.dev.sb := by
    rw [hstep]
  refine ⟨mknod_inode dir mode cur (FS_ROOT_INO + 0 + 1), ?_⟩
  generalize (fs_mknod st0 dir dname mode cur) = r at hr1 hr2 hr3 hr4 hr5 hr6 ⊢
  have hname : fs_inode_to_name r.st.sbi (mknod_inode dir mode cur (FS_ROOT_INO + 0 + 1)).i_ino
      = some (strncpy dname FS_FNAME_LEN) :=
    fs_inode_to_name_first _ _ 0 ⟨strncpy dname FS_FNAME_LEN, u16 (FS_ROOT_INO + 0 + 1)⟩
      (by rw [hr4]; exact hn) hr3 rfl (fun j _ hj => absurd hj (by omega))
  have hw := fs_write_inode_slot r.st.sbi r.st.dev
    (mknod_inode dir mode cur (FS_ROOT_INO + 0 + 1)) (by rw [hino]; decide)
    (by rw [hr5, hslot]; exact hread 0 hn)
  rw [hname, hslot] at hw
  -- the device after the write-back
  have hd1 : (fs_write_inode r.st.sbi r.st.dev
      (mknod_inode dir mode cur (FS_ROOT_INO + 0 + 1))).2.dev_blocks = st0.dev.dev_blocks := by
    rw [hw]; exact hr5
  have hd2 : (fs_write_inode r.st.sbi r.st.dev
      (mknod_inode dir mode cur (FS_ROOT_INO + 0 + 1))).2.sb = st0.dev.sb := by
    rw [hw]; exact hr6
  have hd3 : ((fs_write_inode r.st.sbi r.st.dev
      (mknod_inode dir mode cur (FS_ROOT_INO + 0 + 1))).2.itable 0).i_nlinks = 1 := by
    rw [hw]
    simp only [Function.update_same]
  have hd4 : ((fs_write_inode r.st.sbi r.st.dev
      (mknod_inode dir mode cur (FS_ROOT_INO + 0 + 1))).2.itable 0).name
      = strncpy (strncpy dname FS_FNAME_LEN) FS_FNAME_LEN := by
    rw [hw]
    simp only [Function.update_same]
  have hd5 : ((fs_write_inode r.st.sbi r.st.dev
      (mknod_inode dir mode cur (FS_ROOT_INO + 0 + 1))).2.itable 0).i_ino = 2 := by
    rw [hw]
    simp only [Function.update_same]
    rfl
  generalize (fs_write_inode r.st.sbi r.st.dev
      (mknod_inode dir mode cur (FS_ROOT_INO + 0 + 1))).2 = dev2 at hd1 hd2 hd3 hd4 hd5 ⊢
  have h0 := hread 0 hn
  simp only [FS_INO_BLK, FS_INO_PER_BLK_eq] at h0
  obtain ⟨st1, hst1, hlook⟩ := mount_readdir_lookup_km dev2 now2 dname 0 km hkm
    (by rw [hd1]; omega)
    (by rw [hd2, hnn, FS_INO_PER_BLK_eq]; exact h16)
    (by
      intro i hi
      rw [hd2, hnn, FS_INO_PER_BLK_eq] at hi
      rw [hd1]
      have := hread (i * 16) (by omega)
      simp only [FS_INO_BLK, FS_INO_PER_BLK_eq] at this ⊢
      omega)
    (by rw [hd2, hnn]; exact hn)
    (by rw [hd3]; decide)
    (by
      rw [hd4, strncmp_eq_strncpy, strncmp_eq_strncpy]
      exact strncmp_eq_self _ _)
    (fun j hj => absurd hj (by omega))
  refine ⟨st1, hr1, hr2, hslot, hst1, ?_⟩
  rw [hlook, hd5, hino]

theorem C11_round_trip_witness :
    fs_fill_super (mkfs 8704 (blank_disk 17)) 0 = some sample_mount ∧
    0 < sample_mount.sbi.s_nnodes ∧
    ∃ (ino : inode) (st1 : fs_state),
      (fs_mknod sample_mount sample_root [97] 0o100644 ⟨0, 0, 0⟩ true true).rc = 0 ∧
      (fs_mknod sample_mount sample_root [97] 0o100644 ⟨0, 0, 0⟩ true true).d_inode
        = some ino ∧
      ino.i_ino - FS_ROOT_INO - 1 = 0 ∧
      fs_fill_super (fs_write_inode
        (fs_mknod sample_mount sample_root [97] 0o100644 ⟨0, 0, 0⟩ true true).st.sbi
        (fs_mknod sample_mount sample_root [97] 0o100644 ⟨0, 0, 0⟩ true true).st.dev ino).2 5
        = some st1 ∧
      fs_name_to_inode
        { st1.sbi with
          s_lookup := (fs_readdir st1.sbi st1.dev 0 (fun p => decide (p = 0))).lookup } [97]
        = ino.i_ino :=
  ⟨sample_mount_eq, by decide,
    C11_round_trip 8704 (blank_disk 17) 0 sample_mount sample_mount_eq (by decide)
      sample_root [97] 0o100644 ⟨0, 0, 0⟩ 5 (fun p => decide (p = 0)) (by decide)⟩

/-- Claim C11 fails when a lookup entry cannot be allocated. On the mounted sample
device the create of `a` in which `kmalloc` returns no memory for the entry
returns 0 with the inode of number 2 attached; the write-back finds no name for
the inode and writes `ufile2` into the record; after the device is mounted again
and the directory is read, the lookup of `a` returns 0. And when the create
succeeds in full but the directory read after the remount cannot allocate the
entry of slot 0, the lookup of `a` returns 0 as well. -/
theorem C11_counterexample :
    (fs_mknod sample_mount sample_root [97] 0o100644 ⟨0, 0, 0⟩ true false).rc = 0 ∧
    (fs_mknod sample_mount sample_root [97] 0o100644 ⟨0, 0, 0⟩ true false).d_inode
      = some (mknod_inode sample_root 0o100644 ⟨0, 0, 0⟩ 2) ∧
    ((run_calls sample_mount
        [.base (.create sample_root [97] 0o100644 ⟨0, 0, 0⟩ true false),
          .base (.write_inode 1), .remount 5, .base (.readdir 0)]).dev.itable 0).name
      = strncpy (ufile_name 2) FS_FNAME_LEN ∧
    fs_name_to_inode (run_calls sample_mount
        [.base (.create sample_root [97] 0o100644 ⟨0, 0, 0⟩ true false),
          .base (.write_inode 1), .remount 5, .base (.readdir 0)]).sbi [97] = 0 ∧
    ((run_calls sample_mount
        [.base (.create sample_root [97] 0o100644 ⟨0, 0, 0⟩),
          .base (.write_inode 1), .remount 5,
          .base (.readdir 0 (fun _ => false))]).dev.itable 0).name
      = strncpy [97] FS_FNAME_LEN ∧
    fs_name_to_inode (run_calls sample_mount
        [.base (.create sample_root [97] 0o100644 ⟨0, 0, 0⟩),
          .base (.write_inode 1), .remount 5,
          .base (.readdir 0 (fun _ => false))]).sbi [97] = 0 := by
  refine ⟨by decide, by decide, by decide, by decide, by decide, by decide⟩

/-! ## The inode numbers -/

theorem disk_ok_update (n : Nat) (t : Nat → d_ino) (k : Nat) (rec : d_ino)
    (h : disk_ok n t) (hrec : k < n → rec.i_ino = FS_ROOT_INO + 1 + k) :
    disk_ok n (Function.update t k rec) := by
  intro i hi
  by_cases hik : i = k
  · subst hik
    simp only [Function.update_same]
    exact ⟨Or.inr (hrec hi), fun _ => hrec hi⟩
  · rw [Function.update_noteq hik]
    exact h i hi

theorem disk_ok_update_keep (n : Nat) (t : Nat → d_ino) (k : Nat) (rec : d_ino)
    (h : disk_ok n t) (h1 : rec.i_ino = (t k).i_ino)
    (h2 : rec.i_nlinks ≠ 0 → (t k).i_nlinks ≠ 0) :
    disk_ok n (Function.update t k rec) := by
  intro i hi
  by_cases hik : i = k
  · subst hik
    simp only [Function.update_same]
    rw [h1]
    exact ⟨(h i hi).1, fun hl => (h i hi).2 (h2 hl)⟩
  · rw [Function.update_noteq hik]
    exact h i hi

theorem lookup_ok_update (n : Nat) (l : Nat → Option lookup_entry) (k : Nat)
    (le : lookup_entry) (h : lookup_ok n l) (hk : k < n) (hle : le.i_ino = FS_ROOT_INO + 1 + k) :
    lookup_ok n (Function.update l k (some le)) := by
  intro i le' hi
  by_cases hik : i = k
  · subst hik
    simp only [Function.update_same, Option.some.injEq] at hi
    subst hi
    exact ⟨hk, hle⟩
  · rw [Function.update_noteq hik] at hi
    exact h i le' hi

theorem icache_ok_append (n : Nat) (ic : List inode) (ino : inode) (h : icache_ok n ic)
    (hino : ino.i_ino = FS_ROOT_INO ∨
      (FS_ROOT_INO + 1 ≤ ino.i_ino ∧ ino.i_ino - FS_ROOT_INO - 1 < n)) :
    icache_ok n (ic ++ [ino]) := by
  intro k x hx
  rw [List.getElem?_append] at hx
  split at hx
  · exact h k x hx
  · cases hd : k - ic.length with
    | zero =>
      rw [hd] at hx
      simp only [List.getElem?_cons_zero, Option.some.injEq] at hx
      rw [← hx]
      exact hino
    | succ m => rw [hd] at hx; simp at hx

theorem icache_ok_set (n : Nat) (ic : List inode) (k : Nat) (ino ino' : inode)
    (h : icache_ok n ic) (hk : ic[k]? = some ino) (he : ino'.i_ino = ino.i_ino) :
    icache_ok n (ic.set k ino') := by
  intro j x hx
  rw [List.getElem?_set] at hx
  split at hx
  · rename_i hjk
    subst hjk
    split at hx
    · cases hx
      rw [he]
      exact h k ino hk
    · cases hx
  · exact h j x hx

theorem icache_ok_erase (n : Nat) (ic : List inode) (k : Nat) (h : icache_ok n ic) :
    icache_ok n (ic.eraseIdx k) := by
  intro j x hx
  rw [List.getElem?_eraseIdx] at hx
  split at hx
  · exact h j x hx
  · exact h (j + 1) x hx

theorem find_free_inode_cases (sbi : m_sb) :
    fs_find_free_inode sbi = FS_ROOT_INO ∨
    ∃ k, k < sbi.s_nnodes ∧ fs_find_free_inode sbi = FS_ROOT_INO + k + 1 := by
  unfold fs_find_free_inode
  cases hs : scan (fun i => (sbi.s_lookup i).isNone) sbi.s_nnodes 0 with
  | none => exact Or.inl rfl
  | some k =>
    rw [scan_some_iff] at hs
    exact Or.inr ⟨k, by omega, rfl⟩

theorem u16_slot (n k : Nat) (hn : n ≤ 65520) (hk : k < n) :
    u16 (FS_ROOT_INO + k + 1) = FS_ROOT_INO + 1 + k := by
  unfold u16
  simp only [FS_ROOT_INO]
  omega

theorem fs_mknod_ino_inv_ok (st : fs_state) (dir : inode) (dname : List Nat) (mode : Nat)
    (cur : task) (h : ino_inv st) : ino_inv (fs_mknod st dir dname mode cur).st := by
  obtain ⟨h1, h2, h3, h4, h5⟩ := h
  rw [fs_mknod_ok]
  rcases find_free_inode_cases st.sbi with hf | ⟨k, hk, hf⟩
  · simp only [hf, if_true]
    exact ⟨h1, h2, h3, h4, h5⟩
  · have hne : ¬ FS_ROOT_INO = FS_ROOT_INO + k + 1 := by omega
    have hsl : FS_ROOT_INO + k + 1 - FS_ROOT_INO - 1 = k := by omega
    obtain ⟨e1, _, e3, e4⟩ := mknod_inode_ino dir mode cur (FS_ROOT_INO + k + 1)
    have hic : icache_ok st.sbi.s_nnodes
        (st.icache ++ [mknod_inode dir mode cur (FS_ROOT_INO + k + 1)]) :=
      icache_ok_append _ _ _ h5 (Or.inr ⟨by rw [e1]; omega, by rw [e1, hsl]; exact hk⟩)
    simp only [hf, hne, if_false, e1, e3, e4, hsl, di_pos_slot]
    split
    · exact ⟨h1, h2, h3, h4, hic⟩
    · refine ⟨h1, h2, ?_, ?_, hic⟩
      · exact disk_ok_update _ _ _ _ h3 (fun hk' => u16_slot _ _ h2 hk')
      · exact lookup_ok_update _ _ _ _ h4 hk (u16_slot _ _ h2 hk)

/-- Every create keeps the invariant of the inode numbers, whatever its
allocations return. -/
theorem fs_mknod_ino_inv (st : fs_state) (dir : inode) (dname : List Nat) (mode : Nat)
    (cur : task) (inode_ok le_ok : Bool) (h : ino_inv st) :
    ino_inv (fs_mknod st dir dname mode cur inode_ok le_ok).st := by
  have hok := fs_mknod_ino_inv_ok st dir dname mode cur h
  have hn := (fs_mknod_lookup_ok st dir dname mode cur).1
  rw [fs_mknod_flags]
  split
  · exact h
  · split
    · exact hok
    · obtain ⟨h1, h2, h3, h4, h5⟩ := h
      obtain ⟨g1, g2, g3, g4, g5⟩ := hok
      refine ⟨?_, h2, ?_, h4, ?_⟩
      · show st.sbi.s_nnodes = (fs_mknod st dir dname mode cur).st.dev.sb.s_nnodes
        rw [← g1, hn]
      · show disk_ok st.sbi.s_nnodes (fs_mknod st dir dname mode cur).st.dev.itable
        rw [← hn]; exact g3
      · show icache_ok st.sbi.s_nnodes (fs_mknod st dir dname mode cur).st.icache
        rw [← hn]; exact g5

theorem fs_write_inode_disk_ok (sbi : m_sb) (dev : disk) (ino : inode) (n : Nat)
    (hn : n ≤ 65520) (h : disk_ok n dev.itable) :
    disk_ok n (fs_write_inode sbi dev ino).2.itable ∧
    (fs_write_inode sbi dev ino).2.sb = dev.sb := by
  by_cases hroot : FS_ROOT_INO = ino.i_ino
  · simp only [fs_write_inode, hroot, if_true]
    exact ⟨h, trivial⟩
  · by_cases hlt : ino.i_ino < FS_ROOT_INO + 1
    · simp only [fs_write_inode, hroot, hlt, if_false, if_true]
      exact ⟨h, trivial⟩
    · by_cases hread : FS_INO_BLK + (ino.i_ino - FS_ROOT_INO - 1) / FS_INO_PER_BLK
          < dev.dev_blocks
      · rw [fs_write_inode_slot sbi dev ino (by omega) hread]
        refine ⟨?_, rfl⟩
        apply disk_ok_update _ _ _ _ h
        intro hk
        show u16 ino.i_ino = _
        unfold u16
        simp only [FS_ROOT_INO] at *
        omega
      · have hrd : sb_bread dev (FS_INO_BLK + (ino.i_ino - FS_ROOT_INO - 1) / FS_INO_PER_BLK)
            = false := by
          simp [sb_bread, hread]
        simp only [fs_write_inode, hroot, hlt, if_false, hrd, Bool.not_false, if_true]
        exact ⟨h, trivial⟩

theorem fs_rename_disk_ok (dev : disk) (ino : inode) (new_name : List Nat) (n : Nat)
    (h : disk_ok n dev.itable) :
    disk_ok n (fs_rename dev (some ino) new_name).2.itable ∧
    (fs_rename dev (some ino) new_name).2.sb = dev.sb := by
  unfold fs_rename
  simp only
  split
  · exact ⟨h, rfl⟩
  · split
    · exact ⟨h, rfl⟩
    · exact ⟨disk_ok_update_keep _ _ _ _ h rfl (fun hl => hl), rfl⟩

theorem fs_delete_inode_disk_ok (sbi : m_sb) (dev : disk) (ino : inode) (n : Nat)
    (h : disk_ok n dev.itable) :
    disk_ok n (fs_delete_inode sbi dev ino).2.itable ∧
    (fs_delete_inode sbi dev ino).2.sb = dev.sb := by
  unfold fs_delete_inode
  cases fs_raw_inode sbi dev ino.i_ino with
  | none => exact ⟨h, rfl⟩
  | some pos =>
    exact ⟨disk_ok_update_keep _ _ _ _ h rfl (fun hl => absurd rfl hl), rfl⟩

theorem fs_delete_inode_lookup_ok (sbi : m_sb) (dev : disk) (ino : inode) (n : Nat)
    (h : lookup_ok n sbi.s_lookup) : lookup_ok n (fs_delete_inode sbi dev ino).1.s_lookup :=
  fun i le hi => h i le (fs_delete_inode_lookup sbi dev ino i le hi)

/-- An entry of the name index after any directory read is an entry that was
there before or the entry of a linked record of a whole table block. -/
theorem readdir_blocks_entry (dev : disk) (km : Nat → Bool) (bs : List Nat) :
    ∀ (a : readdir_acc) (p : Nat) (le : lookup_entry),
      (readdir_blocks dev bs a km).lookup p = some le →
      a.lookup p = some le ∨
      (∃ i, i ∈ bs ∧ i * FS_INO_PER_BLK ≤ p ∧ p < i * FS_INO_PER_BLK + FS_INO_PER_BLK ∧
        (dev.itable p).i_nlinks ≠ 0 ∧ le.i_ino = (dev.itable p).i_ino) := by
  induction bs with
  | nil => exact fun a p le h => Or.inl h
  | cons i bs ih =>
    intro a p le h
    simp only [readdir_blocks_cons_km] at h
    split at h
    · rcases ih _ p le h with h1 | ⟨i', hi', h2⟩
      · rw [readdir_inner_km] at h1
        split at h1
        · rename_i hc
          right
          simp only [Option.some.injEq] at h1
          exact ⟨i, by simp, hc.1, hc.2.1, hc.2.2.1, by rw [← h1]⟩
        · exact Or.inl h1
      · exact Or.inr ⟨i', by simp [hi'], h2⟩
    · exact Or.inl h

theorem fs_readdir_lookup_ok (sbi : m_sb) (dev : disk) (f_pos : Nat) (km : Nat → Bool)
    (h3 : disk_ok sbi.s_nnodes dev.itable) (h4 : lookup_ok sbi.s_nnodes sbi.s_lookup) :
    lookup_ok sbi.s_nnodes (fs_readdir sbi dev f_pos km).lookup := by
  intro p le hp
  unfold fs_readdir at hp
  split at hp
  · exact h4 p le hp
  · rcases readdir_blocks_entry dev km _ _ p le hp with h1 | ⟨i, hi, h5, h6, h7, h8⟩
    · exact h4 p le h1
    · have hi' := List.mem_range.1 hi
      rw [FS_INO_PER_BLK_eq] at hi' h5 h6
      have hp' : p < sbi.s_nnodes := by omega
      exact ⟨hp', by rw [h8]; exact (h3 p hp').2 h7⟩

theorem step_ino_inv (st : fs_state) (o : op) (h : ino_inv st) : ino_inv (step st o) := by
  cases o with
  | create dir dname mode cur inode_ok le_ok =>
    exact fs_mknod_ino_inv st dir dname mode cur inode_ok le_ok h
  | get_block k block create =>
    simp only [step]
    cases hh : st.icache[k]? with
    | none => exact h
    | some ino =>
      obtain ⟨h1, h2, h3, h4, h5⟩ := h
      obtain ⟨e1, e2, e3⟩ := fs_get_block_cases st.sbi ino block ⟨0, false, false⟩ create
      have hino : (fs_get_block st.sbi ino block ⟨0, false, false⟩ create).ino.i_ino
          = ino.i_ino := by
        rcases e3 with ⟨_, e⟩ | ⟨i, _, _, _, _, _, _, e⟩ <;> rw [e]
      refine ⟨?_, ?_, ?_, ?_, ?_⟩
      · show (fs_get_block st.sbi ino block ⟨0, false, false⟩ create).sbi.s_nnodes = _
        rw [e1]; exact h1
      · show (fs_get_block st.sbi ino block ⟨0, false, false⟩ create).sbi.s_nnodes ≤ _
        rw [e1]; exact h2
      · show disk_ok (fs_get_block st.sbi ino block ⟨0, false, false⟩ create).sbi.s_nnodes _
        rw [e1]; exact h3
      · show lookup_ok (fs_get_block st.sbi ino block ⟨0, false, false⟩ create).sbi.s_nnodes
          (fs_get_block st.sbi ino block ⟨0, false, false⟩ create).sbi.s_lookup
        rw [e1, e2]; exact h4
      · show icache_ok (fs_get_block st.sbi ino block ⟨0, false, false⟩ create).sbi.s_nnodes _
        rw [e1]
        exact icache_ok_set _ _ k ino _ h5 hh hino
  | write_inode k =>
    simp only [step]
    cases hh : st.icache[k]? with
    | none => exact h
    | some ino =>
      obtain ⟨h1, h2, h3, h4, h5⟩ := h
      obtain ⟨e1, e2⟩ := fs_write_inode_disk_ok st.sbi st.dev ino _ h2 h3
      exact ⟨by show _ = (fs_write_inode st.sbi st.dev ino).2.sb.s_nnodes; rw [e2]; exact h1,
        h2, e1, h4, h5⟩
  | readdir f_pos km =>
    obtain ⟨h1, h2, h3, h4, h5⟩ := h
    exact ⟨h1, h2, h3, fs_readdir_lookup_ok st.sbi st.dev f_pos km h3 h4, h5⟩
  | unlink k now =>
    simp only [step]
    cases hh : st.icache[k]? with
    | none => exact h
    | some ino =>
      obtain ⟨h1, h2, h3, h4, h5⟩ := h
      exact ⟨h1, h2, h3, h4, icache_ok_set _ _ k ino _ h5 hh rfl⟩
  | delete_inode k =>
    simp only [step]
    cases hh : st.icache[k]? with
    | none => exact h
    | some ino =>
      obtain ⟨h1, h2, h3, h4, h5⟩ := h
      obtain ⟨e1, e2⟩ := fs_delete_inode_disk_ok st.sbi st.dev ino _ h3
      have en := (fs_delete_inode_bm st.sbi st.dev ino).1
      refine ⟨?_, ?_, ?_, ?_, ?_⟩
      · show (fs_delete_inode st.sbi st.dev ino).1.s_nnodes
          = (fs_delete_inode st.sbi st.dev ino).2.sb.s_nnodes
        rw [en, e2]; exact h1
      · show (fs_delete_inode st.sbi st.dev ino).1.s_nnodes ≤ _
        rw [en]; exact h2
      · show disk_ok (fs_delete_inode st.sbi st.dev ino).1.s_nnodes _
        rw [en]; exact e1
      · show lookup_ok (fs_delete_inode st.sbi st.dev ino).1.s_nnodes _
        rw [en]; exact fs_delete_inode_lookup_ok st.sbi st.dev ino _ h4
      · show icache_ok (fs_delete_inode st.sbi st.dev ino).1.s_nnodes _
        rw [en]; exact icache_ok_erase _ _ k h5

/-- `fs_name_to_inode` returns 0 or the inode number of an entry of the name
index. -/
theorem fs_name_to_inode_entry (sbi : m_sb) (dname : List Nat) :
    fs_name_to_inode sbi dname = 0 ∨
    ∃ (i : Nat) (le : lookup_entry), sbi.s_lookup i = some le ∧
      fs_name_to_inode sbi dname = le.i_ino := by
  unfold fs_name_to_inode
  cases scan (fun i => match sbi.s_lookup i with
      | none => false
      | some le => strncmp_eq le.name dname FS_FNAME_LEN) sbi.s_nnodes 0 with
  | none => exact Or.inl rfl
  | some i =>
    cases hl : sbi.s_lookup i with
    | none => exact Or.inl (by simp only [hl])
    | some le => exact Or.inr ⟨i, le, hl, by simp only [hl]⟩

/-- What `fs_read_inode` leaves of the mount data, and the number of the inode it
fills in. -/
theorem fs_read_inode_frame (sbi : m_sb) (dev : disk) (ino : inode) (now : Nat) :
    (fs_read_inode sbi dev ino now).1.s_nnodes = sbi.s_nnodes ∧
    (fs_read_inode sbi dev ino now).1.s_lookup = sbi.s_lookup ∧
    ∀ x, (fs_read_inode sbi dev ino now).2 = some x → x.i_ino = ino.i_ino := by
  unfold fs_read_inode
  split
  · refine ⟨rfl, rfl, fun x hx => ?_⟩
    simp only [Option.some.injEq] at hx
    rw [← hx]
  · cases fs_raw_inode sbi dev ino.i_ino with
    | none => exact ⟨rfl, rfl, fun x hx => by simp at hx⟩
    | some pos =>
      refine ⟨rfl, rfl, fun x hx => ?_⟩
      simp only [Option.some.injEq] at hx
      rw [← hx]

theorem iget_ino_inv (st : fs_state) (k now : Nat) (h : ino_inv st)
    (hk : k = FS_ROOT_INO ∨
      (FS_ROOT_INO + 1 ≤ k ∧ k - FS_ROOT_INO - 1 < st.sbi.s_nnodes)) :
    ino_inv (iget st k now) := by
  unfold iget
  split
  · exact h
  · obtain ⟨h1, h2, h3, h4, h5⟩ := h
    obtain ⟨e1, e2, e3⟩ := fs_read_inode_frame st.sbi st.dev (fs_alloc_inode k) now
    cases hr : fs_read_inode st.sbi st.dev (fs_alloc_inode k) now with
    | mk sbi1 o =>
      rw [hr] at e1 e2 e3
      simp only at e1 e2 e3
      cases o with
      | none =>
        refine ⟨?_, ?_, ?_, ?_, ?_⟩
        · show sbi1.s_nnodes = _
          rw [e1]; exact h1
        · show sbi1.s_nnodes ≤ _
          rw [e1]; exact h2
        · show disk_ok sbi1.s_nnodes _
          rw [e1]; exact h3
        · show lookup_ok sbi1.s_nnodes sbi1.s_lookup
          rw [e1, e2]; exact h4
        · show icache_ok sbi1.s_nnodes _
          rw [e1]; exact h5
      | some x =>
        have hx : x.i_ino = k := e3 x rfl
        refine ⟨?_, ?_, ?_, ?_, ?_⟩
        · show sbi1.s_nnodes = _
          rw [e1]; exact h1
        · show sbi1.s_nnodes ≤ _
          rw [e1]; exact h2
        · show disk_ok sbi1.s_nnodes _
          rw [e1]; exact h3
        · show lookup_ok sbi1.s_nnodes sbi1.s_lookup
          rw [e1, e2]; exact h4
        · show icache_ok sbi1.s_nnodes (st.icache ++ [x])
          rw [e1]
          exact icache_ok_append _ _ x h5 (by rw [hx]; exact hk)

theorem fs_lookup_ino_inv (st : fs_state) (dname : List Nat) (now : Nat) (h : ino_inv st) :
    ino_inv (fs_lookup st dname now) := by
  unfold fs_lookup
  split
  · exact h
  · rename_i hne
    rcases fs_name_to_inode_entry st.sbi dname with h0 | ⟨i, le, hl, he⟩
    · exact absurd h0 hne
    · obtain ⟨hi, hle⟩ := h.2.2.2.1 i le hl
      refine iget_ino_inv st _ now h (Or.inr ?_)
      rw [he, hle]
      simp only [FS_ROOT_INO]
      omega

theorem step_call_ino_inv (st : fs_state) (c : call) (h : ino_inv st) :
    ino_inv (step_call st c) := by
  cases c with
  | base o => exact step_ino_inv st o h
  | rename k new_name =>
    simp only [step_call]
    cases hh : st.icache[k]? with
    | none => exact h
    | some ino =>
      obtain ⟨h1, h2, h3, h4, h5⟩ := h
      obtain ⟨e1, e2⟩ := fs_rename_disk_ok st.dev ino new_name _ h3
      exact ⟨by show _ = (fs_rename st.dev (some ino) new_name).2.sb.s_nnodes; rw [e2]; exact h1,
        h2, e1, h4, h5⟩
  | remount now =>
    cases hm : fs_fill_super st.dev now with
    | none =>
      simp only [step_call, hm]
      exact h
    | some st1 =>
      simp only [step_call, hm]
      obtain ⟨h1, h2, h3, h4, h5⟩ := h
      by_cases hb : 0 < st.dev.dev_blocks
      · obtain ⟨root, hr⟩ := fs_fill_super_some st.dev now hb
        have hroot : root.i_ino = FS_ROOT_INO := by
          simp only [fs_fill_super, fs_read_inode, fs_alloc_inode, sb_bread, FS_SB_BLK, hb,
            decide_True, Bool.not_true, Bool.false_eq_true, if_false, if_true,
            Option.some.injEq, fs_state.mk.injEq, List.cons.injEq, and_true, true_and] at hr
          rw [← hr]
        rw [hr] at hm
        cases hm
        refine ⟨rfl, ?_, ?_, ?_, ?_⟩
        · show st.dev.sb.s_nnodes ≤ _
          rw [← h1]; exact h2
        · show disk_ok st.dev.sb.s_nnodes _
          rw [← h1]; exact h3
        · intro i le hi
          cases hi
        · intro k x hx
          cases k with
          | zero =>
            simp only [List.getElem?_cons_zero, Option.some.injEq] at hx
            rw [← hx]
            exact Or.inl hroot
          | succ m => simp at hx
      · simp [fs_fill_super, sb_bread, FS_SB_BLK, hb] at hm
  | lookup dname now => exact fs_lookup_ino_inv st dname now h

theorem run_calls_ino_inv (cs : List call) : ∀ st : fs_state, ino_inv st →
    ino_inv (run_calls st cs) := by
  induction cs with
  | nil => exact fun _ h => h
  | cons c cs ih => exact fun st h => ih (step_call st c) (step_call_ino_inv st c h)

/-- Claim C12. In every state reached from the mount of a freshly formatted
device by creates, block mappings, inode write-backs, renames, directory reads,
unlinks, inode deletions, lookups and remounts, every record of the inode table with a
nonzero link count in slot `i` holds the inode number `FS_ROOT_INO + 1 + i`,
every populated slot `i` of the name index lies below the inode count and holds
the inode number `FS_ROOT_INO + 1 + i`, and no record of the table and no entry
of the index holds the number of the root inode. -/
theorem C12_inode_numbers (st_size : Nat) (old : disk) (now : Nat) (st0 : fs_state)
    (hm : fs_fill_super (mkfs st_size old) now = some st0) (cs : List call) :
    (∀ i, i < (run_calls st0 cs).sbi.s_nnodes →
      ((run_calls st0 cs).dev.itable i).i_nlinks ≠ 0 →
      ((run_calls st0 cs).dev.itable i).i_ino = FS_ROOT_INO + 1 + i) ∧
    (∀ (i : Nat) (le : lookup_entry), (run_calls st0 cs).sbi.s_lookup i = some le →
      i < (run_calls st0 cs).sbi.s_nnodes ∧ le.i_ino = FS_ROOT_INO + 1 + i) ∧
    (∀ i, i < (run_calls st0 cs).sbi.s_nnodes →
      ((run_calls st0 cs).dev.itable i).i_ino ≠ FS_ROOT_INO) ∧
    (∀ (i : Nat) (le : lookup_entry), (run_calls st0 cs).sbi.s_lookup i = some le →
      le.i_ino ≠ FS_ROOT_INO) := by
  have h0 : ino_inv st0 := by
    obtain ⟨root, hr, hroot, _⟩ :=
      fs_fill_super_root (mkfs st_size old) now (mkfs_dev_blocks_pos st_size old)
    rw [hr] at hm
    cases hm
    refine ⟨rfl, mkfs_sb_nnodes_le st_size, ?_, ?_, ?_⟩
    · intro i hi
      have hi' : i < (mkfs_sb st_size).s_nnodes := hi
      have hrec : (mkfs st_size old).itable i = mkfs_di i := by
        simp only [mkfs, write_tables, hi', if_true]
      show (((mkfs st_size old).itable i).i_ino = 0 ∨ _) ∧ _
      rw [hrec]
      exact ⟨Or.inl rfl, fun hl => absurd rfl hl⟩
    · intro i le hi
      cases hi
    · intro k x hx
      cases k with
      | zero =>
        simp only [List.getElem?_cons_zero, Option.some.injEq] at hx
        rw [← hx]
        exact Or.inl hroot
      | succ m => simp at hx
  obtain ⟨_, _, h3, h4, _⟩ := run_calls_ino_inv cs st0 h0
  refine ⟨fun i hi hl => (h3 i hi).2 hl, h4, fun i hi => ?_, fun i le hle => ?_⟩
  · rcases (h3 i hi).1 with e | e <;> rw [e] <;> simp only [FS_ROOT_INO] <;> omega
  · rw [(h4 i le hle).2]
    simp only [FS_ROOT_INO]
    omega

theorem C12_inode_numbers_witness :
    fs_fill_super (mkfs 8704 (blank_disk 17)) 0 = some sample_mount ∧
    ((run_calls sample_mount
        [.base (.create sample_root [102, 48] 0o100644 ⟨0, 0, 0⟩), .rename 1 [103],
          .base (.write_inode 1), .remount 7, .base (.readdir 0)]).dev.itable 0).i_nlinks ≠ 0 ∧
    ((run_calls sample_mount
        [.base (.create sample_root [102, 48] 0o100644 ⟨0, 0, 0⟩), .rename 1 [103],
          .base (.write_inode 1), .remount 7, .base (.readdir 0)]).dev.itable 0).i_ino
      = FS_ROOT_INO + 1 + 0 ∧
    (run_calls sample_mount
        [.base (.create sample_root [102, 48] 0o100644 ⟨0, 0, 0⟩), .rename 1 [103],
          .base (.write_inode 1), .remount 7, .base (.readdir 0)]).sbi.s_lookup 0
      = some ⟨strncpy [102, 48] FS_FNAME_LEN, 2⟩ :=
  ⟨sample_mount_eq, by decide,
    (C12_inode_numbers 8704 (blank_disk 17) 0 sample_mount sample_mount_eq
      [.base (.create sample_root [102, 48] 0o100644 ⟨0, 0, 0⟩), .rename 1 [103],
        .base (.write_inode 1), .remount 7, .base (.readdir 0)]).1 0 (by decide) (by decide),
    by decide⟩

/-! ## Unlinking a file -/

/-- A directory read empties no slot of the name index. -/
theorem readdir_blocks_keeps (dev : disk) (km : Nat → Bool) (bs : List Nat) :
    ∀ (a : readdir_acc) (p : Nat), a.lookup p ≠ none →
      (readdir_blocks dev bs a km).lookup p ≠ none := by
  induction bs with
  | nil => exact fun a p h => h
  | cons i bs ih =>
    intro a p h
    simp only [readdir_blocks_cons_km]
    split
    · apply ih
      rw [readdir_inner_km]
      split
      · simp
      · exact h
    · exact h

/-- A call other than `fs_delete_inode` clears no bit of the bitmap and empties
no slot of the name index. -/
theorem step_keeps (st : fs_state) (o : op) (ho : o.is_delete_inode = false) :
    (∀ i, st.sbi.s_inode_bm i = true → (step st o).sbi.s_inode_bm i = true) ∧
    (∀ i, st.sbi.s_lookup i ≠ none → (step st o).sbi.s_lookup i ≠ none) := by
  cases o with
  | create dir dname mode cur inode_ok le_ok =>
    refine ⟨fun i hi => ?_, fun i hi => ?_⟩
    · show (fs_mknod st dir dname mode cur inode_ok le_ok).st.sbi.s_inode_bm i = true
      rw [(fs_mknod_frame st dir dname mode cur inode_ok le_ok).2.1]
      exact hi
    · show (fs_mknod st dir dname mode cur inode_ok le_ok).st.sbi.s_lookup i ≠ none
      rcases (fs_mknod_lookup st dir dname mode cur inode_ok le_ok).2 with h | ⟨k, _, h⟩
      · rw [h]
        exact hi
      · rw [h]
        by_cases hs : i = k
        · rw [hs, Function.update_same]
          simp
        · rw [Function.update_noteq hs]
          exact hi
  | get_block k block create =>
    simp only [step]
    cases hh : st.icache[k]? with
    | none => exact ⟨fun _ h => h, fun _ h => h⟩
    | some ino =>
      obtain ⟨_, e2, e3⟩ := fs_get_block_cases st.sbi ino block ⟨0, false, false⟩ create
      refine ⟨fun i hi => ?_, fun i hi => ?_⟩
      · show (fs_get_block st.sbi ino block ⟨0, false, false⟩ create).sbi.s_inode_bm i = true
        rcases e3 with ⟨e, _⟩ | ⟨j, _, _, _, _, _, e, _⟩
        · rw [e]; exact hi
        · rw [e]
          by_cases hj : i = j
          · rw [hj, Function.update_same]
          · rw [Function.update_noteq hj]; exact hi
      · show (fs_get_block st.sbi ino block ⟨0, false, false⟩ create).sbi.s_lookup i ≠ none
        rw [e2]; exact hi
  | write_inode k =>
    simp only [step]
    cases hh : st.icache[k]? with
    | none => exact ⟨fun _ h => h, fun _ h => h⟩
    | some ino => exact ⟨fun _ h => h, fun _ h => h⟩
  | readdir f_pos km =>
    refine ⟨fun _ h => h, fun i hi => ?_⟩
    show (fs_readdir st.sbi st.dev f_pos km).lookup i ≠ none
    unfold fs_readdir
    split
    · exact hi
    · exact readdir_blocks_keeps _ km _ _ i hi
  | unlink k now =>
    simp only [step]
    cases hh : st.icache[k]? with
    | none => exact ⟨fun _ h => h, fun _ h => h⟩
    | some ino => exact ⟨fun _ h => h, fun _ h => h⟩
  | delete_inode k => simp [op.is_delete_inode] at ho

theorem run_keeps (ops : List op) : ∀ st : fs_state,
    (∀ o, o ∈ ops → o.is_delete_inode = false) →
    (∀ i, st.sbi.s_inode_bm i = true → (run st ops).sbi.s_inode_bm i = true) ∧
    (∀ i, st.sbi.s_lookup i ≠ none → (run st ops).sbi.s_lookup i ≠ none) := by
  induction ops with
  | nil => exact fun st _ => ⟨fun _ h => h, fun _ h => h⟩
  | cons o ops ih =>
    intro st ho
    obtain ⟨s1, s2⟩ := step_keeps st o (ho o (by simp))
    obtain ⟨r1, r2⟩ := ih (step st o) (fun o' h' => ho o' (by simp [h']))
    exact ⟨fun i hi => r1 i (s1 i hi), fun i hi => r2 i (s2 i hi)⟩

/-- Claim C21. `fs_unlink` returns 0 and changes of the in-core inode only the
link count, which it decrements (by one when it is not 0; the `unsigned int`
wraps from 0), and the change time. As a call of a session it leaves the device
with its inode table, the mount data with the bitmap and the name index, and
every other in-core inode, so every name lookup returns what it returned before.
Through every run of later calls other than `fs_delete_inode` every set bit of
the bitmap stays set and every populated slot of the name index stays
populated. -/
theorem C21_unlink_frame (st : fs_state) (h : Nat) (ino : inode) (now : Nat)
    (hh : st.icache[h]? = some ino) :
    (fs_unlink ino now).1 = 0 ∧
    (fs_unlink ino now).2.i_nlink = nlink_dec ino.i_nlink ∧
    (0 < ino.i_nlink → (fs_unlink ino now).2.i_nlink + 1 = ino.i_nlink) ∧
    (fs_unlink ino now).2.i_ctime = now ∧
    (fs_unlink ino now).2.i_data = ino.i_data ∧
    (fs_unlink ino now).2 = { ino with
      i_nlink := (fs_unlink ino now).2.i_nlink, i_ctime := (fs_unlink ino now).2.i_ctime } ∧
    (step st (.unlink h now)).dev = st.dev ∧
    (step st (.unlink h now)).sbi = st.sbi ∧
    (step st (.unlink h now)).icache = st.icache.set h (fs_unlink ino now).2 ∧
    (∀ dname, fs_name_to_inode (step st (.unlink h now)).sbi dname
      = fs_name_to_inode st.sbi dname) ∧
    (∀ ops : List op, (∀ o, o ∈ ops → o.is_delete_inode = false) →
      (∀ i, st.sbi.s_inode_bm i = true →
        (run (step st (.unlink h now)) ops).sbi.s_inode_bm i = true) ∧
      (∀ i, st.sbi.s_lookup i ≠ none →
        (run (step st (.unlink h now)) ops).sbi.s_lookup i ≠ none)) := by
  have hstep : step st (.unlink h now)
      = { st with icache := st.icache.set h (fs_unlink ino now).2 } := by
    simp only [step, hh]
  refine ⟨rfl, rfl, fun hpos => ?_, rfl, rfl, rfl, ?_, ?_, ?_, fun dname => ?_,
    fun ops hops => ?_⟩
  · show nlink_dec ino.i_nlink + 1 = ino.i_nlink
    unfold nlink_dec
    rw [if_neg (by omega)]
    omega
  · rw [hstep]
  · rw [hstep]
  · rw [hstep]
  · rw [hstep]
  · exact run_keeps ops (step st (.unlink h now)) hops |>.imp
      (fun r i hi => r i (by rw [hstep]; exact hi))
      (fun r i hi => r i (by rw [hstep]; exact hi))

theorem C21_unlink_frame_witness :
    (run sample_mount sample_ops).icache[1]? = some sample_file ∧
    (fs_unlink sample_file 9).2.i_nlink = 0 ∧
    (step (run sample_mount sample_ops) (.unlink 1 9)).sbi.s_inode_bm 0 = true ∧
    fs_name_to_inode (step (run sample_mount sample_ops) (.unlink 1 9)).sbi [102, 48] = 2 ∧
    fs_name_to_inode (step (run sample_mount sample_ops) (.unlink 1 9)).sbi [102, 48]
      = fs_name_to_inode (run sample_mount sample_ops).sbi [102, 48] :=
  ⟨by decide, by decide, by decide, by decide,
    (C21_unlink_frame (run sample_mount sample_ops) 1 sample_file 9 (by decide)).2.2.2.2.2.2.2.2.2.1
      [102, 48]⟩

/-! ## The record of an inode number -/

/-- The invariant of the inode numbers holds after the mount of a formatted
device. -/
theorem mkfs_mount_ino_inv (st_size : Nat) (old : disk) (now : Nat) (st0 : fs_state)
    (hm : fs_fill_super (mkfs st_size old) now = some st0) : ino_inv st0 := by
  obtain ⟨root, hr, hroot, _⟩ :=
    fs_fill_super_root (mkfs st_size old) now (mkfs_dev_blocks_pos st_size old)
  rw [hr] at hm
  cases hm
  refine ⟨rfl, mkfs_sb_nnodes_le st_size, ?_, ?_, ?_⟩
  · intro i hi
    have hi' : i < (mkfs_sb st_size).s_nnodes := hi
    have hrec : (mkfs st_size old).itable i = mkfs_di i := by
      simp only [mkfs, write_tables, hi', if_true]
    show (((mkfs st_size old).itable i).i_ino = 0 ∨ _) ∧ _
    rw [hrec]
    exact ⟨Or.inl rfl, fun hl => absurd rfl hl⟩
  · intro i le hi
    cases hi
  · intro k x hx
    cases k with
    | zero =>
      simp only [List.getElem?_cons_zero, Option.some.injEq] at hx
      rw [← hx]
      exact Or.inl hroot
    | succ m => simp at hx

/-- Under the invariant of the inode numbers the search of `fs_raw_inode` and
`fs_inode_to_name` ends at the slot of the number. -/
theorem lookup_by_ino_slot (sbi : m_sb) (k i : Nat)
    (h : lookup_ok sbi.s_nnodes sbi.s_lookup) (hk : lookup_by_ino sbi k = some i) :
    FS_ROOT_INO + 1 ≤ k ∧ i = k - FS_ROOT_INO - 1 ∧ i < sbi.s_nnodes ∧
      ∃ le : lookup_entry, sbi.s_lookup i = some le ∧ le.i_ino = k := by
  unfold lookup_by_ino at hk
  rw [scan_some_iff] at hk
  obtain ⟨_, h2, h3, _⟩ := hk
  cases hl : sbi.s_lookup i with
  | none => simp [hl] at h3
  | some le =>
    simp only [hl, decide_eq_true_eq] at h3
    obtain ⟨_, h5⟩ := h i le hl
    rw [h3] at h5
    simp only [FS_ROOT_INO] at h5 ⊢
    exact ⟨by omega, by omega, by omega, le, rfl, h3⟩

/-- The device after `fs_rename` of an inode that has a slot whose table block
can be read. -/
theorem fs_rename_slot (dev : disk) (ino : inode) (new_name : List Nat)
    (hk : FS_ROOT_INO + 1 ≤ ino.i_ino)
    (hread : FS_INO_BLK + (ino.i_ino - FS_ROOT_INO - 1) / FS_INO_PER_BLK < dev.dev_blocks) :
    fs_rename dev (some ino) new_name =
      (0, { dev with
        itable := Function.update dev.itable (ino.i_ino - FS_ROOT_INO - 1)
          { dev.itable (ino.i_ino - FS_ROOT_INO - 1) with
            name := strncpy new_name FS_FNAME_LEN } }) := by
  have h2 : ¬ ino.i_ino < FS_ROOT_INO + 1 := by omega
  have hrd : sb_bread dev (FS_INO_BLK + (ino.i_ino - FS_ROOT_INO - 1) / FS_INO_PER_BLK)
      = true := by
    simp [sb_bread, hread]
  simp only [fs_rename, h2, if_false, hrd, Bool.not_true, Bool.false_eq_true, di_pos_slot]

/-- Claim C22. In every state reached from the mount of a freshly formatted
device by the calls of the file system (creates, block mappings, inode
write-backs, directory reads, unlinks, inode deletions, renames, lookups and
remounts), whenever `fs_raw_inode` returns a record for the inode number `k`,
then `k` is at least `FS_ROOT_INO + 1`, the slot `i = k - FS_ROOT_INO - 1` lies
below the inode count, and the record is the one of table block
`FS_INO_BLK + i / FS_INO_PER_BLK` at offset `i % FS_INO_PER_BLK`: the record that
`fs_write_inode` and `fs_rename` of an inode with number `k` write, leaving every
other record. -/
theorem C22_raw_inode_slot (st_size : Nat) (old : disk) (now : Nat) (st0 : fs_state)
    (hm : fs_fill_super (mkfs st_size old) now = some st0) (cs : List call) (k pos : Nat)
    (hr : fs_raw_inode (run_calls st0 cs).sbi (run_calls st0 cs).dev k = some pos) :
    FS_ROOT_INO + 1 ≤ k ∧ k - FS_ROOT_INO - 1 < (run_calls st0 cs).sbi.s_nnodes ∧
    pos = di_pos (FS_INO_BLK + (k - FS_ROOT_INO - 1) / FS_INO_PER_BLK)
      ((k - FS_ROOT_INO - 1) % FS_INO_PER_BLK) ∧
    (∀ ino : inode, ino.i_ino = k →
      ((fs_write_inode (run_calls st0 cs).sbi (run_calls st0 cs).dev ino).2.itable pos).i_ino
        = u16 k ∧
      ((fs_write_inode (run_calls st0 cs).sbi (run_calls st0 cs).dev ino).2.itable pos).i_data
        = ino.i_data ∧
      ∀ j, j ≠ pos →
        (fs_write_inode (run_calls st0 cs).sbi (run_calls st0 cs).dev ino).2.itable j
          = (run_calls st0 cs).dev.itable j) ∧
    (∀ (ino : inode) (new_name : List Nat), ino.i_ino = k →
      ((fs_rename (run_calls st0 cs).dev (some ino) new_name).2.itable pos).name
        = strncpy new_name FS_FNAME_LEN ∧
      ∀ j, j ≠ pos →
        (fs_rename (run_calls st0 cs).dev (some ino) new_name).2.itable j
          = (run_calls st0 cs).dev.itable j) := by
  have hinv := run_calls_ino_inv cs st0 (mkfs_mount_ino_inv st_size old now st0 hm)
  generalize run_calls st0 cs = st at hr hinv ⊢
  obtain ⟨_, _, _, h4, _⟩ := hinv
  unfold fs_raw_inode at hr
  cases hl : lookup_by_ino st.sbi k with
  | none => simp [hl] at hr
  | some i =>
    obtain ⟨hk, hi, hin, _⟩ := lookup_by_ino_slot st.sbi k i h4 hl
    simp only [hl] at hr
    split at hr
    · rename_i hrd
      simp only [Option.some.injEq] at hr
      rw [hi] at hr hrd hin
      have hread : FS_INO_BLK + (k - FS_ROOT_INO - 1) / FS_INO_PER_BLK < st.dev.dev_blocks := by
        simpa [sb_bread] using hrd
      have hpos : pos = k - FS_ROOT_INO - 1 := by rw [← hr, di_pos_slot]
      refine ⟨hk, hin, hr.symm, fun ino hino => ?_, fun ino new_name hino => ?_⟩
      · subst hino
        rw [fs_write_inode_slot st.sbi st.dev ino hk hread, hpos]
        refine ⟨?_, ?_, fun j hj => ?_⟩
        · simp only [Function.update_same]
        · simp only [Function.update_same]
        · simp only [Function.update_noteq hj]
      · subst hino
        rw [fs_rename_slot st.dev ino new_name hk hread, hpos]
        refine ⟨?_, fun j hj => ?_⟩
        · simp only [Function.update_same]
        · simp only [Function.update_noteq hj]
    · simp at hr

theorem C22_raw_inode_slot_witness :
    fs_fill_super (mkfs 8704 (blank_disk 17)) 0 = some sample_mount ∧
    fs_raw_inode
      (run_calls sample_mount [.base (.create sample_root [102, 48] 0o100644 ⟨0, 0, 0⟩),
        .base (.create sample_root [102, 49] 0o100644 ⟨0, 0, 0⟩), .lookup [102, 49] 0]).sbi
      (run_calls sample_mount [.base (.create sample_root [102, 48] 0o100644 ⟨0, 0, 0⟩),
        .base (.create sample_root [102, 49] 0o100644 ⟨0, 0, 0⟩), .lookup [102, 49] 0]).dev 3
      = some 1 ∧
    1 = di_pos (FS_INO_BLK + (3 - FS_ROOT_INO - 1) / FS_INO_PER_BLK)
      ((3 - FS_ROOT_INO - 1) % FS_INO_PER_BLK) :=
  ⟨sample_mount_eq, by decide,
    (C22_raw_inode_slot 8704 (blank_disk 17) 0 sample_mount sample_mount_eq
      [.base (.create sample_root [102, 48] 0o100644 ⟨0, 0, 0⟩),
        .base (.create sample_root [102, 49] 0o100644 ⟨0, 0, 0⟩), .lookup [102, 49] 0] 3 1
      (by decide)).2.2.1⟩

/-! ## Files of an earlier session -/

/-- Claim C23 at the failing input: on the fresh mount of a device on which an
earlier session left the linked file `a` in slot 0, the name index is empty,
`fs_find_free_inode` returns the number of slot 0, and the create of `b` returns 0
and overwrites the record of slot 0, whose link count was 1: the name becomes `b`
and the pointer to the data block of `a` is zeroed. After a directory read the
same create takes slot 1, whose record has link count 0. -/
theorem C23_create_overwrites_linked_record :
    (sample_remounted.dev.itable 0).i_nlinks = 1 ∧
    (sample_remounted.dev.itable 0).name = strncpy [97] FS_FNAME_LEN ∧
    (sample_remounted.dev.itable 0).i_data = ⟨2, 0, 0⟩ ∧
    sample_remounted.sbi.s_lookup 0 = none ∧
    fs_find_free_inode sample_remounted.sbi = FS_ROOT_INO + 1 ∧
    (fs_mknod sample_remounted sample_root [98] 0o100644 ⟨0, 0, 0⟩).rc = 0 ∧
    ((fs_mknod sample_remounted sample_root [98] 0o100644 ⟨0, 0, 0⟩).st.dev.itable 0).name
      = strncpy [98] FS_FNAME_LEN ∧
    ((fs_mknod sample_remounted sample_root [98] 0o100644 ⟨0, 0, 0⟩).st.dev.itable 0).i_data
      = idata.zero ∧
    fs_find_free_inode (step sample_remounted (.readdir 0)).sbi = FS_ROOT_INO + 2 ∧
    ((step sample_remounted (.readdir 0)).dev.itable 1).i_nlinks = 0 := by
  refine ⟨by decide, by decide, by decide, by decide, by decide, by decide, by decide,
    by decide, by decide, by decide⟩

/-- Claim C24 at the failing input: on the fresh mount of a device on which an
earlier session left the linked file `a` with the data block 2, after a directory
read and the create of `b` (inode number 3) the inode of `a` has not been read
and the bitmap is empty; `fs_get_block` in allocate mode for logical block 0 of
`b` returns 0 with the buffer mapped to block 2, the block the linked record of
`a` points to. Once a lookup of `a` has read its inode, the same call returns
block 3. -/
theorem C24_allocates_block_of_unread_file :
    (sample_second.dev.itable 0).i_nlinks = 1 ∧
    (sample_second.dev.itable 0).name = strncpy [97] FS_FNAME_LEN ∧
    (sample_second.dev.itable 0).i_data.get 0 = 2 ∧
    sample_second.icache = [sample_root, sample_file_b] ∧
    sample_second.sbi.s_inode_bm 0 = false ∧
    (fs_get_block sample_second.sbi sample_file_b 0 ⟨0, false, false⟩ 1).rc = 0 ∧
    (fs_get_block sample_second.sbi sample_file_b 0 ⟨0, false, false⟩ 1).bh = ⟨2, true, true⟩ ∧
    (step_call sample_second (.lookup [97] 0)).sbi.s_inode_bm 0 = true ∧
    (fs_get_block (step_call sample_second (.lookup [97] 0)).sbi sample_file_b 0
      ⟨0, false, false⟩ 1).bh = ⟨3, true, true⟩ := by
  refine ⟨by decide, by decide, by decide, by decide, by decide, by decide, by decide,
    by decide, by decide⟩

/-! ## Renaming and writing back -/

/-- Claim C27 at the failing input: on the mounted sample device, after the
create of `f0` and `fs_rename` of its inode to `g` the record of slot 0 holds the
name `g`, and after `fs_write_inode` of the same inode it holds `f0` again, the
name the name index still has. The same happens to the file `a` of an earlier
session after a directory read and a lookup. -/
theorem C27_write_back_restores_old_name :
    ((run_calls sample_mount
        [.base (.create sample_root [102, 48] 0o100644 ⟨0, 0, 0⟩),
          .rename 1 [103]]).dev.itable 0).name = strncpy [103] FS_FNAME_LEN ∧
    ((run_calls sample_mount
        [.base (.create sample_root [102, 48] 0o100644 ⟨0, 0, 0⟩),
          .rename 1 [103], .base (.write_inode 1)]).dev.itable 0).name
      = strncpy [102, 48] FS_FNAME_LEN ∧
    strncpy [102, 48] FS_FNAME_LEN ≠ strncpy [103] FS_FNAME_LEN ∧
    fs_inode_to_name (run_calls sample_mount
        [.base (.create sample_root [102, 48] 0o100644 ⟨0, 0, 0⟩),
          .rename 1 [103]]).sbi 2 = some (strncpy [102, 48] FS_FNAME_LEN) ∧
    ((run_calls sample_remounted
        [.base (.readdir 0), .lookup [97] 0, .rename 1 [103]]).dev.itable 0).name
      = strncpy [103] FS_FNAME_LEN ∧
    ((run_calls sample_remounted
        [.base (.readdir 0), .lookup [97] 0, .rename 1 [103],
          .base (.write_inode 1)]).dev.itable 0).name = strncpy [97] FS_FNAME_LEN := by
  refine ⟨by decide, by decide, by decide, by decide, by decide, by decide⟩

/-! ## The layout and the size of the device -/

/-- Claim C25, checked on the code. For every count of blocks below `2 ^ 24`
the superblock, the inode table and one data block for each inode fit on the
device exactly when the count is not a multiple of 17. At the failing input, a
device of 17 blocks (8704 bytes), the formatter computes one table block and 16
inodes, which with the superblock are 18 blocks; `write_tables` writes 18 blocks
before any tail block, and on the mounted device `fs_get_block` returns block 17
for bit 15, a block the 17 blocks of the device (0 to 16) do not contain. -/
theorem C25_layout_overruns_device (total_blocks : Nat) (h : total_blocks < 16777216) :
    (1 + nino_zone total_blocks + nino total_blocks ≤ (total_blocks : Int) ↔
      total_blocks % 17 ≠ 0) ∧
    nblocks 8704 = 17 ∧ nino_zone 17 = 1 ∧ nino 17 = 16 ∧
    ¬ (1 + nino_zone 17 + nino 17 ≤ (17 : Int)) ∧
    mkfs_sb 8704 = ⟨magic, 16, 17⟩ ∧
    writes_tail (mkfs_sb 8704) = false ∧
    bytes_written (mkfs_sb 8704) = 18 * FS_BSIZE ∧
    8704 < bytes_written (mkfs_sb 8704) ∧
    sample_last_bit_sbi.s_nblocks = 17 ∧
    (fs_get_block sample_last_bit_sbi (fs_alloc_inode 2) 0 ⟨0, false, false⟩ 1).rc = 0 ∧
    (fs_get_block sample_last_bit_sbi (fs_alloc_inode 2) 0 ⟨0, false, false⟩ 1).bh.b_blocknr
      = 17 := by
  have hz : nino_zone 17 = 1 := by rw [nino_zone_eq _ (by decide)]; rfl
  have hn : nino 17 = 16 := by rw [nino_eq _ (by decide)]; rfl
  refine ⟨?_, by decide, hz, hn, ?_, mkfs_sb_8704, ?_, ?_, ?_, rfl, by decide, by decide⟩
  · rw [nino_zone_eq _ h, nino_eq _ h]
    push_cast
    omega
  · rw [hz, hn]
    decide
  · rw [mkfs_sb_8704]
    decide
  · rw [mkfs_sb_8704]
    decide
  · rw [mkfs_sb_8704]
    decide

theorem C25_layout_overruns_device_witness :
    (34 : Nat) < 16777216 ∧ 34 % 17 = 0 ∧
    ¬ (1 + nino_zone 34 + nino 34 ≤ ((34 : Nat) : Int)) ∧
    ¬ (1 + nino_zone 17 + nino 17 ≤ (17 : Int)) :=
  have h := C25_layout_overruns_device 34 (by decide)
  ⟨by decide, by decide, fun hle => (h.1.1 hle) (by decide), h.2.2.2.2.1⟩

/-! ## Writing an inode back and reading it -/

/-- Setting a bit that is set changes nothing. -/
theorem or_eq_of_and_eq (m s : Nat) (h : m &&& s = s) : m ||| s = m := by
  apply Nat.eq_of_testBit_eq
  intro i
  have hi := congrArg (fun x => x.testBit i) h
  simp only [Nat.testBit_and, Nat.testBit_or] at hi ⊢
  cases hm : m.testBit i <;> cases hs : s.testBit i <;> simp_all

/-- Claim C26, as the code has it: for an inode with number `k` at least
`FS_ROOT_INO + 1` whose slot of the name index is populated (in an index whose
entries carry the numbers of their slots) and whose table block can be read, with
owner and group below 256, size at most `FS_IDATA * FS_BSIZE`, a mode below 65536
with the bit `S_IFREG` set, a modification time below `2 ^ 32` and any three
pointers, `fs_write_inode` followed by `fs_read_inode` of a new inode of the same
number fills in the same owner, group, size, mode, modification time and
pointers. -/
theorem C26_write_read_round_trip (sbi : m_sb) (dev : disk) (ino : inode) (now : Nat)
    (le : lookup_entry)
    (hk : FS_ROOT_INO + 1 ≤ ino.i_ino)
    (hok : lookup_ok sbi.s_nnodes sbi.s_lookup)
    (hle : sbi.s_lookup (ino.i_ino - FS_ROOT_INO - 1) = some le)
    (hread : FS_INO_BLK + (ino.i_ino - FS_ROOT_INO - 1) / FS_INO_PER_BLK < dev.dev_blocks)
    (huid : ino.i_uid < 2 ^ 8) (hgid : ino.i_gid < 2 ^ 8)
    (hsize : ino.i_size ≤ FS_IDATA * FS_BSIZE)
    (hmode : ino.i_mode < 2 ^ 16) (hreg : ino.i_mode &&& S_IFREG = S_IFREG)
    (htime : ino.i_mtime < 2 ^ 32) :
    ∃ x : inode,
      (fs_read_inode sbi (fs_write_inode sbi dev ino).2 (fs_alloc_inode ino.i_ino) now).2
        = some x ∧
      x.i_ino = ino.i_ino ∧ x.i_uid = ino.i_uid ∧ x.i_gid = ino.i_gid ∧
      x.i_size = ino.i_size ∧ x.i_mode = ino.i_mode ∧ x.i_mtime = ino.i_mtime ∧
      x.i_data = ino.i_data := by
  obtain ⟨hslot, hnum⟩ := hok _ le hle
  have hne : ¬ FS_ROOT_INO = ino.i_ino := by simp only [FS_ROOT_INO] at hk ⊢; omega
  have hnum' : le.i_ino = ino.i_ino := by
    rw [hnum]; simp only [FS_ROOT_INO] at hk ⊢; omega
  have hfind : lookup_by_ino sbi ino.i_ino = some (ino.i_ino - FS_ROOT_INO - 1) := by
    apply lookup_by_ino_first sbi ino.i_ino _ le hslot hle hnum'
    intro j le' hj hle'
    rw [(hok j le' hle').2]
    simp only [FS_ROOT_INO] at hj hk ⊢
    omega
  have hw := fs_write_inode_slot sbi dev ino hk hread
  have hrd : sb_bread (fs_write_inode sbi dev ino).2
      (FS_INO_BLK + (ino.i_ino - FS_ROOT_INO - 1) / FS_INO_PER_BLK) = true := by
    rw [hw]
    simp [sb_bread, hread]
  have hraw : fs_raw_inode sbi (fs_write_inode sbi dev ino).2 ino.i_ino
      = some (ino.i_ino - FS_ROOT_INO - 1) := by
    unfold fs_raw_inode
    rw [hfind]
    simp only [hrd, if_true, di_pos_slot]
  have hrec : (fs_write_inode sbi dev ino).2.itable (ino.i_ino - FS_ROOT_INO - 1) =
      { dev.itable (ino.i_ino - FS_ROOT_INO - 1) with
        name := strncpy (match fs_inode_to_name sbi ino.i_ino with
          | some nm => nm
          | none => ufile_name ino.i_ino) FS_FNAME_LEN
        i_ino := u16 ino.i_ino, i_mode := u16 ino.i_mode, i_uid := u8 ino.i_uid,
        i_gid := u8 ino.i_gid, i_size := u16 ino.i_size, i_nlinks := 1,
        i_time := u32 ino.i_mtime, i_data := ino.i_data } := by
    rw [hw]
    simp only [Function.update_same]
  have hsz : ino.i_size < 2 ^ 16 := by
    have : FS_IDATA * FS_BSIZE = 1536 := by decide
    omega
  have hral : (fs_alloc_inode ino.i_ino).i_ino = ino.i_ino := rfl
  have hx : (fs_read_inode sbi (fs_write_inode sbi dev ino).2 (fs_alloc_inode ino.i_ino) now).2
      = some { fs_alloc_inode ino.i_ino with
          i_size := u16 ino.i_size, i_mode := u16 ino.i_mode ||| S_IFREG,
          i_uid := u8 ino.i_uid, i_gid := u8 ino.i_gid, i_mtime := u32 ino.i_mtime,
          i_ctime := u32 ino.i_mtime, i_data := ino.i_data, i_nlink := 1 } := by
    unfold fs_read_inode
    rw [hral, if_neg hne, hraw]
    simp only [hrec]
    rfl
  refine ⟨_, hx, rfl, Nat.mod_eq_of_lt huid, Nat.mod_eq_of_lt hgid, Nat.mod_eq_of_lt hsz, ?_,
    Nat.mod_eq_of_lt htime, rfl⟩
  show u16 ino.i_mode ||| S_IFREG = ino.i_mode
  rw [show u16 ino.i_mode = ino.i_mode from Nat.mod_eq_of_lt hmode]
  exact or_eq_of_and_eq _ _ hreg

theorem C26_write_read_round_trip_witness :
    (run sample_mount sample_ops).sbi.s_lookup 0
      = some ⟨strncpy [102, 48] FS_FNAME_LEN, 2⟩ ∧
    ∃ x : inode,
      (fs_read_inode (run sample_mount sample_ops).sbi
        (fs_write_inode (run sample_mount sample_ops).sbi (run sample_mount sample_ops).dev
          (sample_file_owned 200 100)).2 (fs_alloc_inode 2) 5).2 = some x ∧
      x.i_ino = 2 ∧ x.i_uid = 200 ∧ x.i_gid = 100 ∧ x.i_size = 700 ∧ x.i_mode = 0o100644 ∧
      x.i_mtime = 1000000 ∧ x.i_data = ⟨2, 3, 4⟩ :=
  ⟨by decide,
    C26_write_read_round_trip (run sample_mount sample_ops).sbi
      (run sample_mount sample_ops).dev (sample_file_owned 200 100) 5
      ⟨strncpy [102, 48] FS_FNAME_LEN, 2⟩ (by decide)
      (by
        intro i le' h
        have hi : i = 0 := by
          by_contra hne
          have : (run sample_mount sample_ops).sbi.s_lookup i = none := by
            show (Function.update (fun _ => none) 0 _ : Nat → Option lookup_entry) i = none
            rw [Function.update_noteq hne]
          rw [this] at h
          cases h
        subst hi
        have h0 : (run sample_mount sample_ops).sbi.s_lookup 0
            = some ⟨strncpy [102, 48] FS_FNAME_LEN, 2⟩ := by decide
        rw [h0] at h
        cases h
        exact ⟨by decide, by decide⟩)
      (by decide) (by decide) (by decide) (by decide) (by decide) (by decide) (by decide)
      (by decide)⟩

/-- Claim C26 fails for an owner that does not fit the 8-bit field of the
record: the file of the sample session written back with owner 1000 and group
70000 is read with owner 232 and group 112. -/
theorem C26_counterexample :
    (sample_file_owned 1000 70000).i_uid < 2 ^ 32 ∧
    (sample_file_owned 1000 70000).i_gid < 2 ^ 32 ∧
    (fs_read_inode (run sample_mount sample_ops).sbi
      (fs_write_inode (run sample_mount sample_ops).sbi (run sample_mount sample_ops).dev
        (sample_file_owned 1000 70000)).2 (fs_alloc_inode 2) 5).2
      = some { sample_file_owned 232 112 with i_ctime := 1000000 } := by
  refine ⟨by decide, by decide, by decide⟩

end PlainFS
